import Mathlib

/-!
# ez-smtp: the SMTP session engine and the message builder

A shallow embedding of `src/smtp.h` and `src/smtp.cc`.

* `std::string` is a Lean `String`, `std::vector<Recipient>` a `List Recipient`.
* `absl::Status` is `Status`: `ok`, or an error with its code and message.
* The adapter (`SmtpAdapter`, an abstract class in the source) is a record of
  transition functions over an arbitrary adapter state `σ`: every virtual
  method takes the adapter state and returns its reply with the new state, so
  a reply may depend on everything the adapter has seen so far.
* A part of the engine is a `Run σ α`: from the adapter state it gives the
  value returned, the adapter state left and the adapter calls made, in order,
  each recorded with the reply it returned.
* `RETURN_IF_ERROR(expr)` is the usual status macro: evaluate `expr`, and
  return its status from the enclosing function when it is not OK.
-/

namespace EzSmtp

/-! ## Status and the adapter -/

/-- The `absl::Status` value: OK, or an error with a code and a message. -/
inductive Status where
  | ok
  | error (code : Nat) (message : String)
  deriving DecidableEq, Repr

/-- The `status.ok()` test. -/
def Status.isOk : Status → Bool
  | Status.ok => true
  | Status.error _ _ => false

/-- One call made on the adapter, recorded with its argument and its reply. -/
inductive Event where
  | Connect (reply : Status)
  | EnableTls (reply : Status)
  | Read (expected_return : Int) (reply : Status)
  | WriteLine (message : String) (reply : Status)
  | Hostname (reply : String)
  | Disconnect
  | EnableLogging
  deriving DecidableEq, Repr

/-- The status an adapter call returned; the calls that return no status
(`Hostname`, `Disconnect`, `EnableLogging`) cannot fail. -/
def Event.reply : Event → Status
  | Event.Connect r => r
  | Event.EnableTls r => r
  | Event.Read _ r => r
  | Event.WriteLine _ r => r
  | Event.Hostname _ => Status.ok
  | Event.Disconnect => Status.ok
  | Event.EnableLogging => Status.ok

/-- The abstract class `SmtpAdapter` of `smtp.h`: one transition function per
virtual method, over the adapter state `σ`. -/
structure SmtpAdapter (σ : Type) where
  Connect : σ → Status × σ
  EnableTls : σ → Status × σ
  Read : Int → σ → Status × σ
  WriteLine : String → σ → Status × σ
  Hostname : σ → String × σ
  Disconnect : σ → σ
  EnableLogging : σ → σ

/-- The outcome of running a part of the engine on the adapter: the value it
returns, the adapter state it leaves, and the adapter calls it made, in order. -/
structure Outcome (σ α : Type) where
  value : α
  state : σ
  calls : List Event

/-- A part of the engine: from the adapter state to its outcome. -/
def Run (σ α : Type) : Type := σ → Outcome σ α

/-- Returning a value makes no adapter call. -/
def Run.pure {σ α : Type} (a : α) : Run σ α := fun s => ⟨a, s, []⟩

/-- The outcome `o` when the calls `l` were made before it. -/
def Outcome.prepend {σ α : Type} (l : List Event) (o : Outcome σ α) : Outcome σ α :=
  ⟨o.value, o.state, l ++ o.calls⟩

/-- Sequencing: the calls of the first part, then the calls of the second. -/
def Run.bind {σ α β : Type} (m : Run σ α) (k : α → Run σ β) : Run σ β := fun s =>
  (k (m s).value (m s).state).prepend (m s).calls

instance (σ : Type) : Monad (Run σ) where
  pure := Run.pure
  bind := Run.bind

variable {σ : Type}

/-- The call `adapter.Connect()`. -/
def callConnect (adapter : SmtpAdapter σ) : Run σ Status := fun s =>
  ⟨(adapter.Connect s).1, (adapter.Connect s).2, [Event.Connect (adapter.Connect s).1]⟩

/-- The call `adapter.EnableTls()`. -/
def callEnableTls (adapter : SmtpAdapter σ) : Run σ Status := fun s =>
  ⟨(adapter.EnableTls s).1, (adapter.EnableTls s).2, [Event.EnableTls (adapter.EnableTls s).1]⟩

/-- The call `adapter.Read(expected_return)`. -/
def callRead (adapter : SmtpAdapter σ) (expected_return : Int) : Run σ Status := fun s =>
  ⟨(adapter.Read expected_return s).1, (adapter.Read expected_return s).2,
    [Event.Read expected_return (adapter.Read expected_return s).1]⟩

/-- The call `adapter.WriteLine(message)`. -/
def callWriteLine (adapter : SmtpAdapter σ) (message : String) : Run σ Status := fun s =>
  ⟨(adapter.WriteLine message s).1, (adapter.WriteLine message s).2,
    [Event.WriteLine message (adapter.WriteLine message s).1]⟩

/-- The call `adapter.Hostname()`. -/
def callHostname (adapter : SmtpAdapter σ) : Run σ String := fun s =>
  ⟨(adapter.Hostname s).1, (adapter.Hostname s).2, [Event.Hostname (adapter.Hostname s).1]⟩

/-- The call `adapter.Disconnect()`. -/
def callDisconnect (adapter : SmtpAdapter σ) : Run σ Unit := fun s =>
  ⟨(), adapter.Disconnect s, [Event.Disconnect]⟩

/-- The macro `RETURN_IF_ERROR(expr); rest`: run `expr`; when its status is not
OK return it at once, otherwise go on with `rest`. -/
def RETURN_IF_ERROR (expr rest : Run σ Status) : Run σ Status := do
  let status ← expr
  match status with
  | Status.ok => rest
  | Status.error code message => pure (Status.error code message)

/-! ## The data model of `smtp.h` -/

/-- The enum `RecipientType { Primary = 0, CarbonCopy = 1, Blind = 2 }`. -/
inductive RecipientType where
  | Primary
  | CarbonCopy
  | Blind
  deriving DecidableEq, Repr

/-- The integer value of a `RecipientType` enumerator. -/
def RecipientType.toInt : RecipientType → Int
  | RecipientType.Primary => 0
  | RecipientType.CarbonCopy => 1
  | RecipientType.Blind => 2

/-- The struct `Recipient`. -/
structure Recipient where
  address : String
  name : String
  recipient_type : RecipientType
  deriving DecidableEq, Repr

/-- The struct `Sender`. -/
structure Sender where
  address : String
  name : String
  deriving DecidableEq, Repr

/-- The data members of `BuilderImpl` (the adapter it is bound to is passed
separately). -/
structure BuilderImpl where
  recipients_ : List Recipient
  sender_ : Sender
  subject_ : String
  body_ : String
  content_type_ : String
  username_ : String
  password_ : String
  deriving DecidableEq, Repr

/-! ## Serialisation helpers of `smtp.cc` -/

/-- The function `WriteRecipient(field, address, name, output)`: the stream
`output` is the text written so far. -/
def WriteRecipient (field address name : String) (output : String) : String :=
  let output := output ++ field ++ ": " ++ address
  let output := if name.length > 0 then output ++ " <" ++ name ++ ">" else output
  output ++ "\r\n"

/-- The loop of `WriteRecipients`, from the iterator position `recipients`
with the flag `started`. -/
def WriteRecipients.loop (field : String) (recipient_type : Int) :
    List Recipient → Bool → String → String
  | [], _, output => output
  | it :: rest, started, output =>
    if it.recipient_type.toInt ≠ recipient_type then
      WriteRecipients.loop field recipient_type rest started output
    else
      let output := if started then output ++ ", " else output ++ field ++ ": "
      let output :=
        if it.name.length > 0 then output ++ it.name ++ " <" ++ it.address ++ ">"
        else output ++ it.address
      let output := output ++ "\r\n"
      WriteRecipients.loop field recipient_type rest true output

/-- The function `WriteRecipients(recipients, field, recipient_type, output)`. -/
def WriteRecipients (recipients : List Recipient) (field : String) (recipient_type : Int)
    (output : String) : String :=
  WriteRecipients.loop field recipient_type recipients false output

/-! ## Base64 -/

/-- The bits of one 8-bit `char`, most significant first. -/
def charBits (c : Char) : List Nat :=
  let b := c.toNat % 256
  [b / 128 % 2, b / 64 % 2, b / 32 % 2, b / 16 % 2, b / 8 % 2, b / 4 % 2, b / 2 % 2, b % 2]

/-- The boost iterator adaptor `transform_width<const char *, 6, 8>` on the bit
stream of its input: it regroups the stream into 6-bit values, most significant
bit first, and fills the last value with zero bits when the input ends inside
it. -/
def transform_width : List Nat → List Nat
  | b5 :: b4 :: b3 :: b2 :: b1 :: b0 :: rest =>
    (b5 * 32 + b4 * 16 + b3 * 8 + b2 * 4 + b1 * 2 + b0) :: transform_width rest
  | [b5, b4, b3, b2, b1] => [b5 * 32 + b4 * 16 + b3 * 8 + b2 * 4 + b1 * 2]
  | [b5, b4, b3, b2] => [b5 * 32 + b4 * 16 + b3 * 8 + b2 * 4]
  | [b5, b4, b3] => [b5 * 32 + b4 * 16 + b3 * 8]
  | [b5, b4] => [b5 * 32 + b4 * 16]
  | [b5] => [b5 * 32]
  | [] => []

/-- The lookup table of the boost iterator adaptor `base64_from_binary`. -/
def lookup_table : List Char :=
  "ABCDEFGHIJKLMNOPQRSTUVWXYZabcdefghijklmnopqrstuvwxyz0123456789+/".toList

/-- The boost iterator adaptor `base64_from_binary`: the character of a 6-bit
value. -/
def base64_from_binary (t : Nat) : Char :=
  lookup_table.getD t 'A'

/-- The loop `while (data_size % 3 != 0) { result += '='; data_size++; }` of
`Base64Encode`, run for at most `fuel` iterations. -/
def Base64Encode.loop : Nat → Nat → String → String
  | 0, _, result => result
  | fuel + 1, data_size, result =>
    if data_size % 3 ≠ 0 then Base64Encode.loop fuel (data_size + 1) (result.push '=')
    else result

/-- The function `Base64Encode(data)`. The padding loop exits after at most two
iterations, so three iterations of fuel let it run to its exit. -/
def Base64Encode (data : String) : String :=
  let result := String.mk ((transform_width (data.toList.flatMap charBits)).map base64_from_binary)
  Base64Encode.loop 3 data.length result

/-! ## The session engine of `smtp.cc` -/

/-- The string `'\000' + std::string(username) + '\000' + std::string(password)`. -/
def authBlob (username password : String) : String :=
  String.singleton (Char.ofNat 0) ++ username ++ String.singleton (Char.ofNat 0) ++ password

/-- The function `StartTls(adapter, username, password)`. -/
def StartTls (adapter : SmtpAdapter σ) (username password : String) : Run σ Status :=
  RETURN_IF_ERROR (callRead adapter 220) <|
  RETURN_IF_ERROR (callWriteLine adapter "STARTTLS") <|
  RETURN_IF_ERROR (callRead adapter 220) <|
  RETURN_IF_ERROR (callEnableTls adapter) <| do
  let hostname ← callHostname adapter
  RETURN_IF_ERROR (callWriteLine adapter ("HELO " ++ hostname)) <|
    RETURN_IF_ERROR (callRead adapter 250) <|
    RETURN_IF_ERROR (callWriteLine adapter "AUTH PLAIN") <|
    RETURN_IF_ERROR (callRead adapter 334) <|
    let auth_hash := Base64Encode (authBlob username password)
    RETURN_IF_ERROR (callWriteLine adapter auth_hash) <|
    RETURN_IF_ERROR (callRead adapter 235) <|
    pure Status.ok

/-- The function `Connect(adapter, username, password)`. -/
def Connect (adapter : SmtpAdapter σ) (username password : String) : Run σ Status :=
  RETURN_IF_ERROR (callConnect adapter) <| do
  let status ← StartTls adapter username password
  if !status.isOk then
    callDisconnect adapter
  pure status

/-- The function `Quit(adapter)`. -/
def Quit (adapter : SmtpAdapter σ) : Run σ Status := do
  let status ← callWriteLine adapter "QUIT"
  let status ← if status.isOk then callRead adapter 221 else pure status
  callDisconnect adapter
  pure status

/-! ## The message builder -/

namespace BuilderImpl

/-- The setter `SetSubject`. -/
def SetSubject (b : BuilderImpl) (subject : String) : BuilderImpl :=
  { b with subject_ := subject }

/-- The setter `SetBody`. -/
def SetBody (b : BuilderImpl) (body : String) : BuilderImpl :=
  { b with body_ := body }

/-- The setter `SetSender`; the name defaults to the empty string. -/
def SetSender (b : BuilderImpl) (address : String) (name : String := "") : BuilderImpl :=
  { b with sender_ := { address := address, name := name } }

/-- The setter `SetContentType`. -/
def SetContentType (b : BuilderImpl) (content_type : String) : BuilderImpl :=
  { b with content_type_ := content_type }

/-- The method `AddRecipient`; the name defaults to the empty string and the
type to `Primary`. -/
def AddRecipient (b : BuilderImpl) (address : String) (name : String := "")
    (recipient_type : RecipientType := RecipientType.Primary) : BuilderImpl :=
  { b with recipients_ := b.recipients_ ++
      [{ address := address, name := name, recipient_type := recipient_type }] }

/-- The method `Reset`. -/
def Reset (b : BuilderImpl) : BuilderImpl :=
  { b with subject_ := "", body_ := "", sender_ := { address := "", name := "" },
           content_type_ := "", recipients_ := [] }

/-- The contents of the stream `data` that `SendBatch` builds and writes after
`DATA` was accepted. -/
def data (b : BuilderImpl) : String :=
  let data := ""
  let data := WriteRecipient "From" b.sender_.address b.sender_.name data
  let data := WriteRecipients b.recipients_ "To" RecipientType.Primary.toInt data
  let data := WriteRecipients b.recipients_ "Cc" RecipientType.CarbonCopy.toInt data
  let data := WriteRecipients b.recipients_ "Bcc" RecipientType.Blind.toInt data
  let data :=
    if b.content_type_ ≠ "" then
      data ++ "MIME-Version: 1.0\r\n" ++ "Content-Type: " ++ b.content_type_ ++ "\r\n"
    else data
  let data := data ++ "Subject: " ++ b.subject_ ++ "\r\n\r\n"
  data ++ b.body_ ++ "\r\n."

/-- The loop of `SendBatch` over the recipients, from the iterator position
given by the list, followed by the rest of the function. -/
def SendBatch.loop (adapter : SmtpAdapter σ) (rest : Run σ Status) :
    List Recipient → Run σ Status
  | [] => rest
  | it :: its =>
    RETURN_IF_ERROR (callWriteLine adapter ("RCPT TO: <" ++ it.address ++ ">")) <|
    RETURN_IF_ERROR (callRead adapter 250) <|
    SendBatch.loop adapter rest its

/-- The method `BuilderImpl::SendBatch`. -/
def SendBatch (adapter : SmtpAdapter σ) (b : BuilderImpl) : Run σ Status :=
  RETURN_IF_ERROR (callWriteLine adapter ("MAIL FROM: <" ++ b.sender_.address ++ ">")) <|
  RETURN_IF_ERROR (callRead adapter 250) <|
  SendBatch.loop adapter
    (RETURN_IF_ERROR (callWriteLine adapter "DATA") <|
     RETURN_IF_ERROR (callRead adapter 354) <|
     RETURN_IF_ERROR (callWriteLine adapter b.data) <|
     RETURN_IF_ERROR (callRead adapter 250) <|
     pure Status.ok)
    b.recipients_

/-- The method `BuilderImpl::Send`. -/
def Send (adapter : SmtpAdapter σ) (b : BuilderImpl) : Run σ Status :=
  RETURN_IF_ERROR (Connect adapter b.username_ b.password_) <| do
  let status ← SendBatch adapter b
  if !status.isOk then do
    callDisconnect adapter
    pure status
  else
    Quit adapter

end BuilderImpl

/-- The data members of the class `Smtp` (the adapter is passed separately). -/
structure Smtp where
  username_ : String
  password_ : String
  builder_ : BuilderImpl
  deriving DecidableEq, Repr

namespace Smtp

/-- The constructor `Smtp(username, password, adapter)`. -/
def new (username password : String) : Smtp :=
  { username_ := username, password_ := password,
    builder_ := { recipients_ := [], sender_ := { address := "", name := "" }, subject_ := "",
                  body_ := "", content_type_ := "", username_ := username,
                  password_ := password } }

/-- The method `Smtp::NewEmail`: resets the builder and returns it. -/
def NewEmail (smtp : Smtp) : BuilderImpl :=
  smtp.builder_.Reset

/-- The method `Smtp::Connect`. -/
def Connect (adapter : SmtpAdapter σ) (smtp : Smtp) : Run σ Status :=
  EzSmtp.Connect adapter smtp.username_ smtp.password_

/-- The method `Smtp::Disconnect`. -/
def Disconnect (adapter : SmtpAdapter σ) (_smtp : Smtp) : Run σ Status :=
  Quit adapter

end Smtp

/-! ## Test doubles -/

/-- The adapter that replies OK to every call and reports the host name
`host`, like the mock of the tests. -/
def okAdapter (host : String) : SmtpAdapter Unit where
  Connect := fun s => (Status.ok, s)
  EnableTls := fun s => (Status.ok, s)
  Read := fun _ s => (Status.ok, s)
  WriteLine := fun _ s => (Status.ok, s)
  Hostname := fun s => (host, s)
  Disconnect := fun s => s
  EnableLogging := fun s => s

/-- The adapter whose state counts the calls made so far and whose call
number `n` (from 0) fails with `e`; every other call replies OK. -/
def failAt (n : Nat) (e : Status) (host : String) : SmtpAdapter Nat where
  Connect := fun s => (if s = n then e else Status.ok, s + 1)
  EnableTls := fun s => (if s = n then e else Status.ok, s + 1)
  Read := fun _ s => (if s = n then e else Status.ok, s + 1)
  WriteLine := fun _ s => (if s = n then e else Status.ok, s + 1)
  Hostname := fun s => (host, s + 1)
  Disconnect := fun s => s + 1
  EnableLogging := fun s => s + 1

/-! ## Scripts of adapter calls -/

/-- The event `e` with the reply `r` in place of its own, for the calls that
return a status. -/
def Event.withReply : Event → Status → Event
  | Event.Connect _, r => Event.Connect r
  | Event.EnableTls _, r => Event.EnableTls r
  | Event.Read n _, r => Event.Read n r
  | Event.WriteLine m _, r => Event.WriteLine m r
  | Event.Hostname h, _ => Event.Hostname h
  | Event.Disconnect, _ => Event.Disconnect
  | Event.EnableLogging, _ => Event.EnableLogging

/-- An outcome follows a script of calls: either every call of the script was
made and replied OK and the value is OK, or the calls are a part of the script
up to a call that failed, after which nothing was called, and the value is the
status of that call. -/
def Follows {σ : Type} (script : List Event) (o : Outcome σ Status) : Prop :=
  (o.value = Status.ok ∧ o.calls = script) ∨
  (∃ pre e post, script = pre ++ e :: post ∧ o.value ≠ Status.ok ∧
    (e.withReply o.value).reply = o.value ∧ o.calls = pre ++ [e.withReply o.value])

/-- The calls of a handshake in which every call replies OK, after the
adapter connected and with the host name the adapter reports. -/
def handshake (hostname username password : String) : List Event :=
  [Event.Read 220 Status.ok, Event.WriteLine "STARTTLS" Status.ok, Event.Read 220 Status.ok,
   Event.EnableTls Status.ok, Event.Hostname hostname,
   Event.WriteLine ("HELO " ++ hostname) Status.ok, Event.Read 250 Status.ok,
   Event.WriteLine "AUTH PLAIN" Status.ok, Event.Read 334 Status.ok,
   Event.WriteLine (Base64Encode (authBlob username password)) Status.ok,
   Event.Read 235 Status.ok]

/-- The calls of a message transaction in which every call replies OK. -/
def transaction (b : BuilderImpl) : List Event :=
  [Event.WriteLine ("MAIL FROM: <" ++ b.sender_.address ++ ">") Status.ok,
   Event.Read 250 Status.ok] ++
  b.recipients_.flatMap (fun it =>
    [Event.WriteLine ("RCPT TO: <" ++ it.address ++ ">") Status.ok, Event.Read 250 Status.ok]) ++
  [Event.WriteLine "DATA" Status.ok, Event.Read 354 Status.ok,
   Event.WriteLine b.data Status.ok, Event.Read 250 Status.ok]

/-- A sample builder: three recipients, two of them with the same address, one
of each role. -/
def sampleBuilder : BuilderImpl :=
  ((((((Smtp.new "username" "password").NewEmail.SetSender "from@example.com").AddRecipient
    "to@example.com").AddRecipient "to@example.com" "joe smith"
    RecipientType.CarbonCopy).AddRecipient "bcc@example.com" "jane smith"
    RecipientType.Blind).SetSubject "Subject").SetBody "This is the body."

/-! ## Standard base64 (RFC 4648), for comparison with `Base64Encode` -/

/-- The value of a `char` as a byte. -/
def byteOf (c : Char) : Nat := c.toNat % 256

/-- The bytes of a string, one per `char`. -/
def bytesOf (data : String) : List Nat := data.toList.map byteOf

/-- The base64 alphabet of RFC 4648, Table 1: the value 0 to 25 is `A` to `Z`,
26 to 51 is `a` to `z`, 52 to 61 is `0` to `9`, 62 is `+` and 63 is `/`. -/
def rfc4648Alphabet (v : Nat) : Char :=
  if v < 26 then Char.ofNat (65 + v)
  else if v < 52 then Char.ofNat (97 + (v - 26))
  else if v < 62 then Char.ofNat (48 + (v - 52))
  else if v = 62 then '+'
  else '/'

/-- The standard base64 encoding with padding of RFC 4648, section 4: each
group of three bytes gives four characters of six bits each; a final group of
two bytes gives three characters and one `=`, a final group of one byte gives
two characters and two `=`. -/
def rfc4648Encode : List Nat → List Char
  | a :: b :: c :: rest =>
    rfc4648Alphabet (a / 4) :: rfc4648Alphabet (a % 4 * 16 + b / 16) ::
      rfc4648Alphabet (b % 16 * 4 + c / 64) :: rfc4648Alphabet (c % 64) :: rfc4648Encode rest
  | [a, b] =>
    [rfc4648Alphabet (a / 4), rfc4648Alphabet (a % 4 * 16 + b / 16),
     rfc4648Alphabet (b % 16 * 4), '=']
  | [a] => [rfc4648Alphabet (a / 4), rfc4648Alphabet (a % 4 * 16), '=', '=']
  | [] => []

/-! ## Positions in a list of calls -/

/-- The property `P pre e post` holds at every position of a list of calls
made after the calls `acc`: for the call `e` at that position, the calls `pre`
made before it (those of `acc` included) and the calls `post` made after it. -/
def Splits (P : List Event → Event → List Event → Prop) : List Event → List Event → Prop
  | _, [] => True
  | acc, e :: post => P acc e post ∧ Splits P (acc ++ [e]) post

/-! ## The recipient headers as the specification words them -/

/-- The mailbox of a recipient: the name, ` <`, the address, `>` when the name
is not empty, the address alone otherwise. -/
def mailbox (it : Recipient) : String :=
  if it.name ≠ "" then it.name ++ " <" ++ it.address ++ ">" else it.address

/-- The header line of one role as the specification words it for a role with
at most one recipient: nothing when no recipient has the role, otherwise the
field, a colon and a space, the mailbox of the recipient, CRLF. -/
def expectedHeader (recipients : List Recipient) (field : String) (ty : RecipientType) :
    String :=
  match recipients.find? (fun it => it.recipient_type = ty) with
  | none => ""
  | some it => field ++ ": " ++ mailbox it ++ "\r\n"

/-- The builder of the first test of `smtp_test.cc`. -/
def testBuilder : BuilderImpl :=
  ((((((Smtp.new "username" "password").NewEmail.SetSender "from@example.com").AddRecipient
    "to@example.com").AddRecipient "cc@example.com" "joe smith"
    RecipientType.CarbonCopy).AddRecipient "bcc@example.com" "jane smith"
    RecipientType.Blind).SetSubject "Subject").SetBody "This is the body."

/-- The line a `WriteLine` call writes. -/
def Event.line? : Event → Option String
  | Event.WriteLine message _ => some message
  | _ => none

/-- A call of one of the setters of `Builder`, with its arguments. -/
inductive Setter where
  | SetSubject (subject : String)
  | SetBody (body : String)
  | SetSender (address name : String)
  | SetContentType (content_type : String)
  | AddRecipient (address name : String) (recipient_type : RecipientType)
  deriving DecidableEq, Repr

/-- The builder after a setter call. -/
def Setter.apply : Setter → BuilderImpl → BuilderImpl
  | Setter.SetSubject subject, b => b.SetSubject subject
  | Setter.SetBody body, b => b.SetBody body
  | Setter.SetSender address name, b => b.SetSender address name
  | Setter.SetContentType content_type, b => b.SetContentType content_type
  | Setter.AddRecipient address name recipient_type, b =>
    b.AddRecipient address name recipient_type

/-- The builder after a chain of setter calls `b.f1(..).f2(..)...`, every
setter returning the builder itself. -/
def BuilderImpl.chain (b : BuilderImpl) (setters : List Setter) : BuilderImpl :=
  setters.foldl (fun builder setter => setter.apply builder) b

/-- The statement `smtp.NewEmail().f1(..)...SendBatch()` of the usage notes of
`smtp.h`: `NewEmail` resets the member `builder_` and returns a reference to
it, the setters act on it and return it, and `SendBatch` reads it. The result
is the outcome of `SendBatch` and the `Smtp` object after the statement. -/
def Smtp.NewEmailSendBatch (adapter : SmtpAdapter σ) (smtp : Smtp) (setters : List Setter)
    (s : σ) : Outcome σ Status × Smtp :=
  let builder := smtp.NewEmail.chain setters
  (builder.SendBatch adapter s, { smtp with builder_ := builder })

/-- The statement `smtp.NewEmail().f1(..)...Send()`, like
`Smtp.NewEmailSendBatch`. -/
def Smtp.NewEmailSend (adapter : SmtpAdapter σ) (smtp : Smtp) (setters : List Setter)
    (s : σ) : Outcome σ Status × Smtp :=
  let builder := smtp.NewEmail.chain setters
  (builder.Send adapter s, { smtp with builder_ := builder })

/-- The setter calls of the first test of `smtp_test.cc`. -/
def testSetters : List Setter :=
  [Setter.SetSender "from@example.com" "",
   Setter.AddRecipient "to@example.com" "" RecipientType.Primary,
   Setter.AddRecipient "cc@example.com" "joe smith" RecipientType.CarbonCopy,
   Setter.AddRecipient "bcc@example.com" "jane smith" RecipientType.Blind,
   Setter.SetSubject "Subject", Setter.SetBody "This is the body."]

/-- The reply of the first call of a list that did not reply OK, and OK when
every call replied OK. -/
def firstFailure : List Event → Status
  | [] => Status.ok
  | e :: rest => if e.reply = Status.ok then firstFailure rest else e.reply

/-- The value of an outcome is the status of its first failing call: it is OK
if and only if every call replied OK, and otherwise it is the reply of a call
before which every call replied OK. -/
def ReturnsFirstFailure {σ : Type} (o : Outcome σ Status) : Prop :=
  (o.value = Status.ok ↔ ∀ e ∈ o.calls, e.reply = Status.ok) ∧
  (o.value ≠ Status.ok → ∃ pre e post, o.calls = pre ++ e :: post ∧
    (∀ x ∈ pre, x.reply = Status.ok) ∧ e.reply = o.value)

/-- A list of calls alternates: the calls of even number (from 0) are
`WriteLine` calls, those of odd number are `Read` calls. -/
def Alternates (l : List Event) : Prop :=
  ∀ i e, l[i]? = some e →
    (i % 2 = 0 → ∃ m r, e = Event.WriteLine m r) ∧ (i % 2 = 1 → ∃ n r, e = Event.Read n r)

/-- The value of a character of the base64 alphabet of RFC 4648, Table 1, read
in the direction of decoding; no value for any other character. -/
def rfc4648Value (c : Char) : Option Nat :=
  if 'A' ≤ c ∧ c ≤ 'Z' then some (c.toNat - 'A'.toNat)
  else if 'a' ≤ c ∧ c ≤ 'z' then some (c.toNat - 'a'.toNat + 26)
  else if '0' ≤ c ∧ c ≤ '9' then some (c.toNat - '0'.toNat + 52)
  else if c = '+' then some 62
  else if c = '/' then some 63
  else none

/-- The standard base64 decoding of RFC 4648, section 4: four characters give
three bytes; a final group that ends in one `=` gives two bytes, one that ends
in two `=` gives one byte; anything else is not base64 text. -/
def rfc4648Decode : List Char → Option (List Nat)
  | [] => some []
  | c0 :: c1 :: c2 :: c3 :: rest =>
    match rfc4648Value c0, rfc4648Value c1 with
    | some v0, some v1 =>
      if c3 = '=' then
        match rest with
        | [] =>
          if c2 = '=' then some [v0 * 4 + v1 / 16]
          else
            match rfc4648Value c2 with
            | some v2 => some [v0 * 4 + v1 / 16, v1 % 16 * 16 + v2 / 4]
            | none => none
        | _ :: _ => none
      else
        match rfc4648Value c2, rfc4648Value c3, rfc4648Decode rest with
        | some v2, some v3, some tail =>
          some ((v0 * 4 + v1 / 16) :: (v1 % 16 * 16 + v2 / 4) :: (v2 % 4 * 64 + v3) :: tail)
        | _, _, _ => none
    | _, _ => none
  | _ => none

/-- The C library predicate `isspace` in the "C" locale: the space and the
characters `\t`, `\n`, `\v`, `\f` and `\r`. -/
def isspace (c : Char) : Bool :=
  decide (c.toNat = 32 ∨ (9 ≤ c.toNat ∧ c.toNat ≤ 13))

/-- The digits loop of `atoi`: the value of the longest run of decimal digits
at the start of the text, after the value `acc` of the digits already read. -/
def atoi.digits : List Char → Nat → Nat
  | [], acc => acc
  | c :: rest, acc =>
    if 48 ≤ c.toNat ∧ c.toNat ≤ 57 then atoi.digits rest (acc * 10 + (c.toNat - 48)) else acc

/-- The C library function `atoi` on the `char`s `nptr` points to: the text
ends at the first NUL; white space is skipped, one sign is read, then the
decimal digits up to the first other character. `Read` passes it at most three
`char`s, so the value always fits an `int`. -/
def atoi (nptr : List Char) : Int :=
  match (nptr.takeWhile (fun c => decide (c.toNat ≠ 0))).dropWhile isspace with
  | [] => 0
  | c :: rest =>
    if c.toNat = 45 then -(atoi.digits rest 0 : Int)
    else if c.toNat = 43 then (atoi.digits rest 0 : Int)
    else (atoi.digits (c :: rest) 0 : Int)

/-- The decision of `SmtpAdapterImpl::Read(expected_return)` on the bytes
`received` that `read_some` or `receive` put in the buffer (`bytes_received` is
their number): `absl::InternalError` has the code 13, and `%d` writes an `int`
in decimal. -/
def SmtpAdapterImpl.Read (received : String) (expected_return : Int) : Status :=
  if received.length = 0 then Status.error 13 "The server closed the connection"
  else
    let response := received
    let return_value := atoi (response.data.take 3)
    if return_value ≠ expected_return then
      Status.error 13
        ("Expected status " ++ toString expected_return ++ ", received " ++ toString return_value)
    else Status.ok

/-- The three decimal digits of a code between 100 and 999. -/
def threeDigits (code : Int) : List Char :=
  [Nat.digitChar (code.toNat / 100), Nat.digitChar (code.toNat / 10 % 10),
   Nat.digitChar (code.toNat % 10)]

/-- The line `SmtpAdapterImpl::WriteLine(message)` puts on the socket:
`const std::string line = std::string(absl::StrCat(message, "\r\n"))`. -/
def SmtpAdapterImpl.WriteLine.line (message : String) : String :=
  message ++ "\r\n"

/-- The end-of-data sequence of SMTP: CRLF, a dot, CRLF. -/
def endOfData : List Char := ['\r', '\n', '.', '\r', '\n']

/-- The number of places of a text at which the sequence `pattern` starts. -/
def occurrences (pattern : List Char) : List Char → Nat
  | [] => 0
  | c :: rest =>
    (if (c :: rest).take pattern.length = pattern then 1 else 0) + occurrences pattern rest

/-- Whether some line of a text begins with a dot; `atStart` tells whether the
text starts at the beginning of a line. A line begins after each line feed. -/
def dotLine : Bool → List Char → Bool
  | _, [] => false
  | atStart, c :: rest => (atStart && c == '.') || dotLine (c == '\n') rest

/-- Whether the end of a text is the beginning of a line. -/
def atLineStart : Bool → List Char → Bool
  | atStart, [] => atStart
  | _, c :: rest => atLineStart (c == '\n') rest

/-- A string without a line feed. -/
def noLineFeed (s : String) : Bool :=
  s.data.all (fun c => c != '\n')

/-- The strings a builder writes into the header lines of the payload: the
sender, the recipients, the content type and the subject. -/
def BuilderImpl.headerFields (b : BuilderImpl) : List String :=
  [b.sender_.address, b.sender_.name, b.content_type_, b.subject_] ++
    b.recipients_.flatMap (fun it => [it.address, it.name])

/-- A text in which no line begins with a dot, between two line states. -/
def Clean (s : Bool) (l : List Char) (t : Bool) : Prop :=
  dotLine s l = false ∧ atLineStart s l = t

/-- The lines of a text, each with the line feed that ends it; what follows
the last line feed, if anything, is the last line. -/
def splitLines : List Char → List (List Char)
  | [] => []
  | c :: rest =>
    if c = '\n' then [c] :: splitLines rest
    else
      match splitLines rest with
      | [] => [[c]]
      | l :: ls => (c :: l) :: ls

/-- The header section of a message: its lines before the first empty line
(CRLF alone, or a line feed alone). -/
def headerLines (payload : String) : List (List Char) :=
  (splitLines payload.data).takeWhile (fun l => decide (l ≠ ['\r', '\n'] ∧ l ≠ ['\n']))

/-- Whether a line begins with the text `p`. -/
def startsWith (p : String) (l : List Char) : Bool :=
  decide (l.take p.length = p.data)

/-- The lines the loop of `WriteRecipients` writes for the recipients of one
role, from the iterator position `recipients` with the flag `started`: one line
for each recipient of the role, since the loop ends the line after each. -/
def recipientLines (field : String) (ty : RecipientType) : List Recipient → Bool → List String
  | [], _ => []
  | it :: rest, started =>
    if it.recipient_type ≠ ty then recipientLines field ty rest started
    else ((if started then ", " else field ++ ": ") ++ (mailbox it ++ "\r\n")) ::
      recipientLines field ty rest true

/-- The lines `SendBatch` writes before the empty line that ends the header
section: the `From` line, the lines of the three roles, the MIME lines when a
content type is set, the `Subject` line. -/
def BuilderImpl.writtenHeaderLines (b : BuilderImpl) : List String :=
  [WriteRecipient "From" b.sender_.address b.sender_.name ""] ++
  recipientLines "To" RecipientType.Primary b.recipients_ false ++
  recipientLines "Cc" RecipientType.CarbonCopy b.recipients_ false ++
  recipientLines "Bcc" RecipientType.Blind b.recipients_ false ++
  (if b.content_type_ ≠ "" then
    ["MIME-Version: 1.0\r\n", "Content-Type: " ++ (b.content_type_ ++ "\r\n")] else []) ++
  ["Subject: " ++ (b.subject_ ++ "\r\n")]

/-- A text that is one line: it has one line feed, at its end. -/
def IsLine (l : List Char) : Prop :=
  ∃ t, l = t ++ ['\n'] ∧ '\n' ∉ t

/-- Every line of a list begins with one of the given pairs of characters. -/
def TagsIn (ls : List String) (tags : List (List Char)) : Prop :=
  ∀ l ∈ ls, l.data.take 2 ∈ tags

/-! ## The monad of the engine -/

@[simp] theorem Outcome.prepend_value {α : Type} (l : List Event) (o : Outcome σ α) :
    (o.prepend l).value = o.value := rfl

@[simp] theorem Outcome.prepend_state {α : Type} (l : List Event) (o : Outcome σ α) :
    (o.prepend l).state = o.state := rfl

@[simp] theorem Outcome.prepend_calls {α : Type} (l : List Event) (o : Outcome σ α) :
    (o.prepend l).calls = l ++ o.calls := rfl

theorem run_bind {α β : Type} (m : Run σ α) (k : α → Run σ β) (s : σ) :
    (m >>= k) s = (k (m s).value (m s).state).prepend (m s).calls := rfl

theorem run_pure {α : Type} (a : α) (s : σ) :
    (pure a : Run σ α) s = ⟨a, s, []⟩ := rfl

theorem RETURN_IF_ERROR_ok (expr rest : Run σ Status) (s : σ)
    (h : (expr s).value = Status.ok) :
    RETURN_IF_ERROR expr rest s = (rest (expr s).state).prepend (expr s).calls := by
  simp only [RETURN_IF_ERROR, run_bind, h]

theorem RETURN_IF_ERROR_error (expr rest : Run σ Status) (s : σ)
    (h : (expr s).value ≠ Status.ok) :
    RETURN_IF_ERROR expr rest s = expr s := by
  cases hv : (expr s).value with
  | ok => exact absurd hv h
  | error c m =>
    simp only [RETURN_IF_ERROR, run_bind, hv]
    show (⟨Status.error c m, (expr s).state, (expr s).calls ++ []⟩ : Outcome σ Status) = expr s
    rw [List.append_nil, ← hv]

theorem Follows.pure_ok (s : σ) : Follows [] ((pure Status.ok : Run σ Status) s) :=
  Or.inl ⟨rfl, rfl⟩

theorem Follows.prepend {script : List Event} {o : Outcome σ Status} (l : List Event)
    (h : Follows script o) : Follows (l ++ script) (o.prepend l) := by
  rcases h with ⟨hv, hc⟩ | ⟨pre, e, post, hs, hv, hr, hc⟩
  · exact Or.inl ⟨hv, by simp [hc]⟩
  · exact Or.inr ⟨l ++ pre, e, post, by simp [hs], hv, hr, by simp [hc]⟩

theorem Follows.read (A : SmtpAdapter σ) (n : Int) (rest : Run σ Status) (s : σ)
    {script : List Event} (h : Follows script (rest (callRead A n s).state)) :
    Follows (Event.Read n Status.ok :: script) (RETURN_IF_ERROR (callRead A n) rest s) := by
  by_cases hv : (callRead A n s).value = Status.ok
  · rw [RETURN_IF_ERROR_ok _ _ _ hv]
    have hc : (callRead A n s).calls = [Event.Read n Status.ok] := by
      simp only [callRead] at hv ⊢
      rw [hv]
    rw [hc]
    exact h.prepend _
  · rw [RETURN_IF_ERROR_error _ _ _ hv]
    exact Or.inr ⟨[], Event.Read n Status.ok, script, rfl, hv, rfl, rfl⟩

theorem Follows.writeLine (A : SmtpAdapter σ) (m : String) (rest : Run σ Status) (s : σ)
    {script : List Event} (h : Follows script (rest (callWriteLine A m s).state)) :
    Follows (Event.WriteLine m Status.ok :: script)
      (RETURN_IF_ERROR (callWriteLine A m) rest s) := by
  by_cases hv : (callWriteLine A m s).value = Status.ok
  · rw [RETURN_IF_ERROR_ok _ _ _ hv]
    have hc : (callWriteLine A m s).calls = [Event.WriteLine m Status.ok] := by
      simp only [callWriteLine] at hv ⊢
      rw [hv]
    rw [hc]
    exact h.prepend _
  · rw [RETURN_IF_ERROR_error _ _ _ hv]
    exact Or.inr ⟨[], Event.WriteLine m Status.ok, script, rfl, hv, rfl, rfl⟩

theorem Follows.enableTls (A : SmtpAdapter σ) (rest : Run σ Status) (s : σ)
    {script : List Event} (h : Follows script (rest (callEnableTls A s).state)) :
    Follows (Event.EnableTls Status.ok :: script)
      (RETURN_IF_ERROR (callEnableTls A) rest s) := by
  by_cases hv : (callEnableTls A s).value = Status.ok
  · rw [RETURN_IF_ERROR_ok _ _ _ hv]
    have hc : (callEnableTls A s).calls = [Event.EnableTls Status.ok] := by
      simp only [callEnableTls] at hv ⊢
      rw [hv]
    rw [hc]
    exact h.prepend _
  · rw [RETURN_IF_ERROR_error _ _ _ hv]
    exact Or.inr ⟨[], Event.EnableTls Status.ok, script, rfl, hv, rfl, rfl⟩

theorem Follows.hostname (A : SmtpAdapter σ) (rest : String → Run σ Status) (s : σ)
    {script : List Event}
    (h : Follows script (rest (callHostname A s).value (callHostname A s).state)) :
    Follows (Event.Hostname (callHostname A s).value :: script) ((callHostname A >>= rest) s) :=
  h.prepend [Event.Hostname (callHostname A s).value]

theorem StartTls_follows (A : SmtpAdapter σ) (u p : String) (s : σ) :
    ∃ host, Follows (handshake host u p) (StartTls A u p s) := by
  unfold StartTls handshake
  refine ⟨(callHostname A (callEnableTls A (callRead A 220
    (callWriteLine A "STARTTLS" (callRead A 220 s).state).state).state).state).value, ?_⟩
  apply Follows.read
  apply Follows.writeLine
  apply Follows.read
  apply Follows.enableTls
  apply Follows.hostname
  apply Follows.writeLine
  apply Follows.read
  apply Follows.writeLine
  apply Follows.read
  apply Follows.writeLine
  apply Follows.read
  exact Follows.pure_ok _

theorem Follows.index {script : List Event} {o : Outcome σ Status} (h : Follows script o) :
    (o.value = Status.ok ∧ o.calls = script) ∨
    (∃ k, ∃ hk : k < script.length, o.value ≠ Status.ok ∧
      ((script.get ⟨k, hk⟩).withReply o.value).reply = o.value ∧
      o.calls = script.take k ++ [(script.get ⟨k, hk⟩).withReply o.value]) := by
  rcases h with h | ⟨pre, e, post, hs, hv, hr, hc⟩
  · exact Or.inl h
  · subst hs
    have hg : (pre ++ e :: post).get ⟨pre.length, by simp⟩ = e := by
      simp [List.getElem_append_right]
    refine Or.inr ⟨pre.length, by simp, hv, ?_, ?_⟩
    · rw [hg]; exact hr
    · rw [hg, List.take_left']
      · exact hc
      · rfl

/-- The calls `Connect` makes: the adapter's `Connect` alone when it fails, and
otherwise the calls of `StartTls`, followed by `Disconnect` when `StartTls`
failed. -/
theorem Connect_shape (A : SmtpAdapter σ) (u p : String) (s : σ) :
    ((A.Connect s).1 ≠ Status.ok ∧ (Connect A u p s).value = (A.Connect s).1 ∧
      (Connect A u p s).calls = [Event.Connect (A.Connect s).1]) ∨
    ((A.Connect s).1 = Status.ok ∧ ∃ host, ∃ o : Outcome σ Status,
      Follows (handshake host u p) o ∧ (Connect A u p s).value = o.value ∧
      (Connect A u p s).calls =
        Event.Connect Status.ok ::
          (o.calls ++ if o.value = Status.ok then [] else [Event.Disconnect])) := by
  by_cases hc : (callConnect A s).value = Status.ok
  · right
    refine ⟨hc, ?_⟩
    obtain ⟨host, hf⟩ := StartTls_follows A u p (callConnect A s).state
    have hcalls : (callConnect A s).calls = [Event.Connect Status.ok] := by
      simp only [callConnect] at hc ⊢
      rw [hc]
    refine ⟨host, _, hf, ?_, ?_⟩
    · unfold Connect
      rw [RETURN_IF_ERROR_ok _ _ _ hc, run_bind]
      generalize StartTls A u p (callConnect A s).state = o
      cases hv : o.value <;> simp [Status.isOk, run_bind, run_pure]
    · unfold Connect
      rw [RETURN_IF_ERROR_ok _ _ _ hc, run_bind, hcalls]
      generalize StartTls A u p (callConnect A s).state = o
      cases hv : o.value <;>
        simp [Status.isOk, run_bind, run_pure, callDisconnect]
  · left
    refine ⟨hc, ?_, ?_⟩
    · unfold Connect
      rw [RETURN_IF_ERROR_error _ _ _ hc]
      rfl
    · unfold Connect
      rw [RETURN_IF_ERROR_error _ _ _ hc]
      rfl

theorem SendBatch_loop_follows (A : SmtpAdapter σ) (rest : Run σ Status) (script : List Event)
    (hrest : ∀ s, Follows script (rest s)) (recipients : List Recipient) (s : σ) :
    Follows
      (recipients.flatMap (fun it =>
        [Event.WriteLine ("RCPT TO: <" ++ it.address ++ ">") Status.ok,
         Event.Read 250 Status.ok]) ++ script)
      (BuilderImpl.SendBatch.loop A rest recipients s) := by
  induction recipients generalizing s with
  | nil => exact hrest s
  | cons it its ih =>
    simp only [BuilderImpl.SendBatch.loop, List.flatMap_cons, List.cons_append, List.nil_append]
    apply Follows.writeLine
    apply Follows.read
    exact ih _

theorem SendBatch_follows (A : SmtpAdapter σ) (b : BuilderImpl) (s : σ) :
    Follows (transaction b) (b.SendBatch A s) := by
  unfold BuilderImpl.SendBatch transaction
  simp only [List.cons_append, List.nil_append]
  apply Follows.writeLine
  apply Follows.read
  apply SendBatch_loop_follows
  intro s1
  apply Follows.writeLine
  apply Follows.read
  apply Follows.writeLine
  apply Follows.read
  exact Follows.pure_ok _

theorem Follows.all_ok {script : List Event} {o : Outcome σ Status} (h : Follows script o)
    (hok : ∀ e ∈ o.calls, e.reply = Status.ok) : o.value = Status.ok ∧ o.calls = script := by
  rcases h with h | ⟨pre, e, post, _, hv, hr, hc⟩
  · exact h
  · exact absurd (hr ▸ hok (e.withReply o.value) (by simp [hc])) hv

theorem count_read_flatMap (recipients : List Recipient) :
    (recipients.flatMap (fun it =>
      [Event.WriteLine ("RCPT TO: <" ++ it.address ++ ">") Status.ok,
       Event.Read 250 Status.ok])).count (Event.Read 250 Status.ok) = recipients.length := by
  induction recipients with
  | nil => rfl
  | cons it its ih =>
    simp only [List.flatMap_cons, List.cons_append, List.nil_append, List.length_cons]
    rw [List.count_cons_of_ne (by simp), List.count_cons_self, ih]

theorem length_flatMap_rcpt (recipients : List Recipient) :
    (recipients.flatMap (fun it =>
      [Event.WriteLine ("RCPT TO: <" ++ it.address ++ ">") Status.ok,
       Event.Read 250 Status.ok])).length = 2 * recipients.length := by
  induction recipients with
  | nil => rfl
  | cons it its ih =>
    simp only [List.flatMap_cons, List.cons_append, List.nil_append, List.length_cons, ih]
    omega

/-- C1: when every adapter call made by `SendBatch` replies OK, `SendBatch`
returns OK and its calls are exactly: `MAIL FROM: <sender address>`, `Read(250)`;
for each recipient in insertion order `RCPT TO: <address>`, `Read(250)`; then
`DATA`, `Read(354)`, the serialized message, `Read(250)`. So `n` recipients give
`n + 2` reads of 250 and `2 * n + 6` calls in all. -/
theorem SendBatch_calls_when_all_ok (A : SmtpAdapter σ) (b : BuilderImpl) (s : σ)
    (h : ∀ e ∈ (b.SendBatch A s).calls, e.reply = Status.ok) :
    (b.SendBatch A s).value = Status.ok ∧
    (b.SendBatch A s).calls =
      [Event.WriteLine ("MAIL FROM: <" ++ b.sender_.address ++ ">") Status.ok,
       Event.Read 250 Status.ok] ++
      b.recipients_.flatMap (fun it =>
        [Event.WriteLine ("RCPT TO: <" ++ it.address ++ ">") Status.ok,
         Event.Read 250 Status.ok]) ++
      [Event.WriteLine "DATA" Status.ok, Event.Read 354 Status.ok,
       Event.WriteLine b.data Status.ok, Event.Read 250 Status.ok] ∧
    (b.SendBatch A s).calls.count (Event.Read 250 Status.ok) = b.recipients_.length + 2 ∧
    (b.SendBatch A s).calls.length = 2 * b.recipients_.length + 6 := by
  obtain ⟨hv, hc⟩ := (SendBatch_follows A b s).all_ok h
  refine ⟨hv, hc, ?_, ?_⟩
  · rw [hc]
    simp only [transaction, List.count_append, count_read_flatMap]
    simp [List.count_cons]
    omega
  · rw [hc]
    simp only [transaction, List.length_append, length_flatMap_rcpt, List.length_cons,
      List.length_nil]
    omega

theorem SendBatch_calls_when_all_ok_witness :
    (∀ e ∈ (sampleBuilder.SendBatch (okAdapter "TestHost") ()).calls, e.reply = Status.ok) ∧
    (sampleBuilder.SendBatch (okAdapter "TestHost") ()).value = Status.ok ∧
    (sampleBuilder.SendBatch (okAdapter "TestHost") ()).calls.count
      (Event.Read 250 Status.ok) = 5 :=
  have h := SendBatch_calls_when_all_ok (okAdapter "TestHost") sampleBuilder () (by decide)
  ⟨by decide, h.1, h.2.2.1⟩

theorem handshake_reply (host u p : String) : ∀ e ∈ handshake host u p, e.reply = Status.ok := by
  intro e he
  simp only [handshake, List.mem_cons, List.mem_singleton, List.not_mem_nil, or_false] at he
  rcases he with h | h | h | h | h | h | h | h | h | h | h <;> subst h <;> rfl

theorem handshake_withReply (host u p : String) (v : Status) :
    ∀ e ∈ handshake host u p, (e.withReply v).reply = v → v ≠ Status.ok →
      e.withReply v = Event.EnableTls v ∨ (∃ n, e.withReply v = Event.Read n v) ∨
        ∃ m, e.withReply v = Event.WriteLine m v := by
  intro e he hr hv
  simp only [handshake, List.mem_cons, List.mem_singleton, List.not_mem_nil, or_false] at he
  rcases he with h | h | h | h | h | h | h | h | h | h | h <;> subst h <;>
    simp_all [Event.withReply, Event.reply]

theorem handshake_not_disconnect (host u p : String) :
    ∀ e ∈ handshake host u p, e ≠ Event.Disconnect := by
  intro e he
  simp only [handshake, List.mem_cons, List.mem_singleton, List.not_mem_nil, or_false] at he
  rcases he with h | h | h | h | h | h | h | h | h | h | h <;> subst h <;> simp

/-- When the adapter connected and a later call of `Connect` failed, the calls
are: calls that replied OK, the failing call, `Disconnect`. -/
theorem Connect_failure_shape (A : SmtpAdapter σ) (u p : String) (s : σ)
    (hc : (A.Connect s).1 = Status.ok)
    (hf : ∃ e ∈ (Connect A u p s).calls, e.reply ≠ Status.ok) :
    (Connect A u p s).value ≠ Status.ok ∧
    ∃ pre f, (Connect A u p s).calls = pre ++ [f, Event.Disconnect] ∧
      f.reply = (Connect A u p s).value ∧
      (∀ e ∈ pre, e.reply = Status.ok ∧ e ≠ Event.Disconnect) ∧
      (f = Event.EnableTls (Connect A u p s).value ∨
        (∃ n, f = Event.Read n (Connect A u p s).value) ∨
        ∃ m, f = Event.WriteLine m (Connect A u p s).value) := by
  rcases Connect_shape A u p s with ⟨hne, _⟩ | ⟨_, host, o, hfol, hval, hcalls⟩
  · exact absurd hc hne
  · rcases hfol with ⟨hv, hoc⟩ | ⟨pre, e, post, hs, hv, hr, hoc⟩
    · exfalso
      obtain ⟨e, he, hne⟩ := hf
      rw [hcalls, hv, hoc] at he
      simp only [if_true, List.append_nil, List.mem_cons] at he
      rcases he with rfl | he
      · exact hne rfl
      · exact hne (handshake_reply host u p e he)
    · rw [hval]
      refine ⟨hv, Event.Connect Status.ok :: pre, e.withReply o.value, ?_, hr, ?_, ?_⟩
      · rw [hcalls, hoc, if_neg hv]
        simp
      · intro x hx
        rcases List.mem_cons.1 hx with rfl | hx
        · exact ⟨rfl, by simp⟩
        · have hmem : x ∈ handshake host u p := by rw [hs]; simp [hx]
          exact ⟨handshake_reply host u p x hmem, handshake_not_disconnect host u p x hmem⟩
      · exact handshake_withReply host u p o.value e (by rw [hs]; simp) hr hv

/-- C2: when every adapter call made by `Smtp::Connect` replies OK, `Connect`
returns OK and its calls are exactly `Connect`, `Read(220)`, `STARTTLS`,
`Read(220)`, `EnableTls`, `Hostname`, `HELO` with the host name the adapter
returned, `Read(250)`, `AUTH PLAIN`, `Read(334)`, the base64 of NUL, username,
NUL, password, `Read(235)`; `Disconnect` is not called. -/
theorem Connect_calls_when_all_ok (A : SmtpAdapter σ) (smtp : Smtp) (s : σ)
    (h : ∀ e ∈ (smtp.Connect A s).calls, e.reply = Status.ok) :
    (smtp.Connect A s).value = Status.ok ∧
    (∃ hostname, (smtp.Connect A s).calls =
      [Event.Connect Status.ok, Event.Read 220 Status.ok,
       Event.WriteLine "STARTTLS" Status.ok, Event.Read 220 Status.ok,
       Event.EnableTls Status.ok, Event.Hostname hostname,
       Event.WriteLine ("HELO " ++ hostname) Status.ok, Event.Read 250 Status.ok,
       Event.WriteLine "AUTH PLAIN" Status.ok, Event.Read 334 Status.ok,
       Event.WriteLine (Base64Encode (authBlob smtp.username_ smtp.password_)) Status.ok,
       Event.Read 235 Status.ok]) ∧
    Event.Disconnect ∉ (smtp.Connect A s).calls := by
  unfold Smtp.Connect at h ⊢
  rcases Connect_shape A smtp.username_ smtp.password_ s with
    ⟨hne, _, hcalls⟩ | ⟨_, host, o, hfol, hval, hcalls⟩
  · exact absurd (h (Event.Connect (A.Connect s).1) (by rw [hcalls]; simp)) hne
  · have hok : ∀ e ∈ o.calls, e.reply = Status.ok := by
      intro e he
      exact h e (by rw [hcalls]; simp [he])
    obtain ⟨hv, hoc⟩ := hfol.all_ok hok
    rw [hcalls, hval, hv, hoc]
    refine ⟨rfl, ⟨host, by simp [handshake]⟩, ?_⟩
    simp [handshake]

theorem Connect_calls_when_all_ok_witness :
    (∀ e ∈ ((Smtp.new "username" "password").Connect (okAdapter "TestHost") ()).calls,
      e.reply = Status.ok) ∧
    ((Smtp.new "username" "password").Connect (okAdapter "TestHost") ()).value = Status.ok ∧
    Event.Disconnect ∉ ((Smtp.new "username" "password").Connect (okAdapter "TestHost") ()).calls :=
  have h := Connect_calls_when_all_ok (okAdapter "TestHost") (Smtp.new "username" "password") ()
    (by decide)
  ⟨by decide, h.1, h.2.2⟩

/-- C8: when the adapter's `Connect` fails, `Smtp::Connect` returns that same
status and makes no other adapter call. -/
theorem Connect_adapter_connect_fails (A : SmtpAdapter σ) (smtp : Smtp) (s : σ)
    (h : (A.Connect s).1 ≠ Status.ok) :
    (smtp.Connect A s).value = (A.Connect s).1 ∧
    (smtp.Connect A s).calls = [Event.Connect (A.Connect s).1] := by
  unfold Smtp.Connect
  rcases Connect_shape A smtp.username_ smtp.password_ s with ⟨_, hv, hc⟩ | ⟨hok, _⟩
  · exact ⟨hv, hc⟩
  · exact absurd hok h

theorem Connect_adapter_connect_fails_witness :
    ((failAt 0 (Status.error 14 "host not found") "TestHost").Connect 0).1 ≠ Status.ok ∧
    ((Smtp.new "username" "password").Connect
      (failAt 0 (Status.error 14 "host not found") "TestHost") 0).value =
        Status.error 14 "host not found" ∧
    ((Smtp.new "username" "password").Connect
      (failAt 0 (Status.error 14 "host not found") "TestHost") 0).calls =
        [Event.Connect (Status.error 14 "host not found")] :=
  ⟨by decide, Connect_adapter_connect_fails
    (failAt 0 (Status.error 14 "host not found") "TestHost") (Smtp.new "username" "password") 0
    (by decide)⟩

theorem count_disconnect_failure (pre : List Event) (f : Event)
    (hpre : ∀ e ∈ pre, e.reply = Status.ok ∧ e ≠ Event.Disconnect) (hf : f ≠ Event.Disconnect) :
    (pre ++ [f, Event.Disconnect]).count Event.Disconnect = 1 := by
  have h0 : pre.count Event.Disconnect = 0 :=
    List.count_eq_zero.2 (fun hmem => (hpre _ hmem).2 rfl)
  rw [List.count_append, h0, List.count_cons_of_ne (Ne.symm hf), List.count_cons_self]
  rfl

/-- C6, as amended: when some call of `Smtp::Connect` fails, the adapter's
`Disconnect` is called exactly once if the adapter's `Connect` had succeeded,
and not at all if it is the adapter's `Connect` that failed. -/
theorem Connect_disconnect_count (A : SmtpAdapter σ) (smtp : Smtp) (s : σ)
    (hf : ∃ e ∈ (smtp.Connect A s).calls, e.reply ≠ Status.ok) :
    (smtp.Connect A s).calls.count Event.Disconnect =
      if (A.Connect s).1 = Status.ok then 1 else 0 := by
  unfold Smtp.Connect at hf ⊢
  by_cases hc : (A.Connect s).1 = Status.ok
  · rw [if_pos hc]
    obtain ⟨hv, pre, f, hcalls, hr, hpre, _⟩ :=
      Connect_failure_shape A smtp.username_ smtp.password_ s hc hf
    rw [hcalls]
    refine count_disconnect_failure pre f hpre ?_
    intro hfd
    rw [hfd] at hr
    exact hv hr.symm
  · rw [if_neg hc]
    rcases Connect_shape A smtp.username_ smtp.password_ s with ⟨_, _, hcalls⟩ | ⟨hok, _⟩
    · rw [hcalls]
      rfl
    · exact absurd hok hc

theorem Connect_disconnect_count_witness :
    (∃ e ∈ ((Smtp.new "username" "password").Connect
        (failAt 4 (Status.error 13 "handshake failed") "TestHost") 0).calls,
      e.reply ≠ Status.ok) ∧
    ((Smtp.new "username" "password").Connect
      (failAt 4 (Status.error 13 "handshake failed") "TestHost") 0).calls.count
        Event.Disconnect = 1 :=
  ⟨by decide, Connect_disconnect_count (failAt 4 (Status.error 13 "handshake failed") "TestHost")
    (Smtp.new "username" "password") 0 (by decide)⟩

/-- C6, the claim as stated fails: when the adapter's `Connect` is the step that
fails, `Smtp::Connect` returns without calling `Disconnect`. -/
theorem Connect_disconnect_counterexample :
    (∃ e ∈ ((Smtp.new "username" "password").Connect
        (failAt 0 (Status.error 14 "host not found") "TestHost") 0).calls,
      e.reply ≠ Status.ok) ∧
    ((Smtp.new "username" "password").Connect
      (failAt 0 (Status.error 14 "host not found") "TestHost") 0).calls.count
        Event.Disconnect = 0 := by
  decide

/-- C7: when the adapter connected and a later call of `Smtp::Connect` (a
`Read`, a `WriteLine` or `EnableTls`) fails, `Connect` returns the failure, and
its calls are calls that replied OK, then the failing call, then `Disconnect`:
nothing is read or written after the failure and `Disconnect` is called exactly
once, last. When it is the greeting `Read(220)` that fails, the calls of
`Connect`, and of `Send`, are exactly `Connect`, `Read(220)`, `Disconnect`. -/
theorem Connect_failure_disconnects_last (A : SmtpAdapter σ) (smtp : Smtp) (s : σ)
    (hc : (A.Connect s).1 = Status.ok) :
    ((∃ e ∈ (smtp.Connect A s).calls, e.reply ≠ Status.ok) →
      (smtp.Connect A s).value ≠ Status.ok ∧
      (∃ pre f, (smtp.Connect A s).calls = pre ++ [f, Event.Disconnect] ∧
        f.reply = (smtp.Connect A s).value ∧
        (∀ e ∈ pre, e.reply = Status.ok ∧ e ≠ Event.Disconnect) ∧
        (f = Event.EnableTls (smtp.Connect A s).value ∨
          (∃ n, f = Event.Read n (smtp.Connect A s).value) ∨
          ∃ m, f = Event.WriteLine m (smtp.Connect A s).value)) ∧
      (smtp.Connect A s).calls.count Event.Disconnect = 1) ∧
    ((A.Read 220 (A.Connect s).2).1 ≠ Status.ok →
      (smtp.Connect A s).calls =
        [Event.Connect Status.ok, Event.Read 220 (A.Read 220 (A.Connect s).2).1,
         Event.Disconnect] ∧
      (smtp.builder_.Send A s).calls =
        [Event.Connect Status.ok, Event.Read 220 (A.Read 220 (A.Connect s).2).1,
         Event.Disconnect] ∧
      (smtp.builder_.Send A s).value = (A.Read 220 (A.Connect s).2).1) := by
  constructor
  · intro hf
    unfold Smtp.Connect at hf ⊢
    obtain ⟨hv, pre, f, hcalls, hr, hpre, hkind⟩ :=
      Connect_failure_shape A smtp.username_ smtp.password_ s hc hf
    refine ⟨hv, ⟨pre, f, hcalls, hr, hpre, hkind⟩, ?_⟩
    rw [hcalls]
    refine count_disconnect_failure pre f hpre ?_
    intro hfd
    rw [hfd] at hr
    exact hv hr.symm
  · intro hr
    have hc1 : (callConnect A s).value = Status.ok := hc
    have hcalls1 : (callConnect A s).calls = [Event.Connect Status.ok] := by
      simp only [callConnect] at hc1 ⊢
      rw [hc1]
    have hr1 : (callRead A 220 (callConnect A s).state).value ≠ Status.ok := hr
    have key : ∀ u p, Connect A u p s =
        ⟨(A.Read 220 (A.Connect s).2).1, A.Disconnect (A.Read 220 (A.Connect s).2).2,
          [Event.Connect Status.ok, Event.Read 220 (A.Read 220 (A.Connect s).2).1,
           Event.Disconnect]⟩ := by
      intro u p
      unfold Connect
      rw [RETURN_IF_ERROR_ok _ _ _ hc1, run_bind, hcalls1]
      unfold StartTls
      rw [RETURN_IF_ERROR_error _ _ _ hr1]
      cases hv : (callRead A 220 (callConnect A s).state).value with
      | ok => exact absurd hv hr1
      | error c m =>
        have hv2 : (A.Read 220 (A.Connect s).2).1 = Status.error c m := hv
        simp [Status.isOk, run_bind, run_pure, callDisconnect, callRead, callConnect,
          Outcome.prepend, hv2]
    refine ⟨?_, ?_, ?_⟩
    · unfold Smtp.Connect
      rw [key]
    · unfold BuilderImpl.Send
      rw [RETURN_IF_ERROR_error _ _ _ (by rw [key]; exact hr), key]
    · unfold BuilderImpl.Send
      rw [RETURN_IF_ERROR_error _ _ _ (by rw [key]; exact hr), key]

theorem Connect_failure_disconnects_last_witness :
    ((failAt 1 (Status.error 13 "Error") "TestHost").Connect 0).1 = Status.ok ∧
    (((Smtp.new "username" "password").NewEmail.SetSender "from@example.com").Send
      (failAt 1 (Status.error 13 "Error") "TestHost") 0).calls =
        [Event.Connect Status.ok, Event.Read 220 (Status.error 13 "Error"), Event.Disconnect] :=
  ⟨by decide,
    ((Connect_failure_disconnects_last (failAt 1 (Status.error 13 "Error") "TestHost")
      { (Smtp.new "username" "password") with
        builder_ := (Smtp.new "username" "password").NewEmail.SetSender "from@example.com" }
      0 (by decide)).2 (by decide)).2.1⟩

theorem base64_from_binary_eq (v : Nat) (h : v < 64) :
    base64_from_binary v = rfc4648Alphabet v := by
  have : ∀ i : Fin 64, base64_from_binary i.val = rfc4648Alphabet i.val := by decide
  exact this ⟨v, h⟩

theorem Base64Encode_loop_eq (data_size : Nat) (result : String) :
    (Base64Encode.loop 3 data_size result).data =
      result.data ++ List.replicate ((3 - data_size % 3) % 3) '=' := by
  have h3 : data_size % 3 = 0 ∨ data_size % 3 = 1 ∨ data_size % 3 = 2 := by omega
  rcases h3 with h | h | h
  · simp [Base64Encode.loop, h]
  · have h1 : (data_size + 1) % 3 = 2 := by omega
    have h2 : (data_size + 1 + 1) % 3 = 0 := by omega
    simp [Base64Encode.loop, h, h1, h2, List.replicate]
  · have h1 : (data_size + 1) % 3 = 0 := by omega
    simp [Base64Encode.loop, h, h1, List.replicate]

theorem transform_width_three (x y z : Nat) (hx : x < 256) (hy : y < 256) (hz : z < 256)
    (rest : List Nat) :
    transform_width
      ([x / 128 % 2, x / 64 % 2, x / 32 % 2, x / 16 % 2, x / 8 % 2, x / 4 % 2, x / 2 % 2, x % 2] ++
        ([y / 128 % 2, y / 64 % 2, y / 32 % 2, y / 16 % 2, y / 8 % 2, y / 4 % 2, y / 2 % 2,
            y % 2] ++
          ([z / 128 % 2, z / 64 % 2, z / 32 % 2, z / 16 % 2, z / 8 % 2, z / 4 % 2, z / 2 % 2,
              z % 2] ++ rest))) =
      x / 4 :: (x % 4 * 16 + y / 16) :: (y % 16 * 4 + z / 64) :: z % 64 ::
        transform_width rest := by
  have e1 : x / 128 % 2 * 32 + x / 64 % 2 * 16 + x / 32 % 2 * 8 + x / 16 % 2 * 4 +
      x / 8 % 2 * 2 + x / 4 % 2 = x / 4 := by omega
  have e2 : x / 2 % 2 * 32 + x % 2 * 16 + y / 128 % 2 * 8 + y / 64 % 2 * 4 +
      y / 32 % 2 * 2 + y / 16 % 2 = x % 4 * 16 + y / 16 := by omega
  have e3 : y / 8 % 2 * 32 + y / 4 % 2 * 16 + y / 2 % 2 * 8 + y % 2 * 4 + z / 128 % 2 * 2 +
      z / 64 % 2 = y % 16 * 4 + z / 64 := by omega
  have e4 : z / 32 % 2 * 32 + z / 16 % 2 * 16 + z / 8 % 2 * 8 + z / 4 % 2 * 4 +
      z / 2 % 2 * 2 + z % 2 = z % 64 := by omega
  simp only [List.cons_append, List.nil_append, List.append_eq, transform_width, e1, e2, e3, e4]

theorem transform_width_two (x y : Nat) (hx : x < 256) (hy : y < 256) :
    transform_width
      [x / 128 % 2, x / 64 % 2, x / 32 % 2, x / 16 % 2, x / 8 % 2, x / 4 % 2, x / 2 % 2, x % 2,
        y / 128 % 2, y / 64 % 2, y / 32 % 2, y / 16 % 2, y / 8 % 2, y / 4 % 2, y / 2 % 2,
        y % 2] =
      [x / 4, x % 4 * 16 + y / 16, y % 16 * 4] := by
  have e1 : x / 128 % 2 * 32 + x / 64 % 2 * 16 + x / 32 % 2 * 8 + x / 16 % 2 * 4 +
      x / 8 % 2 * 2 + x / 4 % 2 = x / 4 := by omega
  have e2 : x / 2 % 2 * 32 + x % 2 * 16 + y / 128 % 2 * 8 + y / 64 % 2 * 4 +
      y / 32 % 2 * 2 + y / 16 % 2 = x % 4 * 16 + y / 16 := by omega
  have e3 : y / 8 % 2 * 32 + y / 4 % 2 * 16 + y / 2 % 2 * 8 + y % 2 * 4 = y % 16 * 4 := by
    omega
  simp only [transform_width, e1, e2, e3]

theorem transform_width_one (x : Nat) (hx : x < 256) :
    transform_width
      [x / 128 % 2, x / 64 % 2, x / 32 % 2, x / 16 % 2, x / 8 % 2, x / 4 % 2, x / 2 % 2, x % 2] =
      [x / 4, x % 4 * 16] := by
  have e1 : x / 128 % 2 * 32 + x / 64 % 2 * 16 + x / 32 % 2 * 8 + x / 16 % 2 * 4 +
      x / 8 % 2 * 2 + x / 4 % 2 = x / 4 := by omega
  have e2 : x / 2 % 2 * 32 + x % 2 * 16 = x % 4 * 16 := by omega
  simp only [transform_width, e1, e2]

theorem byteOf_lt (c : Char) : byteOf c < 256 := Nat.mod_lt _ (by decide)

theorem charBits_eq (c : Char) :
    charBits c = [byteOf c / 128 % 2, byteOf c / 64 % 2, byteOf c / 32 % 2, byteOf c / 16 % 2,
      byteOf c / 8 % 2, byteOf c / 4 % 2, byteOf c / 2 % 2, byteOf c % 2] := rfl

theorem encode_core_three (a b c : Char) (rest : List Char) :
    (transform_width ((a :: b :: c :: rest).flatMap charBits)).map base64_from_binary =
      rfc4648Alphabet (byteOf a / 4) :: rfc4648Alphabet (byteOf a % 4 * 16 + byteOf b / 16) ::
        rfc4648Alphabet (byteOf b % 16 * 4 + byteOf c / 64) :: rfc4648Alphabet (byteOf c % 64) ::
        (transform_width (rest.flatMap charBits)).map base64_from_binary := by
  have ha := byteOf_lt a
  have hb := byteOf_lt b
  have hc := byteOf_lt c
  simp only [List.flatMap_cons, charBits_eq]
  rw [transform_width_three _ _ _ ha hb hc]
  simp only [List.map_cons]
  rw [base64_from_binary_eq _ (by omega), base64_from_binary_eq _ (by omega),
    base64_from_binary_eq _ (by omega), base64_from_binary_eq _ (by omega)]

theorem encode_core_eq : ∀ (n : Nat) (cs : List Char), cs.length ≤ n →
    (transform_width (cs.flatMap charBits)).map base64_from_binary ++
      List.replicate ((3 - cs.length % 3) % 3) '=' = rfc4648Encode (cs.map byteOf) := by
  intro n
  induction n using Nat.strong_induction_on with
  | _ n ih =>
    intro cs hn
    match cs, hn with
    | [], _ => rfl
    | [a], _ =>
      have ha := byteOf_lt a
      simp only [List.flatMap_cons, List.flatMap_nil, List.append_nil, charBits_eq]
      rw [transform_width_one _ ha]
      simp only [List.map_cons, List.map_nil, rfc4648Encode]
      rw [base64_from_binary_eq _ (by omega), base64_from_binary_eq _ (by omega)]
      rfl
    | [a, b], _ =>
      have ha := byteOf_lt a
      have hb := byteOf_lt b
      simp only [List.flatMap_cons, List.flatMap_nil, List.append_nil, charBits_eq,
        List.cons_append, List.nil_append]
      rw [transform_width_two _ _ ha hb]
      simp only [List.map_cons, List.map_nil, rfc4648Encode]
      rw [base64_from_binary_eq _ (by omega), base64_from_binary_eq _ (by omega),
        base64_from_binary_eq _ (by omega)]
      rfl
    | a :: b :: c :: rest, hn =>
      have hlen : (3 - (a :: b :: c :: rest).length % 3) % 3 = (3 - rest.length % 3) % 3 := by
        simp only [List.length_cons]
        omega
      have hrest : rest.length ≤ rest.length := Nat.le_refl _
      have hlt : rest.length < n := by
        simp only [List.length_cons] at hn
        omega
      rw [encode_core_three, hlen]
      simp only [List.map_cons, rfc4648Encode, List.cons_append]
      rw [ih rest.length hlt rest hrest]

/-- The function `Base64Encode` computes the standard padded base64 encoding of
the bytes of its argument. -/
theorem Base64Encode_eq_rfc4648 (data : String) :
    Base64Encode data = String.mk (rfc4648Encode (bytesOf data)) := by
  apply String.ext
  rw [Base64Encode, Base64Encode_loop_eq]
  exact encode_core_eq _ data.toList (Nat.le_refl _)

theorem bytesOf_authBlob (u p : String) :
    bytesOf (authBlob u p) = 0 :: (bytesOf u ++ 0 :: bytesOf p) := by
  simp [bytesOf, authBlob, byteOf, String.toList]

theorem Splits.spec {P : List Event → Event → List Event → Prop} :
    ∀ (l acc : List Event), Splits P acc l →
      ∀ pre e post, l = pre ++ e :: post → P (acc ++ pre) e post
  | [], _, _, pre, e, post, h => by simp at h
  | x :: l, acc, hs, pre, e, post, h => by
    obtain ⟨hx, hl⟩ := hs
    cases pre with
    | nil =>
      simp only [List.nil_append, List.cons.injEq] at h
      obtain ⟨rfl, rfl⟩ := h
      simpa using hx
    | cons y pre =>
      simp only [List.cons_append, List.cons.injEq] at h
      obtain ⟨rfl, rfl⟩ := h
      have := Splits.spec _ (acc ++ [x]) hl pre e post rfl
      simpa using this

/-- The calls of `Connect` are of one of three kinds: the adapter's `Connect`
failed; the adapter connected and the call number `k` of the handshake failed;
every call replied OK. -/
theorem Connect_calls_cases (A : SmtpAdapter σ) (u p : String) (s : σ) :
    ∃ host v,
      (v ≠ Status.ok ∧ (Connect A u p s).calls = [Event.Connect v]) ∨
      (∃ k, k < 11 ∧ v ≠ Status.ok ∧
        (((handshake host u p).getD k Event.Disconnect).withReply v).reply = v ∧
        (Connect A u p s).calls = Event.Connect Status.ok ::
          ((handshake host u p).take k ++
            [((handshake host u p).getD k Event.Disconnect).withReply v, Event.Disconnect])) ∨
      (Connect A u p s).calls = Event.Connect Status.ok :: handshake host u p := by
  rcases Connect_shape A u p s with ⟨hne, _, hcalls⟩ | ⟨_, host, o, hfol, _, hcalls⟩
  · exact ⟨"", (A.Connect s).1, Or.inl ⟨hne, hcalls⟩⟩
  · refine ⟨host, o.value, Or.inr ?_⟩
    rcases hfol.index with ⟨hv, hoc⟩ | ⟨k, hk, hv, hr, hoc⟩
    · right
      rw [hcalls, hv, hoc]
      simp
    · left
      have hget : (handshake host u p).getD k Event.Disconnect =
          (handshake host u p).get ⟨k, hk⟩ := by
        simp [List.getD_eq_getElem?_getD, List.getElem?_eq_getElem hk]
      refine ⟨k, hk, hv, by rw [hget]; exact hr, ?_⟩
      rw [hcalls, hoc, if_neg hv, hget]
      simp

theorem rfc4648Encode_head (b : Nat) (bs : List Nat) (h : b < 4) :
    ∃ tail, rfc4648Encode (b :: bs) = 'A' :: tail := by
  have h0 : b / 4 = 0 := by omega
  have hA : rfc4648Alphabet 0 = 'A' := by decide
  match bs with
  | [] => exact ⟨_, by simp only [rfc4648Encode, h0, hA]; rfl⟩
  | [c] => exact ⟨_, by simp only [rfc4648Encode, h0, hA]; rfl⟩
  | c :: d :: rest => exact ⟨_, by simp only [rfc4648Encode, h0, hA]; rfl⟩

theorem Base64Encode_authBlob_head (u p : String) :
    ∃ tail, (Base64Encode (authBlob u p)).data = 'A' :: tail := by
  rw [Base64Encode_eq_rfc4648, bytesOf_authBlob]
  exact rfc4648Encode_head 0 _ (by decide)

theorem starttls_ne_helo (h : String) : ¬ "STARTTLS" = "HELO " ++ h := by
  intro hh
  have := congrArg String.data hh
  simp at this

theorem starttls_ne_credentials (u p : String) :
    ¬ "STARTTLS" = Base64Encode (authBlob u p) := by
  intro hh
  obtain ⟨tail, ht⟩ := Base64Encode_authBlob_head u p
  rw [← hh] at ht
  simp at ht

/-- C9: in the calls of `Smtp::Connect`, under every adapter behaviour, a line
that expects TLS (a `HELO` line, `AUTH PLAIN`, the base64 credential line) is
written only after an `EnableTls` call that replied OK; so when no `EnableTls`
call replied OK the credential line is not written. -/
theorem tls_lines_only_after_EnableTls (A : SmtpAdapter σ) (smtp : Smtp) (s : σ) :
    (∀ pre m r post, (smtp.Connect A s).calls = pre ++ Event.WriteLine m r :: post →
      ((∃ h, m = "HELO " ++ h) ∨ m = "AUTH PLAIN" ∨
        m = Base64Encode (authBlob smtp.username_ smtp.password_)) →
      Event.EnableTls Status.ok ∈ pre) ∧
    (Event.EnableTls Status.ok ∉ (smtp.Connect A s).calls →
      ∀ r, Event.WriteLine (Base64Encode (authBlob smtp.username_ smtp.password_)) r ∉
        (smtp.Connect A s).calls) := by
  have key : ∀ pre m r post, (smtp.Connect A s).calls = pre ++ Event.WriteLine m r :: post →
      ((∃ h, m = "HELO " ++ h) ∨ m = "AUTH PLAIN" ∨
        m = Base64Encode (authBlob smtp.username_ smtp.password_)) →
      Event.EnableTls Status.ok ∈ pre := by
    intro pre m r post hsplit htls
    have hsp : Splits (fun pre e _ => ∀ m r, e = Event.WriteLine m r →
        ((∃ h, m = "HELO " ++ h) ∨ m = "AUTH PLAIN" ∨
          m = Base64Encode (authBlob smtp.username_ smtp.password_)) →
        Event.EnableTls Status.ok ∈ pre) [] (smtp.Connect A s).calls := by
      unfold Smtp.Connect
      obtain ⟨host, v, ⟨hv, hc⟩ | ⟨k, hk, hv, hr, hc⟩ | hc⟩ :=
        Connect_calls_cases A smtp.username_ smtp.password_ s
      · rw [hc]
        simp [Splits]
      · rw [hc]
        interval_cases k <;>
          simp [handshake, Splits, Event.withReply, starttls_ne_helo, starttls_ne_credentials]
      · rw [hc]
        simp [handshake, Splits, starttls_ne_helo, starttls_ne_credentials]
    have := Splits.spec _ [] hsp pre (Event.WriteLine m r) post hsplit m r rfl htls
    simpa using this
  refine ⟨key, ?_⟩
  intro hno r hmem
  obtain ⟨pre, post, hsplit⟩ := List.append_of_mem hmem
  exact hno (by rw [hsplit]; exact List.mem_append_left _ (key pre _ r post hsplit (Or.inr (Or.inr rfl))))

theorem length_pos_iff_ne_empty (t : String) : t.length > 0 ↔ t ≠ "" := by
  rcases t with ⟨l⟩
  cases l with
  | nil => simp [String.length]
  | cons c l =>
    simp only [String.length, List.length_cons, gt_iff_lt, Nat.zero_lt_succ, ne_eq, true_iff]
    intro h
    have := congrArg String.data h
    simp at this

theorem RecipientType.toInt_ne_iff (a b : RecipientType) : a.toInt ≠ b.toInt ↔ a ≠ b := by
  cases a <;> cases b <;> simp [RecipientType.toInt]

theorem WriteRecipients_loop_cons_eq (field : String) (ty : RecipientType) (it : Recipient)
    (rest : List Recipient) (started : Bool) (output : String)
    (h : it.recipient_type = ty) :
    WriteRecipients.loop field ty.toInt (it :: rest) started output =
      WriteRecipients.loop field ty.toInt rest true
        (output ++ ((if started then ", " else field ++ ": ") ++ (mailbox it ++ "\r\n"))) := by
  have hne : ¬ it.recipient_type.toInt ≠ ty.toInt := by rw [h]; simp
  rw [WriteRecipients.loop, if_neg hne]
  by_cases hn : it.name = "" <;> cases started <;>
    simp [mailbox, hn, length_pos_iff_ne_empty, String.append_assoc]

theorem WriteRecipients_loop_cons_ne (field : String) (ty : RecipientType) (it : Recipient)
    (rest : List Recipient) (started : Bool) (output : String)
    (h : it.recipient_type ≠ ty) :
    WriteRecipients.loop field ty.toInt (it :: rest) started output =
      WriteRecipients.loop field ty.toInt rest started output := by
  rw [WriteRecipients.loop, if_pos ((RecipientType.toInt_ne_iff _ _).2 h)]

theorem WriteRecipients_loop_append (field : String) (ty : RecipientType) :
    ∀ (recipients : List Recipient) (started : Bool) (output : String),
      WriteRecipients.loop field ty.toInt recipients started output =
        output ++ WriteRecipients.loop field ty.toInt recipients started ""
  | [], _, output => by simp [WriteRecipients.loop]
  | it :: rest, started, output => by
    by_cases h : it.recipient_type = ty
    · rw [WriteRecipients_loop_cons_eq _ _ _ _ _ _ h, WriteRecipients_loop_cons_eq _ _ _ _ _ _ h,
        WriteRecipients_loop_append field ty rest true (output ++ _),
        WriteRecipients_loop_append field ty rest true ("" ++ _)]
      simp [String.append_assoc]
    · rw [WriteRecipients_loop_cons_ne _ _ _ _ _ _ h, WriteRecipients_loop_cons_ne _ _ _ _ _ _ h]
      exact WriteRecipients_loop_append field ty rest started output

theorem WriteRecipients_append (recipients : List Recipient) (field : String)
    (ty : RecipientType) (output : String) :
    WriteRecipients recipients field ty.toInt output =
      output ++ WriteRecipients recipients field ty.toInt "" :=
  WriteRecipients_loop_append field ty recipients false output

theorem WriteRecipients_loop_filter (field : String) (ty : RecipientType) :
    ∀ (recipients : List Recipient) (started : Bool) (output : String),
      WriteRecipients.loop field ty.toInt recipients started output =
        WriteRecipients.loop field ty.toInt
          (recipients.filter (fun it => it.recipient_type = ty)) started output
  | [], _, _ => rfl
  | it :: rest, started, output => by
    by_cases h : it.recipient_type = ty
    · rw [List.filter_cons_of_pos (by simpa using h), WriteRecipients_loop_cons_eq _ _ _ _ _ _ h,
        WriteRecipients_loop_cons_eq _ _ _ _ _ _ h]
      exact WriteRecipients_loop_filter field ty rest true _
    · rw [List.filter_cons_of_neg (by simpa using h), WriteRecipients_loop_cons_ne _ _ _ _ _ _ h]
      exact WriteRecipients_loop_filter field ty rest started output

theorem WriteRecipients_none (field : String) (ty : RecipientType) :
    ∀ (recipients : List Recipient), (∀ it ∈ recipients, it.recipient_type ≠ ty) →
      WriteRecipients recipients field ty.toInt "" = ""
  | [], _ => rfl
  | it :: rest, h => by
    unfold WriteRecipients
    rw [WriteRecipients_loop_cons_ne _ _ _ _ _ _ (h it (List.mem_cons_self _ _))]
    exact WriteRecipients_none field ty rest (fun x hx => h x (List.mem_cons_of_mem _ hx))

theorem WriteRecipients_some (field : String) (ty : RecipientType) :
    ∀ (recipients : List Recipient), (∃ it ∈ recipients, it.recipient_type = ty) →
      ∃ rest, WriteRecipients recipients field ty.toInt "" = field ++ ": " ++ rest
  | [], h => by simp at h
  | it :: rest, h => by
    unfold WriteRecipients
    by_cases hit : it.recipient_type = ty
    · rw [WriteRecipients_loop_cons_eq _ _ _ _ _ _ hit, WriteRecipients_loop_append]
      exact ⟨mailbox it ++ "\r\n" ++ WriteRecipients.loop field ty.toInt rest true "", by
        simp [String.append_assoc]⟩
    · rw [WriteRecipients_loop_cons_ne _ _ _ _ _ _ hit]
      obtain ⟨x, hx, hxt⟩ := h
      rcases List.mem_cons.1 hx with rfl | hx
      · exact absurd hxt hit
      · exact WriteRecipients_some field ty rest ⟨x, hx, hxt⟩

theorem append_colon_ne_empty (field rest : String) : field ++ ": " ++ rest ≠ "" := by
  intro h
  have := congrArg String.length h
  simp [String.length_append] at this
  have h2 : ": ".length = 2 := by decide
  omega

theorem data_eq (b : BuilderImpl) :
    b.data = WriteRecipient "From" b.sender_.address b.sender_.name "" ++
      (WriteRecipients b.recipients_ "To" RecipientType.Primary.toInt "" ++
      (WriteRecipients b.recipients_ "Cc" RecipientType.CarbonCopy.toInt "" ++
      (WriteRecipients b.recipients_ "Bcc" RecipientType.Blind.toInt "" ++
      ((if b.content_type_ ≠ "" then
          "MIME-Version: 1.0\r\n" ++ ("Content-Type: " ++ (b.content_type_ ++ "\r\n"))
        else "") ++
      ("Subject: " ++ (b.subject_ ++ ("\r\n\r\n" ++ (b.body_ ++ "\r\n.")))))))) := by
  unfold BuilderImpl.data
  simp only []
  rw [WriteRecipients_append b.recipients_ "Bcc", WriteRecipients_append b.recipients_ "Cc",
    WriteRecipients_append b.recipients_ "To"]
  by_cases hct : b.content_type_ = "" <;>
    simp only [hct, String.append_assoc, String.empty_append, ne_eq, not_true_eq_false,
      not_false_eq_true, if_true, if_false]

theorem find?_eq_head?_filter (p : Recipient → Bool) :
    ∀ l : List Recipient, l.find? p = (l.filter p).head?
  | [] => rfl
  | x :: l => by
    cases hp : p x
    · rw [List.find?_cons_of_neg _ (by simp [hp]), List.filter_cons_of_neg (by simp [hp])]
      exact find?_eq_head?_filter p l
    · rw [List.find?_cons_of_pos _ hp, List.filter_cons_of_pos hp]
      rfl

theorem WriteRecipients_single (recipients : List Recipient) (field : String)
    (ty : RecipientType)
    (h : (recipients.filter (fun it => it.recipient_type = ty)).length ≤ 1) :
    WriteRecipients recipients field ty.toInt "" = expectedHeader recipients field ty := by
  unfold WriteRecipients expectedHeader
  rw [WriteRecipients_loop_filter, find?_eq_head?_filter]
  have hall : ∀ it ∈ recipients.filter (fun it => it.recipient_type = ty),
      it.recipient_type = ty := by
    intro it hit
    simpa using (List.mem_filter.1 hit).2
  generalize recipients.filter (fun it => decide (it.recipient_type = ty)) = fl at h hall ⊢
  match fl, h, hall with
  | [], _, _ => rfl
  | [it], _, hall =>
    rw [WriteRecipients_loop_cons_eq _ _ _ _ _ _ (hall it (List.mem_singleton_self it))]
    simp only [WriteRecipients.loop, String.append_assoc, String.empty_append, List.head?_cons,
      Bool.false_eq_true, if_false]
  | _ :: _ :: _, h, _ => simp at h

/-- C3: for a builder whose sender has no display name and which holds at most
one recipient of each role, the payload `SendBatch` writes after `DATA` is
`From: ` sender address CRLF; for each role that has a recipient, in the order
To, Cc, Bcc, the field, `: `, the mailbox (name, ` <`, address, `>` when the
name is non-empty, the address otherwise), CRLF; the two MIME lines when a
content type is set; `Subject: ` subject CRLF CRLF body CRLF `.`. -/
theorem data_with_single_recipients (b : BuilderImpl) (hname : b.sender_.name = "")
    (hone : ∀ ty, (b.recipients_.filter (fun it => it.recipient_type = ty)).length ≤ 1) :
    b.data = "From: " ++ b.sender_.address ++ "\r\n" ++
      expectedHeader b.recipients_ "To" RecipientType.Primary ++
      expectedHeader b.recipients_ "Cc" RecipientType.CarbonCopy ++
      expectedHeader b.recipients_ "Bcc" RecipientType.Blind ++
      (if b.content_type_ ≠ "" then
          "MIME-Version: 1.0\r\n" ++ "Content-Type: " ++ b.content_type_ ++ "\r\n"
        else "") ++
      "Subject: " ++ b.subject_ ++ "\r\n" ++ "\r\n" ++ b.body_ ++ "\r\n" ++ "." := by
  have h1 : ("\r\n" ++ "." : String) = "\r\n." := by decide
  have h2 : ∀ t : String, "\r\n" ++ ("\r\n" ++ t) = "\r\n\r\n" ++ t := by
    intro t
    rw [← String.append_assoc]
    rfl
  have hfrom : WriteRecipient "From" b.sender_.address b.sender_.name "" =
      "From: " ++ (b.sender_.address ++ "\r\n") := by
    have h0 : ¬ ("".length > 0) := by decide
    have h3 : ("From" ++ ": " : String) = "From: " := by decide
    simp only [WriteRecipient, hname, h0, if_false, String.empty_append, String.append_assoc]
    rw [← String.append_assoc, h3]
  rw [data_eq, hfrom, WriteRecipients_single _ _ _ (hone _), WriteRecipients_single _ _ _ (hone _),
    WriteRecipients_single _ _ _ (hone _)]
  simp only [String.append_assoc, h1, h2]

theorem data_with_single_recipients_witness :
    testBuilder.sender_.name = "" ∧
    (∀ ty, (testBuilder.recipients_.filter (fun it => it.recipient_type = ty)).length ≤ 1) ∧
    testBuilder.data =
      "From: from@example.com\r\nTo: to@example.com\r\nCc: joe smith <cc@example.com>\r\nBcc: jane smith <bcc@example.com>\r\nSubject: Subject\r\n\r\nThis is the body.\r\n." :=
  ⟨rfl, fun ty => by cases ty <;> decide,
    (data_with_single_recipients testBuilder rfl (fun ty => by cases ty <;> decide)).trans
      (by decide)⟩

/-- C4, the code at two Primary recipients `a` and `b`: `WriteRecipients` ends
the line after each recipient, so the header it writes is `To: a` CRLF `, b`
CRLF, not the single line `To: a, b` CRLF. -/
theorem WriteRecipients_two_recipients :
    WriteRecipients
      [{ address := "a", name := "", recipient_type := RecipientType.Primary },
       { address := "b", name := "", recipient_type := RecipientType.Primary }]
      "To" RecipientType.Primary.toInt "" = "To: a\r\n, b\r\n" ∧
    (((Smtp.new "username" "password").NewEmail.AddRecipient "a").AddRecipient "b").data =
      "From: \r\nTo: a\r\n, b\r\nSubject: \r\n\r\n\r\n." ∧
    ("To: a\r\n, b\r\n" : String) ≠ "To: a, b\r\n" := by
  decide

/-- The outcome of `Quit`: `QUIT` is written; `Read(221)` is called when the
write replied OK; `Disconnect` is called last. -/
theorem Quit_eq (A : SmtpAdapter σ) (s : σ) :
    Quit A s =
      if (A.WriteLine "QUIT" s).1 = Status.ok then
        ⟨(A.Read 221 (A.WriteLine "QUIT" s).2).1,
          A.Disconnect (A.Read 221 (A.WriteLine "QUIT" s).2).2,
          [Event.WriteLine "QUIT" Status.ok,
           Event.Read 221 (A.Read 221 (A.WriteLine "QUIT" s).2).1, Event.Disconnect]⟩
      else
        ⟨(A.WriteLine "QUIT" s).1, A.Disconnect (A.WriteLine "QUIT" s).2,
          [Event.WriteLine "QUIT" (A.WriteLine "QUIT" s).1, Event.Disconnect]⟩ := by
  unfold Quit
  cases hw : (A.WriteLine "QUIT" s).1 with
  | ok =>
    simp [run_bind, run_pure, callWriteLine, callRead, callDisconnect, Outcome.prepend,
      Status.isOk, hw]
  | error c m =>
    simp [run_bind, run_pure, callWriteLine, callRead, callDisconnect, Outcome.prepend,
      Status.isOk, hw]

/-- C11: under every adapter behaviour `Smtp::Disconnect` writes `QUIT`, calls
`Read(221)` if and only if that write replied OK, and calls the adapter's
`Disconnect` exactly once, as its last call, whatever the write and the read
replied; it returns the status of the write when the write failed and the
status of `Read(221)` otherwise. -/
theorem Disconnect_calls_and_status (A : SmtpAdapter σ) (smtp : Smtp) (s : σ) :
    (smtp.Disconnect A s).calls =
      (if (A.WriteLine "QUIT" s).1 = Status.ok then
        [Event.WriteLine "QUIT" Status.ok,
         Event.Read 221 (A.Read 221 (A.WriteLine "QUIT" s).2).1, Event.Disconnect]
      else [Event.WriteLine "QUIT" (A.WriteLine "QUIT" s).1, Event.Disconnect]) ∧
    (smtp.Disconnect A s).value =
      (if (A.WriteLine "QUIT" s).1 = Status.ok then (A.Read 221 (A.WriteLine "QUIT" s).2).1
      else (A.WriteLine "QUIT" s).1) ∧
    (smtp.Disconnect A s).calls.count Event.Disconnect = 1 ∧
    (smtp.Disconnect A s).calls.getLast? = some Event.Disconnect := by
  unfold Smtp.Disconnect
  rw [Quit_eq]
  by_cases hw : (A.WriteLine "QUIT" s).1 = Status.ok
  · simp [hw]
  · simp [hw]

theorem Send_of_connect_error (A : SmtpAdapter σ) (b : BuilderImpl) (s : σ)
    (hc : (Connect A b.username_ b.password_ s).value ≠ Status.ok) :
    b.Send A s = Connect A b.username_ b.password_ s := by
  unfold BuilderImpl.Send
  rw [RETURN_IF_ERROR_error _ _ _ hc]

theorem Send_of_sendBatch_error (A : SmtpAdapter σ) (b : BuilderImpl) (s : σ)
    (hc : (Connect A b.username_ b.password_ s).value = Status.ok)
    (hs : (b.SendBatch A (Connect A b.username_ b.password_ s).state).value ≠ Status.ok) :
    (b.Send A s).value = (b.SendBatch A (Connect A b.username_ b.password_ s).state).value ∧
    (b.Send A s).calls = (Connect A b.username_ b.password_ s).calls ++
      ((b.SendBatch A (Connect A b.username_ b.password_ s).state).calls ++
        [Event.Disconnect]) := by
  unfold BuilderImpl.Send
  rw [RETURN_IF_ERROR_ok _ _ _ hc, run_bind]
  generalize b.SendBatch A (Connect A b.username_ b.password_ s).state = sb at hs ⊢
  cases hv : sb.value with
  | ok => exact absurd hv hs
  | error c m => 
    simp only [Status.isOk, Bool.not_false, if_true, Outcome.prepend_value,
      Outcome.prepend_calls, run_bind, run_pure, callDisconnect, List.append_nil]
    exact ⟨trivial, trivial⟩

theorem Send_of_sendBatch_ok (A : SmtpAdapter σ) (b : BuilderImpl) (s : σ)
    (hc : (Connect A b.username_ b.password_ s).value = Status.ok)
    (hs : (b.SendBatch A (Connect A b.username_ b.password_ s).state).value = Status.ok) :
    (b.Send A s).value =
      (Quit A (b.SendBatch A (Connect A b.username_ b.password_ s).state).state).value ∧
    (b.Send A s).calls = (Connect A b.username_ b.password_ s).calls ++
      ((b.SendBatch A (Connect A b.username_ b.password_ s).state).calls ++
        (Quit A (b.SendBatch A (Connect A b.username_ b.password_ s).state).state).calls) := by
  unfold BuilderImpl.Send
  rw [RETURN_IF_ERROR_ok _ _ _ hc, run_bind]
  generalize b.SendBatch A (Connect A b.username_ b.password_ s).state = sb at hs ⊢
  simp only [hs, Status.isOk, Bool.not_true, Bool.false_eq_true, if_false, Outcome.prepend_value,
    Outcome.prepend_calls]
  exact ⟨trivial, trivial⟩

theorem Follows.mem_calls {script : List Event} {o : Outcome σ Status} (h : Follows script o) :
    ∀ e ∈ o.calls, ∃ e' ∈ script, e = e' ∨ e = e'.withReply o.value := by
  intro e he
  rcases h with ⟨_, hc⟩ | ⟨pre, f, post, hs, _, _, hc⟩
  · exact ⟨e, hc ▸ he, Or.inl rfl⟩
  · rw [hc] at he
    rcases List.mem_append.1 he with hp | hl
    · exact ⟨e, by rw [hs]; exact List.mem_append_left _ hp, Or.inl rfl⟩
    · rw [List.mem_singleton] at hl
      exact ⟨f, by rw [hs]; simp, Or.inr hl⟩

theorem WriteRecipient_eq (field address name output : String) :
    WriteRecipient field address name output =
      output ++ (field ++ (": " ++ (address ++
        ((if name.length > 0 then " <" ++ (name ++ ">") else "") ++ "\r\n")))) := by
  unfold WriteRecipient
  by_cases h : name.length > 0 <;>
    simp only [h, if_true, if_false, String.append_assoc, String.empty_append]

theorem data_head (b : BuilderImpl) : ∃ tail, b.data.data = 'F' :: tail := by
  have h : ∃ rest : String, b.data = "From" ++ rest :=
    ⟨_, by rw [data_eq, WriteRecipient_eq]; simp only [String.empty_append, String.append_assoc]; rfl⟩
  obtain ⟨rest, hrest⟩ := h
  exact ⟨['r', 'o', 'm'] ++ rest.data, by rw [hrest, String.data_append]; rfl⟩

theorem data_ne_quit (b : BuilderImpl) : b.data ≠ "QUIT" := by
  intro h
  obtain ⟨tail, ht⟩ := data_head b
  rw [h] at ht
  simp at ht

theorem mail_from_ne_quit (address : String) : "MAIL FROM: <" ++ address ++ ">" ≠ "QUIT" := by
  intro h
  have := congrArg String.data h
  simp at this

theorem rcpt_to_ne_quit (address : String) : "RCPT TO: <" ++ address ++ ">" ≠ "QUIT" := by
  intro h
  have := congrArg String.data h
  simp at this

/-- Every call of a message transaction is a `Read` or a `WriteLine` of a line
other than `QUIT`. -/
theorem transaction_kind (b : BuilderImpl) :
    ∀ e ∈ transaction b, (∃ n, e = Event.Read n Status.ok) ∨
      (∃ m, e = Event.WriteLine m Status.ok ∧ m ≠ "QUIT") := by
  intro e he
  simp only [transaction, List.mem_append, List.mem_cons, List.mem_singleton, List.not_mem_nil,
    or_false, List.mem_flatMap] at he
  rcases he with ((h | h) | ⟨it, _, h | h⟩) | h | h | h | h
  · exact Or.inr ⟨_, h, mail_from_ne_quit _⟩
  · exact Or.inl ⟨_, h⟩
  · exact Or.inr ⟨_, h, rcpt_to_ne_quit _⟩
  · exact Or.inl ⟨_, h⟩
  · exact Or.inr ⟨_, h, by decide⟩
  · exact Or.inl ⟨_, h⟩
  · exact Or.inr ⟨_, h, data_ne_quit b⟩
  · exact Or.inl ⟨_, h⟩

theorem SendBatch_calls_kind (A : SmtpAdapter σ) (b : BuilderImpl) (s : σ) :
    ∀ e ∈ (b.SendBatch A s).calls, (∃ n r, e = Event.Read n r) ∨
      (∃ m r, e = Event.WriteLine m r ∧ m ≠ "QUIT") := by
  intro e he
  obtain ⟨e', he', h | h⟩ := (SendBatch_follows A b s).mem_calls e he
  · subst h
    rcases transaction_kind b e he' with ⟨n, hn⟩ | ⟨m, hm, hq⟩
    · exact Or.inl ⟨n, _, hn⟩
    · exact Or.inr ⟨m, _, hm, hq⟩
  · rcases transaction_kind b e' he' with ⟨n, hn⟩ | ⟨m, hm, hq⟩
    · subst hn
      exact Or.inl ⟨n, _, h⟩
    · subst hm
      exact Or.inr ⟨m, _, h, hq⟩

theorem withReply_ne_disconnect (e : Event) (v : Status) (h : e ≠ Event.Disconnect) :
    e.withReply v ≠ Event.Disconnect := by
  cases e <;> simp [Event.withReply] at h ⊢

theorem Follows.failing_call {script : List Event} {o : Outcome σ Status} (h : Follows script o)
    (hv : o.value ≠ Status.ok) : ∃ e ∈ o.calls, e.reply = o.value := by
  rcases h with ⟨hok, _⟩ | ⟨pre, f, post, _, _, hr, hc⟩
  · exact absurd hok hv
  · exact ⟨f.withReply o.value, by rw [hc]; simp, hr⟩

theorem SendBatch_count_disconnect (A : SmtpAdapter σ) (b : BuilderImpl) (s : σ) :
    (b.SendBatch A s).calls.count Event.Disconnect = 0 := by
  rw [List.count_eq_zero]
  intro hmem
  rcases SendBatch_calls_kind A b s _ hmem with ⟨n, r, h⟩ | ⟨m, r, h, _⟩ <;> simp at h

/-- When `Connect` returns OK its calls are the adapter's `Connect` and the
whole handshake, every call replying OK. -/
theorem Connect_ok_calls (A : SmtpAdapter σ) (u p : String) (s : σ)
    (hv : (Connect A u p s).value = Status.ok) :
    (A.Connect s).1 = Status.ok ∧
    ∃ host, (Connect A u p s).calls = Event.Connect Status.ok :: handshake host u p := by
  rcases Connect_shape A u p s with ⟨hne, hval, _⟩ | ⟨hc, host, o, hfol, hval, hcalls⟩
  · exact absurd (hval ▸ hv) hne
  · rw [hval] at hv
    rcases hfol with ⟨_, hoc⟩ | ⟨_, _, _, _, hne, _, _⟩
    · exact ⟨hc, host, by rw [hcalls, hoc, if_pos hv, List.append_nil]⟩
    · exact absurd hv hne

/-- When `Connect` does not return OK, the status it returns is the reply of
one of its calls, and `Disconnect` was called once if the adapter had
connected and not at all otherwise. -/
theorem Connect_error_calls (A : SmtpAdapter σ) (u p : String) (s : σ)
    (hv : (Connect A u p s).value ≠ Status.ok) :
    (∃ e ∈ (Connect A u p s).calls, e.reply = (Connect A u p s).value) ∧
    (Connect A u p s).calls.count Event.Disconnect =
      if (A.Connect s).1 = Status.ok then 1 else 0 := by
  rcases Connect_shape A u p s with ⟨hne, hval, hcalls⟩ | ⟨hc, host, o, hfol, hval, hcalls⟩
  · refine ⟨⟨Event.Connect (A.Connect s).1, by rw [hcalls]; simp, hval.symm⟩, ?_⟩
    rw [if_neg hne, hcalls]
    rfl
  · rw [hval] at hv
    obtain ⟨e, he, hr⟩ := hfol.failing_call hv
    have hf : ∃ e ∈ (Connect A u p s).calls, e.reply ≠ Status.ok :=
      ⟨e, by rw [hcalls]; simp [he], by rw [hr]; exact hv⟩
    refine ⟨⟨e, by rw [hcalls]; simp [he], by rw [hr, hval]⟩, ?_⟩
    obtain ⟨hv', pre, f, hcalls', hfr, hpre, _⟩ := Connect_failure_shape A u p s hc hf
    rw [if_pos hc, hcalls']
    refine count_disconnect_failure pre f hpre ?_
    intro hfd
    rw [hfd] at hfr
    exact hv' hfr.symm

theorem handshake_count_disconnect (host u p : String) :
    (handshake host u p).count Event.Disconnect = 0 := by
  rw [List.count_eq_zero]
  intro hmem
  exact handshake_not_disconnect host u p _ hmem rfl

theorem Quit_count_disconnect (A : SmtpAdapter σ) (s : σ) :
    (Quit A s).calls.count Event.Disconnect = 1 := by
  rw [Quit_eq]
  by_cases hw : (A.WriteLine "QUIT" s).1 = Status.ok <;> simp [hw]

/-- The number of `Disconnect` calls of `Send`: one when the adapter connected,
none when the adapter's `Connect` failed. -/
theorem Send_count_disconnect (A : SmtpAdapter σ) (b : BuilderImpl) (s : σ) :
    (b.Send A s).calls.count Event.Disconnect =
      if (A.Connect s).1 = Status.ok then 1 else 0 := by
  by_cases hc : (Connect A b.username_ b.password_ s).value = Status.ok
  · obtain ⟨hac, host, hcalls⟩ := Connect_ok_calls A b.username_ b.password_ s hc
    rw [if_pos hac]
    by_cases hs : (b.SendBatch A (Connect A b.username_ b.password_ s).state).value = Status.ok
    · rw [(Send_of_sendBatch_ok A b s hc hs).2, hcalls, List.count_append, List.count_append,
        SendBatch_count_disconnect, Quit_count_disconnect,
        List.count_cons_of_ne (by simp), handshake_count_disconnect]
    · rw [(Send_of_sendBatch_error A b s hc hs).2, hcalls, List.count_append, List.count_append,
        SendBatch_count_disconnect, List.count_cons_of_ne (by simp), handshake_count_disconnect]
      rfl
  · rw [Send_of_connect_error A b s hc]
    exact (Connect_error_calls A b.username_ b.password_ s hc).2

/-- C12, as amended: under every adapter behaviour `Send` calls the adapter's
`Disconnect` exactly once when the adapter's `Connect` succeeded, whether or
not the rest succeeded, and does not call it when the adapter's `Connect`
failed. -/
theorem Send_disconnects_once_if_connected (A : SmtpAdapter σ) (b : BuilderImpl) (s : σ) :
    ((A.Connect s).1 = Status.ok → (b.Send A s).calls.count Event.Disconnect = 1) ∧
    ((A.Connect s).1 ≠ Status.ok → (b.Send A s).calls.count Event.Disconnect = 0 ∧
      (b.Send A s).calls = [Event.Connect (A.Connect s).1]) := by
  constructor
  · intro hc
    rw [Send_count_disconnect, if_pos hc]
  · intro hc
    refine ⟨by rw [Send_count_disconnect, if_neg hc], ?_⟩
    rcases Connect_shape A b.username_ b.password_ s with ⟨_, hval, hcalls⟩ | ⟨hok, _⟩
    · rw [Send_of_connect_error A b s (by rw [hval]; exact hc), hcalls]
    · exact absurd hok hc

theorem Send_disconnects_once_if_connected_witness :
    ((failAt 8 (Status.error 13 "Error") "TestHost").Connect 0).1 = Status.ok ∧
    (testBuilder.Send (failAt 8 (Status.error 13 "Error") "TestHost") 0).calls.count
      Event.Disconnect = 1 ∧
    (testBuilder.Send (failAt 15 (Status.error 13 "Error") "TestHost") 0).calls.count
      Event.Disconnect = 1 ∧
    (testBuilder.Send (okAdapter "TestHost") ()).calls.count Event.Disconnect = 1 :=
  ⟨by decide,
    (Send_disconnects_once_if_connected (failAt 8 (Status.error 13 "Error") "TestHost")
      testBuilder 0).1 (by decide),
    (Send_disconnects_once_if_connected (failAt 15 (Status.error 13 "Error") "TestHost")
      testBuilder 0).1 (by decide),
    (Send_disconnects_once_if_connected (okAdapter "TestHost") testBuilder ()).1 (by decide)⟩

/-- C12, the claim as stated fails: when the adapter's `Connect` fails, `Send`
returns without calling `Disconnect`. -/
theorem Send_disconnect_counterexample :
    (testBuilder.Send (failAt 0 (Status.error 14 "host not found") "TestHost") 0).calls.count
      Event.Disconnect = 0 ∧
    (testBuilder.Send (failAt 0 (Status.error 14 "host not found") "TestHost") 0).calls =
      [Event.Connect (Status.error 14 "host not found")] := by
  decide

theorem helo_ne_quit (h : String) : "HELO " ++ h ≠ "QUIT" := by
  intro hh
  have := congrArg String.data hh
  simp at this

theorem credentials_ne_quit (u p : String) : Base64Encode (authBlob u p) ≠ "QUIT" := by
  intro hh
  obtain ⟨tail, ht⟩ := Base64Encode_authBlob_head u p
  rw [hh] at ht
  simp at ht

theorem handshake_no_quit (host u p : String) (r : Status) :
    Event.WriteLine "QUIT" r ∉ handshake host u p := by
  intro hmem
  simp only [handshake, List.mem_cons, List.mem_singleton, List.not_mem_nil, or_false] at hmem
  rcases hmem with h | h | h | h | h | h | h | h | h | h | h
  all_goals first
    | exact Event.noConfusion h
    | (simp only [Event.WriteLine.injEq] at h
       first
         | exact absurd h.1 (by decide)
         | exact helo_ne_quit host h.1.symm
         | exact credentials_ne_quit u p h.1.symm)

theorem SendBatch_no_quit (A : SmtpAdapter σ) (b : BuilderImpl) (s : σ) (r : Status) :
    Event.WriteLine "QUIT" r ∉ (b.SendBatch A s).calls := by
  intro hmem
  rcases SendBatch_calls_kind A b s _ hmem with ⟨n, r', h⟩ | ⟨m, r', h, hq⟩
  · simp at h
  · simp only [Event.WriteLine.injEq] at h
    exact hq h.1.symm

/-- C13: when within `Send` the `Connect` phase returns OK and `SendBatch`
fails with a status `e`, `Send` returns exactly `e`; its calls are those of
`Connect`, those of `SendBatch`, then `Disconnect`: `Disconnect` is called
exactly once and `QUIT` is not written. -/
theorem Send_returns_SendBatch_error (A : SmtpAdapter σ) (b : BuilderImpl) (s : σ)
    (hc : (Connect A b.username_ b.password_ s).value = Status.ok)
    (hs : (b.SendBatch A (Connect A b.username_ b.password_ s).state).value ≠ Status.ok) :
    (b.Send A s).value = (b.SendBatch A (Connect A b.username_ b.password_ s).state).value ∧
    (b.Send A s).calls = (Connect A b.username_ b.password_ s).calls ++
      (b.SendBatch A (Connect A b.username_ b.password_ s).state).calls ++
      [Event.Disconnect] ∧
    (b.Send A s).calls.count Event.Disconnect = 1 ∧
    ∀ r, Event.WriteLine "QUIT" r ∉ (b.Send A s).calls := by
  obtain ⟨hval, hcalls⟩ := Send_of_sendBatch_error A b s hc hs
  obtain ⟨hac, host, hcc⟩ := Connect_ok_calls A b.username_ b.password_ s hc
  refine ⟨hval, by rw [hcalls, List.append_assoc], ?_, ?_⟩
  · rw [Send_count_disconnect, if_pos hac]
  · intro r hmem
    rw [hcalls, hcc] at hmem
    rcases List.mem_append.1 hmem with h | h
    · rcases List.mem_cons.1 h with h | h
      · simp at h
      · exact handshake_no_quit host _ _ r h
    · rcases List.mem_append.1 h with h | h
      · exact SendBatch_no_quit A b _ r h
      · simp at h

theorem Send_returns_SendBatch_error_witness :
    (Connect (failAt 15 (Status.error 13 "rejected") "TestHost") testBuilder.username_
      testBuilder.password_ 0).value = Status.ok ∧
    (testBuilder.Send (failAt 15 (Status.error 13 "rejected") "TestHost") 0).value =
      Status.error 13 "rejected" ∧
    (testBuilder.Send (failAt 15 (Status.error 13 "rejected") "TestHost") 0).calls.count
      Event.Disconnect = 1 :=
  have h := Send_returns_SendBatch_error (failAt 15 (Status.error 13 "rejected") "TestHost")
    testBuilder 0 (by decide) (by decide)
  ⟨by decide, h.1.trans (by decide), h.2.2.1⟩

/-- C16: under every adapter behaviour every call of `SendBatch` is a `Read`
or a `WriteLine` of a line other than `QUIT`: `SendBatch` never calls the
adapter's `Connect`, `EnableTls` or `Disconnect` and never writes `QUIT`. -/
theorem SendBatch_leaves_session_open (A : SmtpAdapter σ) (b : BuilderImpl) (s : σ) :
    (∀ e ∈ (b.SendBatch A s).calls, (∃ n r, e = Event.Read n r) ∨
      (∃ m r, e = Event.WriteLine m r ∧ m ≠ "QUIT")) ∧
    (∀ r, Event.Connect r ∉ (b.SendBatch A s).calls) ∧
    (∀ r, Event.EnableTls r ∉ (b.SendBatch A s).calls) ∧
    Event.Disconnect ∉ (b.SendBatch A s).calls ∧
    (∀ r, Event.WriteLine "QUIT" r ∉ (b.SendBatch A s).calls) := by
  have hk := SendBatch_calls_kind A b s
  refine ⟨hk, ?_, ?_, ?_, SendBatch_no_quit A b s⟩
  · intro r hmem
    rcases hk _ hmem with ⟨n, r', h⟩ | ⟨m, r', h, _⟩ <;> simp at h
  · intro r hmem
    rcases hk _ hmem with ⟨n, r', h⟩ | ⟨m, r', h, _⟩ <;> simp at h
  · intro hmem
    rcases hk _ hmem with ⟨n, r', h⟩ | ⟨m, r', h, _⟩ <;> simp at h

/-- C14: when every adapter call made by `Send` replies OK, `Send` returns OK
and its calls are the calls of `Smtp::Connect`, followed by the calls of
`SendBatch` on the same builder, followed by the calls of `Smtp::Disconnect`,
which are `QUIT`, `Read(221)`, `Disconnect`. -/
theorem Send_is_Connect_SendBatch_Disconnect (A : SmtpAdapter σ) (smtp : Smtp)
    (b : BuilderImpl) (s : σ)
    (hu : b.username_ = smtp.username_) (hp : b.password_ = smtp.password_)
    (hall : ∀ e ∈ (b.Send A s).calls, e.reply = Status.ok) :
    (b.Send A s).value = Status.ok ∧
    (b.Send A s).calls = (smtp.Connect A s).calls ++
      (b.SendBatch A (smtp.Connect A s).state).calls ++
      (smtp.Disconnect A (b.SendBatch A (smtp.Connect A s).state).state).calls ∧
    (smtp.Disconnect A (b.SendBatch A (smtp.Connect A s).state).state).calls =
      [Event.WriteLine "QUIT" Status.ok, Event.Read 221 Status.ok, Event.Disconnect] := by
  unfold Smtp.Connect Smtp.Disconnect
  rw [← hu, ← hp]
  have hc : (Connect A b.username_ b.password_ s).value = Status.ok := by
    by_contra hc
    obtain ⟨e, he, hr⟩ := (Connect_error_calls A b.username_ b.password_ s hc).1
    rw [← Send_of_connect_error A b s hc] at he
    exact hc (hr ▸ hall e he)
  have hs : (b.SendBatch A (Connect A b.username_ b.password_ s).state).value = Status.ok := by
    by_contra hs
    obtain ⟨e, he, hr⟩ := (SendBatch_follows A b _).failing_call hs
    have hmem : e ∈ (b.Send A s).calls := by
      rw [(Send_of_sendBatch_error A b s hc hs).2]
      simp [he]
    exact hs (hr ▸ hall e hmem)
  obtain ⟨hval, hcalls⟩ := Send_of_sendBatch_ok A b s hc hs
  have hq : ∀ e ∈ (Quit A (b.SendBatch A (Connect A b.username_ b.password_ s).state).state).calls,
      e.reply = Status.ok := by
    intro e he
    exact hall e (by rw [hcalls]; simp [he])
  rw [hval, hcalls]
  generalize (b.SendBatch A (Connect A b.username_ b.password_ s).state).state = s2 at hq ⊢
  rw [Quit_eq] at hq ⊢
  by_cases hw : (A.WriteLine "QUIT" s2).1 = Status.ok
  · have hr := hq (Event.Read 221 (A.Read 221 (A.WriteLine "QUIT" s2).2).1) (by simp [hw])
    simp only [Event.reply] at hr
    simp [hw, hr]
  · exact absurd (hq (Event.WriteLine "QUIT" (A.WriteLine "QUIT" s2).1) (by simp [hw])) hw

theorem Send_is_Connect_SendBatch_Disconnect_witness :
    (∀ e ∈ (testBuilder.Send (okAdapter "TestHost") ()).calls, e.reply = Status.ok) ∧
    (testBuilder.Send (okAdapter "TestHost") ()).value = Status.ok ∧
    (testBuilder.Send (okAdapter "TestHost") ()).calls.length = 27 :=
  have h := Send_is_Connect_SendBatch_Disconnect (okAdapter "TestHost")
    (Smtp.new "username" "password") testBuilder () rfl rfl (by decide)
  ⟨by decide, h.1, by decide⟩

/-- When the call number `i` of an outcome that follows a script failed, it is
the last call, the calls before it are those of the script, and the value is
its reply. -/
theorem Follows.failing_at {script : List Event} {o : Outcome σ Status} (h : Follows script o)
    (hscript : ∀ e ∈ script, e.reply = Status.ok) (i : Nat) (f : Event)
    (hi : o.calls[i]? = some f) (hf : f.reply ≠ Status.ok) :
    o.value = f.reply ∧ o.calls = script.take i ++ [f] ∧ i < script.length := by
  rcases h with ⟨_, hc⟩ | ⟨pre, x, post, hs, _, hr, hc⟩
  · rw [hc] at hi
    exact absurd (hscript f (List.getElem?_mem hi)) hf
  · rw [hc] at hi
    rcases Nat.lt_trichotomy i pre.length with hlt | heq | hgt
    · rw [List.getElem?_append_left hlt] at hi
      have hmem : f ∈ script := by
        rw [hs]
        exact List.mem_append_left _ (List.getElem?_mem hi)
      exact absurd (hscript f hmem) hf
    · subst heq
      rw [List.getElem?_append_right (Nat.le_refl _)] at hi
      simp only [Nat.sub_self, List.getElem?_cons_zero, Option.some.injEq] at hi
      subst hi
      refine ⟨hr.symm, ?_, ?_⟩
      · rw [hc, hs, List.take_left']
        rfl
      · rw [hs]
        simp
    · rw [List.getElem?_eq_none (by simp; omega)] at hi
      exact absurd hi (by simp)

theorem take_flatMap_rcpt : ∀ (recipients : List Recipient) (j : Nat), j < recipients.length →
    (recipients.flatMap (fun it =>
      [Event.WriteLine ("RCPT TO: <" ++ it.address ++ ">") Status.ok,
       Event.Read 250 Status.ok])).take (2 * j + 1) =
    (recipients.take j).flatMap (fun it =>
      [Event.WriteLine ("RCPT TO: <" ++ it.address ++ ">") Status.ok,
       Event.Read 250 Status.ok]) ++
    ((recipients.drop j).take 1).map (fun it =>
      Event.WriteLine ("RCPT TO: <" ++ it.address ++ ">") Status.ok)
  | [], j, h => by simp at h
  | it :: rest, 0, _ => by simp
  | it :: rest, j + 1, h => by
    have hj : j < rest.length := by simpa using h
    have h2 : 2 * (j + 1) + 1 = (2 * j + 1) + 1 + 1 := by omega
    simp only [List.flatMap_cons, List.cons_append, List.nil_append, h2, List.take_succ_cons,
      List.drop_succ_cons]
    rw [take_flatMap_rcpt rest j hj]

theorem filterMap_line_flatMap_rcpt (recipients : List Recipient) :
    (recipients.flatMap (fun it =>
      [Event.WriteLine ("RCPT TO: <" ++ it.address ++ ">") Status.ok,
       Event.Read 250 Status.ok])).filterMap Event.line? =
    recipients.map (fun it => "RCPT TO: <" ++ it.address ++ ">") := by
  induction recipients with
  | nil => rfl
  | cons it rest ih =>
    simp only [List.flatMap_cons, List.cons_append, List.nil_append, List.filterMap_cons,
      Event.line?, List.map_cons, ih]

theorem transaction_reply (b : BuilderImpl) : ∀ e ∈ transaction b, e.reply = Status.ok := by
  intro e he
  rcases transaction_kind b e he with ⟨n, h⟩ | ⟨m, h, _⟩ <;> subst h <;> rfl

/-- C15: when the `Read(250)` that follows the `k`-th `RCPT TO` line, the call
number `2 * k + 1` of `SendBatch` counted from 0, replies a status `e` that is
not OK, `SendBatch` returns `e` and its calls stop there: the lines written are
`MAIL FROM` and the `RCPT TO` lines of the first `k` recipients, so no later
`RCPT TO`, no `DATA` and no payload is written. -/
theorem SendBatch_stops_at_rejected_recipient (A : SmtpAdapter σ) (b : BuilderImpl) (s : σ)
    (k : Nat) (e : Status) (hk1 : 1 ≤ k) (hkn : k ≤ b.recipients_.length)
    (he : e ≠ Status.ok)
    (hread : (b.SendBatch A s).calls[2 * k + 1]? = some (Event.Read 250 e)) :
    (b.SendBatch A s).value = e ∧
    (b.SendBatch A s).calls =
      [Event.WriteLine ("MAIL FROM: <" ++ b.sender_.address ++ ">") Status.ok,
       Event.Read 250 Status.ok] ++
      (b.recipients_.take (k - 1)).flatMap (fun it =>
        [Event.WriteLine ("RCPT TO: <" ++ it.address ++ ">") Status.ok,
         Event.Read 250 Status.ok]) ++
      ((b.recipients_.drop (k - 1)).take 1).map (fun it =>
        Event.WriteLine ("RCPT TO: <" ++ it.address ++ ">") Status.ok) ++
      [Event.Read 250 e] ∧
    (b.SendBatch A s).calls.filterMap Event.line? =
      ("MAIL FROM: <" ++ b.sender_.address ++ ">") ::
        (b.recipients_.take k).map (fun it => "RCPT TO: <" ++ it.address ++ ">") := by
  obtain ⟨j, rfl⟩ : ∃ j, k = j + 1 := ⟨k - 1, by omega⟩
  have hj : j < b.recipients_.length := by omega
  obtain ⟨hval, hcalls, _⟩ := (SendBatch_follows A b s).failing_at (transaction_reply b)
    (2 * (j + 1) + 1) (Event.Read 250 e) hread he
  have htake : (transaction b).take (2 * (j + 1) + 1) =
      [Event.WriteLine ("MAIL FROM: <" ++ b.sender_.address ++ ">") Status.ok,
       Event.Read 250 Status.ok] ++
      (b.recipients_.take j).flatMap (fun it =>
        [Event.WriteLine ("RCPT TO: <" ++ it.address ++ ">") Status.ok,
         Event.Read 250 Status.ok]) ++
      ((b.recipients_.drop j).take 1).map (fun it =>
        Event.WriteLine ("RCPT TO: <" ++ it.address ++ ">") Status.ok) := by
    have h2 : 2 * (j + 1) + 1 = (2 * j + 1) + 1 + 1 := by omega
    have hlen : 2 * j + 1 ≤ (b.recipients_.flatMap (fun it =>
        [Event.WriteLine ("RCPT TO: <" ++ it.address ++ ">") Status.ok,
         Event.Read 250 Status.ok])).length := by
      rw [length_flatMap_rcpt]
      omega
    simp only [transaction, List.cons_append, List.nil_append, h2, List.take_succ_cons,
      List.append_assoc]
    rw [List.take_append_of_le_length hlen, take_flatMap_rcpt _ j hj]
  have hcalls' := hcalls
  rw [htake] at hcalls'
  refine ⟨hval, by simpa using hcalls', ?_⟩
  rw [hcalls']
  simp only [List.filterMap_append, filterMap_line_flatMap_rcpt, List.filterMap_cons,
    List.filterMap_nil, Event.line?, List.cons_append, List.nil_append, List.append_nil,
    List.filterMap_map]
  rw [List.take_add]
  simp only [List.map_append, List.cons.injEq, true_and, List.append_cancel_left_eq]
  induction (List.take 1 (List.drop j b.recipients_)) with
  | nil => rfl
  | cons x xs ih => simp [Event.line?, ih]

theorem SendBatch_stops_at_rejected_recipient_witness :
    (testBuilder.SendBatch (failAt 5 (Status.error 13 "rejected") "TestHost") 0).calls[5]? =
      some (Event.Read 250 (Status.error 13 "rejected")) ∧
    (testBuilder.SendBatch (failAt 5 (Status.error 13 "rejected") "TestHost") 0).value =
      Status.error 13 "rejected" ∧
    (testBuilder.SendBatch (failAt 5 (Status.error 13 "rejected") "TestHost")
      0).calls.filterMap Event.line? =
      ["MAIL FROM: <from@example.com>", "RCPT TO: <to@example.com>",
       "RCPT TO: <cc@example.com>"] :=
  have h := SendBatch_stops_at_rejected_recipient
    (failAt 5 (Status.error 13 "rejected") "TestHost") testBuilder 0 2
    (Status.error 13 "rejected") (by decide) (by decide) (by decide) (by decide)
  ⟨by decide, h.1, h.2.2⟩

/-- C17: whatever the builder held before, `NewEmail()` returns it with every
message field empty and the credentials kept, and when every adapter call
replies OK `NewEmail().SendBatch()` returns OK and makes exactly the calls
`MAIL FROM: <>`, `Read(250)`, `DATA`, `Read(354)`, the payload `From: ` CRLF
`Subject: ` CRLF CRLF CRLF `.`, `Read(250)`: no `RCPT TO` line. -/
theorem NewEmail_resets_state (A : SmtpAdapter σ) (smtp : Smtp) (s : σ)
    (h : ∀ e ∈ (smtp.NewEmail.SendBatch A s).calls, e.reply = Status.ok) :
    smtp.NewEmail =
      { recipients_ := [], sender_ := { address := "", name := "" }, subject_ := "", body_ := "",
        content_type_ := "", username_ := smtp.builder_.username_,
        password_ := smtp.builder_.password_ } ∧
    (smtp.NewEmail.SendBatch A s).value = Status.ok ∧
    (smtp.NewEmail.SendBatch A s).calls =
      [Event.WriteLine "MAIL FROM: <>" Status.ok, Event.Read 250 Status.ok,
       Event.WriteLine "DATA" Status.ok, Event.Read 354 Status.ok,
       Event.WriteLine "From: \r\nSubject: \r\n\r\n\r\n." Status.ok,
       Event.Read 250 Status.ok] := by
  obtain ⟨hv, hc⟩ := (SendBatch_follows A smtp.NewEmail s).all_ok h
  refine ⟨rfl, hv, ?_⟩
  rw [hc]
  rfl

theorem NewEmail_resets_state_witness :
    (∀ e ∈ (({ (Smtp.new "username" "password") with builder_ := testBuilder } :
        Smtp).NewEmail.SendBatch (okAdapter "TestHost") ()).calls, e.reply = Status.ok) ∧
    testBuilder.subject_ = "Subject" ∧
    (({ (Smtp.new "username" "password") with builder_ := testBuilder } :
      Smtp).NewEmail.SendBatch (okAdapter "TestHost") ()).calls =
      [Event.WriteLine "MAIL FROM: <>" Status.ok, Event.Read 250 Status.ok,
       Event.WriteLine "DATA" Status.ok, Event.Read 354 Status.ok,
       Event.WriteLine "From: \r\nSubject: \r\n\r\n\r\n." Status.ok,
       Event.Read 250 Status.ok] :=
  ⟨by decide, rfl,
    (NewEmail_resets_state (okAdapter "TestHost")
      { (Smtp.new "username" "password") with builder_ := testBuilder } ()
      (by decide)).2.2⟩

theorem Setter.apply_credentials (setter : Setter) (b : BuilderImpl) :
    (setter.apply b).username_ = b.username_ ∧ (setter.apply b).password_ = b.password_ := by
  cases setter <;> exact ⟨rfl, rfl⟩

theorem chain_credentials (setters : List Setter) :
    ∀ b : BuilderImpl, (b.chain setters).username_ = b.username_ ∧
      (b.chain setters).password_ = b.password_ := by
  induction setters with
  | nil => exact fun b => ⟨rfl, rfl⟩
  | cons setter rest ih =>
    intro b
    have h1 := Setter.apply_credentials setter b
    have h2 := ih (setter.apply b)
    exact ⟨h2.1.trans h1.1, h2.2.trans h1.2⟩

theorem Reset_eq (b : BuilderImpl) :
    b.Reset =
      { recipients_ := [], sender_ := { address := "", name := "" }, subject_ := "", body_ := "",
        content_type_ := "", username_ := b.username_, password_ := b.password_ } := rfl

theorem Reset_chain (b : BuilderImpl) (setters : List Setter) :
    (b.chain setters).Reset = b.Reset := by
  rw [Reset_eq, Reset_eq, (chain_credentials setters b).1, (chain_credentials setters b).2]

theorem NewEmail_after_chain (smtp : Smtp) (setters : List Setter) :
    ({ smtp with builder_ := smtp.NewEmail.chain setters } : Smtp).NewEmail =
      (Smtp.new smtp.builder_.username_ smtp.builder_.password_).NewEmail := by
  unfold Smtp.NewEmail
  rw [Reset_chain]
  rfl

/-- C18: for any two chains of setter calls `m1` and `m2`, the statements
`smtp.NewEmail().m1.SendBatch()` and then `smtp.NewEmail().m2.SendBatch()` on
one `Smtp` object behave, under every adapter behaviour, as `SendBatch` on a
fresh builder holding only `m1` followed by `SendBatch` on a fresh builder
holding only `m2`: nothing of `m1` is left in the second transaction, and the
adapter's `Connect` and `Disconnect` are not called. -/
theorem batches_are_independent (A : SmtpAdapter σ) (smtp : Smtp) (m1 m2 : List Setter)
    (s : σ) :
    (smtp.NewEmailSendBatch A m1 s).1 =
      ((Smtp.new smtp.builder_.username_ smtp.builder_.password_).NewEmail.chain m1).SendBatch
        A s ∧
    ((smtp.NewEmailSendBatch A m1 s).2.NewEmailSendBatch A m2
        (smtp.NewEmailSendBatch A m1 s).1.state).1 =
      ((Smtp.new smtp.builder_.username_ smtp.builder_.password_).NewEmail.chain m2).SendBatch
        A (smtp.NewEmailSendBatch A m1 s).1.state ∧
    (∀ e ∈ (smtp.NewEmailSendBatch A m1 s).1.calls ++
        ((smtp.NewEmailSendBatch A m1 s).2.NewEmailSendBatch A m2
          (smtp.NewEmailSendBatch A m1 s).1.state).1.calls,
      (∀ r, e ≠ Event.Connect r) ∧ e ≠ Event.Disconnect) := by
  have h0 : smtp.NewEmail =
      (Smtp.new smtp.builder_.username_ smtp.builder_.password_).NewEmail := rfl
  refine ⟨?_, ?_, ?_⟩
  · simp only [Smtp.NewEmailSendBatch, h0]
  · simp only [Smtp.NewEmailSendBatch, NewEmail_after_chain]
  · intro e he
    have hk : (∃ n r, e = Event.Read n r) ∨ (∃ m r, e = Event.WriteLine m r ∧ m ≠ "QUIT") := by
      rcases List.mem_append.1 he with h | h
      · exact SendBatch_calls_kind A _ _ e h
      · exact SendBatch_calls_kind A _ _ e h
    rcases hk with ⟨n, r, rfl⟩ | ⟨m, r, rfl, _⟩ <;> simp

/-- C19, the claim as stated fails: after `smtp.NewEmail()...SendBatch()` and
after `smtp.NewEmail()...Send()` have returned, the builder still holds the
message. -/
theorem send_does_not_reset_counterexample :
    (((Smtp.new "username" "password").NewEmailSendBatch (okAdapter "TestHost") testSetters
      ()).2.builder_.subject_ = "Subject" ∧
     ((Smtp.new "username" "password").NewEmailSendBatch (okAdapter "TestHost") testSetters
      ()).2.builder_.recipients_.length = 3) ∧
    (((Smtp.new "username" "password").NewEmailSend (okAdapter "TestHost") testSetters
      ()).2.builder_.subject_ = "Subject" ∧
     ((Smtp.new "username" "password").NewEmailSend (okAdapter "TestHost") testSetters
      ()).2.builder_.recipients_.length = 3) := by
  decide

/-- C19, as amended: `Send` and `SendBatch` leave the builder as the setters
made it, with the username and the password unchanged; the message fields are
emptied by the next `NewEmail()`, which keeps the username and the password. -/
theorem builder_after_send (A : SmtpAdapter σ) (smtp : Smtp) (setters : List Setter) (s : σ) :
    ((smtp.NewEmailSendBatch A setters s).2.builder_ = smtp.NewEmail.chain setters ∧
     (smtp.NewEmailSend A setters s).2.builder_ = smtp.NewEmail.chain setters) ∧
    ((smtp.NewEmail.chain setters).username_ = smtp.builder_.username_ ∧
     (smtp.NewEmail.chain setters).password_ = smtp.builder_.password_) ∧
    ((smtp.NewEmailSendBatch A setters s).2.NewEmail =
      { recipients_ := [], sender_ := { address := "", name := "" }, subject_ := "", body_ := "",
        content_type_ := "", username_ := smtp.builder_.username_,
        password_ := smtp.builder_.password_ } ∧
     (smtp.NewEmailSend A setters s).2.NewEmail =
      { recipients_ := [], sender_ := { address := "", name := "" }, subject_ := "", body_ := "",
        content_type_ := "", username_ := smtp.builder_.username_,
        password_ := smtp.builder_.password_ }) := by
  refine ⟨⟨rfl, rfl⟩, ?_, ?_, ?_⟩
  · exact chain_credentials setters smtp.NewEmail
  · exact NewEmail_after_chain smtp setters
  · exact NewEmail_after_chain smtp setters

/-- C20: each setter stores its value in its own field and leaves every other
field of the builder as it was; `AddRecipient` keeps the recipients already
there, in order, and appends exactly one recipient, of role `Primary` when no
role is given, so that adding the same recipient twice keeps both. -/
theorem setters_change_only_their_field (b : BuilderImpl) (value address name : String)
    (recipient_type : RecipientType) :
    b.SetSubject value = { b with subject_ := value } ∧
    b.SetBody value = { b with body_ := value } ∧
    b.SetContentType value = { b with content_type_ := value } ∧
    b.SetSender address name = { b with sender_ := { address := address, name := name } } ∧
    b.SetSender address = { b with sender_ := { address := address, name := "" } } ∧
    b.AddRecipient address name recipient_type =
      { b with recipients_ := b.recipients_ ++
          [{ address := address, name := name, recipient_type := recipient_type }] } ∧
    b.AddRecipient address name = b.AddRecipient address name RecipientType.Primary ∧
    b.AddRecipient address = b.AddRecipient address "" RecipientType.Primary ∧
    (b.AddRecipient address name recipient_type).recipients_.length =
      b.recipients_.length + 1 ∧
    (b.AddRecipient address name recipient_type).recipients_.take b.recipients_.length =
      b.recipients_ ∧
    ((b.AddRecipient address name recipient_type).AddRecipient address name
        recipient_type).recipients_ =
      b.recipients_ ++
        [{ address := address, name := name, recipient_type := recipient_type },
         { address := address, name := name, recipient_type := recipient_type }] := by
  refine ⟨rfl, rfl, rfl, rfl, rfl, rfl, rfl, rfl, ?_, ?_, ?_⟩
  · simp [BuilderImpl.AddRecipient]
  · simp [BuilderImpl.AddRecipient]
  · simp [BuilderImpl.AddRecipient]

/-- C27, the code at a sender with a display name: `WriteRecipient` writes the
address first and puts the name inside the angle brackets, `From: ` address
` <` name `>`, while `WriteRecipients` writes a named recipient as name ` <`
address `>`. -/
theorem From_header_with_display_name :
    WriteRecipient "From" "from@example.com" "Joe Smith" "" =
      "From: from@example.com <Joe Smith>\r\n" ∧
    ((Smtp.new "username" "password").NewEmail.SetSender "from@example.com" "Joe Smith").data =
      "From: from@example.com <Joe Smith>\r\nSubject: \r\n\r\n\r\n." ∧
    ("From: from@example.com <Joe Smith>\r\n" : String) ≠
      "From: " ++ "Joe Smith" ++ " <" ++ "from@example.com" ++ ">" ++ "\r\n" ∧
    WriteRecipients
      [{ address := "from@example.com", name := "Joe Smith",
         recipient_type := RecipientType.Primary }]
      "To" RecipientType.Primary.toInt "" = "To: Joe Smith <from@example.com>\r\n" := by
  decide

theorem firstFailure_append (l t : List Event) :
    firstFailure (l ++ t) = if firstFailure l = Status.ok then firstFailure t else firstFailure l := by
  induction l with
  | nil => simp [firstFailure]
  | cons e rest ih =>
    by_cases he : e.reply = Status.ok
    · simp only [List.cons_append, firstFailure, he, if_true]
      exact ih
    · simp only [List.cons_append, firstFailure, he, if_false]

theorem firstFailure_of_all_ok (l : List Event) (h : ∀ e ∈ l, e.reply = Status.ok) :
    firstFailure l = Status.ok := by
  induction l with
  | nil => rfl
  | cons e rest ih =>
    simp only [firstFailure, h e (List.mem_cons_self _ _), if_true]
    exact ih (fun x hx => h x (List.mem_cons_of_mem _ hx))

theorem firstFailure_spec (l : List Event) :
    (firstFailure l = Status.ok ↔ ∀ e ∈ l, e.reply = Status.ok) ∧
    (firstFailure l ≠ Status.ok → ∃ pre e post, l = pre ++ e :: post ∧
      (∀ x ∈ pre, x.reply = Status.ok) ∧ e.reply = firstFailure l) := by
  induction l with
  | nil => simp [firstFailure]
  | cons e rest ih =>
    by_cases he : e.reply = Status.ok
    · simp only [firstFailure, he, if_true, List.mem_cons, forall_eq_or_imp, true_and]
      refine ⟨ih.1, fun hne => ?_⟩
      obtain ⟨pre, f, post, hl, hpre, hf⟩ := ih.2 hne
      refine ⟨e :: pre, f, post, by rw [hl]; rfl, ?_, hf⟩
      intro x hx
      rcases List.mem_cons.1 hx with rfl | hx
      · exact he
      · exact hpre x hx
    · simp only [firstFailure, he, if_false, List.mem_cons, forall_eq_or_imp, false_and,
        iff_false, not_false_eq_true, ne_eq, true_implies, true_and]
      exact ⟨[], e, rest, rfl, by simp, rfl⟩

theorem ReturnsFirstFailure.of_eq {o : Outcome σ Status} (h : firstFailure o.calls = o.value) :
    ReturnsFirstFailure o := by
  unfold ReturnsFirstFailure
  rw [← h]
  exact firstFailure_spec o.calls

theorem Follows.firstFailure {script : List Event} {o : Outcome σ Status} (h : Follows script o)
    (hscript : ∀ e ∈ script, e.reply = Status.ok) : EzSmtp.firstFailure o.calls = o.value := by
  rcases h with ⟨hv, hc⟩ | ⟨pre, x, post, hs, hv, hr, hc⟩
  · rw [hc, hv]
    exact firstFailure_of_all_ok script hscript
  · have hpre : ∀ e ∈ pre, e.reply = Status.ok := fun e he =>
      hscript e (by rw [hs]; exact List.mem_append_left _ he)
    rw [hc, firstFailure_append, firstFailure_of_all_ok pre hpre, if_pos rfl]
    simp only [EzSmtp.firstFailure, hr, hv, if_false]

theorem Connect_firstFailure (A : SmtpAdapter σ) (u p : String) (s : σ) :
    firstFailure (Connect A u p s).calls = (Connect A u p s).value := by
  rcases Connect_shape A u p s with ⟨hne, hval, hcalls⟩ | ⟨_, host, o, hfol, hval, hcalls⟩
  · rw [hcalls, hval]
    simp [firstFailure, Event.reply, hne]
  · have ho := hfol.firstFailure (handshake_reply host u p)
    rw [hcalls, hval]
    have hc : firstFailure (Event.Connect Status.ok ::
        (o.calls ++ if o.value = Status.ok then [] else [Event.Disconnect])) =
        firstFailure (o.calls ++ if o.value = Status.ok then [] else [Event.Disconnect]) := by
      simp [firstFailure, Event.reply]
    rw [hc, firstFailure_append, ho]
    by_cases hv : o.value = Status.ok
    · simp [hv, firstFailure]
    · simp [hv]

theorem Quit_firstFailure (A : SmtpAdapter σ) (s : σ) :
    firstFailure (Quit A s).calls = (Quit A s).value := by
  rw [Quit_eq]
  by_cases hw : (A.WriteLine "QUIT" s).1 = Status.ok
  · by_cases hr : (A.Read 221 (A.WriteLine "QUIT" s).2).1 = Status.ok
    · simp [hw, hr, firstFailure, Event.reply]
    · simp [hw, hr, firstFailure, Event.reply]
  · simp [hw, firstFailure, Event.reply]

theorem Send_firstFailure (A : SmtpAdapter σ) (b : BuilderImpl) (s : σ) :
    firstFailure (b.Send A s).calls = (b.Send A s).value := by
  have hcf := Connect_firstFailure A b.username_ b.password_ s
  by_cases hc : (Connect A b.username_ b.password_ s).value = Status.ok
  · have hsf := (SendBatch_follows A b (Connect A b.username_ b.password_ s).state).firstFailure
      (transaction_reply b)
    by_cases hs : (b.SendBatch A (Connect A b.username_ b.password_ s).state).value = Status.ok
    · obtain ⟨hval, hcalls⟩ := Send_of_sendBatch_ok A b s hc hs
      rw [hcalls, hval, firstFailure_append, hcf, if_pos hc, firstFailure_append, hsf, if_pos hs]
      exact Quit_firstFailure A _
    · obtain ⟨hval, hcalls⟩ := Send_of_sendBatch_error A b s hc hs
      rw [hcalls, hval, firstFailure_append, hcf, if_pos hc, firstFailure_append, hsf, if_neg hs]
  · rw [Send_of_connect_error A b s hc]
    exact hcf

/-- C22: under every adapter behaviour, the status returned by each of
`Smtp::Connect`, `SendBatch`, `Send` and `Smtp::Disconnect` is OK if and only
if every adapter call it made replied OK, and is otherwise exactly the status
of its first failing call. -/
theorem operations_return_first_failure (A : SmtpAdapter σ) (smtp : Smtp) (b : BuilderImpl)
    (s : σ) :
    ReturnsFirstFailure (smtp.Connect A s) ∧ ReturnsFirstFailure (b.SendBatch A s) ∧
    ReturnsFirstFailure (b.Send A s) ∧ ReturnsFirstFailure (smtp.Disconnect A s) :=
  ⟨ReturnsFirstFailure.of_eq (Connect_firstFailure A smtp.username_ smtp.password_ s),
    ReturnsFirstFailure.of_eq ((SendBatch_follows A b s).firstFailure (transaction_reply b)),
    ReturnsFirstFailure.of_eq (Send_firstFailure A b s),
    ReturnsFirstFailure.of_eq (Quit_firstFailure A s)⟩

/-- The call number `i` of an outcome that follows a script is the call number
`i` of the script, up to its reply, and the calls before it are those of the
script. -/
theorem Follows.getElem? {script : List Event} {o : Outcome σ Status} (h : Follows script o)
    (i : Nat) (e : Event) (hi : o.calls[i]? = some e) :
    o.calls.take i = script.take i ∧
    ∃ e', script[i]? = some e' ∧ (e = e' ∨ e = e'.withReply o.value) := by
  rcases h with ⟨_, hc⟩ | ⟨pre, x, post, hs, _, _, hc⟩
  · rw [hc] at hi ⊢
    exact ⟨rfl, e, hi, Or.inl rfl⟩
  · rw [hc] at hi ⊢
    rw [hs]
    rcases Nat.lt_or_ge i pre.length with hlt | hge
    · rw [List.getElem?_append_left hlt] at hi
      refine ⟨?_, e, ?_, Or.inl rfl⟩
      · rw [List.take_append_of_le_length (Nat.le_of_lt hlt),
          List.take_append_of_le_length (Nat.le_of_lt hlt)]
      · rw [List.getElem?_append_left hlt]
        exact hi
    · rw [List.getElem?_append_right hge] at hi
      have hi0 : i - pre.length = 0 := by
        by_contra hne
        obtain ⟨k, hk⟩ := Nat.exists_eq_succ_of_ne_zero hne
        rw [hk] at hi
        simp at hi
      have hieq : i = pre.length := by omega
      subst hieq
      simp only [Nat.sub_self, List.getElem?_cons_zero, Option.some.injEq] at hi
      refine ⟨?_, x, ?_, Or.inr hi.symm⟩
      · rw [List.take_left', List.take_left'] <;> rfl
      · rw [List.getElem?_append_right (Nat.le_refl _)]
        simp

theorem Follows.dropLast_reply {script : List Event} {o : Outcome σ Status}
    (h : Follows script o) (hscript : ∀ e ∈ script, e.reply = Status.ok) :
    ∀ e ∈ o.calls.dropLast, e.reply = Status.ok := by
  intro e he
  rcases h with ⟨_, hc⟩ | ⟨pre, x, post, hs, _, _, hc⟩
  · rw [hc] at he
    exact hscript e (List.mem_of_mem_dropLast he)
  · rw [hc, List.dropLast_concat] at he
    exact hscript e (by rw [hs]; exact List.mem_append_left _ he)

theorem mem_dropLast_of_split {l p q : List Event} {e x : Event} (hl : l = p ++ e :: q)
    (hx : x ∈ p) : x ∈ l.dropLast := by
  rw [hl, List.dropLast_append_of_ne_nil _ (List.cons_ne_nil e q)]
  exact List.mem_append_left _ hx

theorem Alternates.of_nil : Alternates [] := by
  intro i e h
  simp at h

theorem Alternates.cons_cons {l : List Event} (h : Alternates l) (m : String) (r : Status)
    (n : Int) (r' : Status) : Alternates (Event.WriteLine m r :: Event.Read n r' :: l) := by
  intro i e hi
  match i, hi with
  | 0, hi =>
    simp only [List.getElem?_cons_zero, Option.some.injEq] at hi
    exact ⟨fun _ => ⟨m, r, hi.symm⟩, fun h1 => absurd h1 (by decide)⟩
  | 1, hi =>
    simp only [List.getElem?_cons_succ, List.getElem?_cons_zero, Option.some.injEq] at hi
    exact ⟨fun h0 => absurd h0 (by decide), fun _ => ⟨n, r', hi.symm⟩⟩
  | k + 2, hi =>
    simp only [List.getElem?_cons_succ] at hi
    have := h k e hi
    have hk : (k + 2) % 2 = k % 2 := by omega
    rw [hk]
    exact this

theorem transaction_alternates (b : BuilderImpl) : Alternates (transaction b) := by
  have hloop : ∀ recipients : List Recipient, Alternates
      (recipients.flatMap (fun it =>
        [Event.WriteLine ("RCPT TO: <" ++ it.address ++ ">") Status.ok,
         Event.Read 250 Status.ok]) ++
      [Event.WriteLine "DATA" Status.ok, Event.Read 354 Status.ok,
       Event.WriteLine b.data Status.ok, Event.Read 250 Status.ok]) := by
    intro recipients
    induction recipients with
    | nil => exact (Alternates.of_nil.cons_cons _ _ _ _).cons_cons _ _ _ _
    | cons it rest ih =>
      simp only [List.flatMap_cons, List.cons_append, List.nil_append]
      exact ih.cons_cons _ _ _ _
  have := (hloop b.recipients_).cons_cons ("MAIL FROM: <" ++ b.sender_.address ++ ">")
    Status.ok 250 Status.ok
  simpa [transaction] using this

theorem data_ne_mail_from (b : BuilderImpl) (address : String) :
    b.data ≠ "MAIL FROM: <" ++ address ++ ">" := by
  intro h
  obtain ⟨tail, ht⟩ := data_head b
  rw [h] at ht
  simp at ht

theorem data_ne_rcpt_to (b : BuilderImpl) (address : String) :
    b.data ≠ "RCPT TO: <" ++ address ++ ">" := by
  intro h
  obtain ⟨tail, ht⟩ := data_head b
  rw [h] at ht
  simp at ht

theorem data_ne_data_command (b : BuilderImpl) : b.data ≠ "DATA" := by
  intro h
  obtain ⟨tail, ht⟩ := data_head b
  rw [h] at ht
  simp at ht

/-- The payload is written at one place of the transaction only: right after
the `DATA` line and its `Read(354)`. -/
theorem transaction_payload_position (b : BuilderImpl) (i : Nat)
    (h : (transaction b)[i]? = some (Event.WriteLine b.data Status.ok)) :
    ∃ pre, (transaction b).take i =
      pre ++ [Event.WriteLine "DATA" Status.ok, Event.Read 354 Status.ok] := by
  have hsplit : transaction b =
      ([Event.WriteLine ("MAIL FROM: <" ++ b.sender_.address ++ ">") Status.ok,
        Event.Read 250 Status.ok] ++
      b.recipients_.flatMap (fun it =>
        [Event.WriteLine ("RCPT TO: <" ++ it.address ++ ">") Status.ok,
         Event.Read 250 Status.ok])) ++
      [Event.WriteLine "DATA" Status.ok, Event.Read 354 Status.ok,
       Event.WriteLine b.data Status.ok, Event.Read 250 Status.ok] := rfl
  generalize hA : ([Event.WriteLine ("MAIL FROM: <" ++ b.sender_.address ++ ">") Status.ok,
        Event.Read 250 Status.ok] ++
      b.recipients_.flatMap (fun it =>
        [Event.WriteLine ("RCPT TO: <" ++ it.address ++ ">") Status.ok,
         Event.Read 250 Status.ok])) = front at hsplit
  have hfront : Event.WriteLine b.data Status.ok ∉ front := by
    rw [← hA]
    intro hmem
    simp only [List.mem_append, List.mem_cons, List.mem_singleton, List.not_mem_nil,
      or_false, List.mem_flatMap] at hmem
    rcases hmem with (h1 | h1) | ⟨it, _, h1 | h1⟩
    · injection h1 with h2 _
      exact data_ne_mail_from b _ h2
    · exact Event.noConfusion h1
    · injection h1 with h2 _
      exact data_ne_rcpt_to b _ h2
    · exact Event.noConfusion h1
  rw [hsplit] at h ⊢
  rcases Nat.lt_or_ge i front.length with hlt | hge
  · rw [List.getElem?_append_left hlt] at h
    exact absurd (List.getElem?_mem h) hfront
  · rw [List.getElem?_append_right hge] at h
    obtain ⟨k, hk⟩ : ∃ k, i = front.length + k := ⟨i - front.length, by omega⟩
    subst hk
    simp only [Nat.add_sub_cancel_left] at h
    refine ⟨front, ?_⟩
    rw [List.take_append]
    match k, h with
    | 0, h =>
      simp only [List.getElem?_cons_zero, Option.some.injEq] at h
      injection h with h2 _
      exact absurd h2.symm (data_ne_data_command b)
    | 1, h =>
      simp only [List.getElem?_cons_succ, List.getElem?_cons_zero, Option.some.injEq] at h
      exact Event.noConfusion h
    | 2, _ => rfl
    | 3, h =>
      simp only [List.getElem?_cons_succ, List.getElem?_cons_zero, Option.some.injEq] at h
      exact Event.noConfusion h
    | k + 4, h => simp at h

theorem Event.withReply_writeLine {e : Event} {m : String} {r v : Status}
    (h : Event.WriteLine m r = e.withReply v) : ∃ r', e = Event.WriteLine m r' := by
  cases e <;> simp only [Event.withReply] at h <;>
    first
    | exact Event.noConfusion h
    | (injection h with h1 h2; subst h1; exact ⟨_, rfl⟩)

theorem Event.withReply_kind (e : Event) (v : Status) :
    ((∃ m r, e = Event.WriteLine m r) → ∃ m r, e.withReply v = Event.WriteLine m r) ∧
    ((∃ n r, e = Event.Read n r) → ∃ n r, e.withReply v = Event.Read n r) := by
  constructor
  · rintro ⟨m, r, rfl⟩
    exact ⟨m, v, rfl⟩
  · rintro ⟨n, r, rfl⟩
    exact ⟨n, v, rfl⟩

/-- C24: in the calls of `SendBatch`, under every adapter behaviour, the calls
of even number (from 0) are `WriteLine` calls and those of odd number are `Read`
calls, so a `Read` stands between any two writes; every call before another
call replied OK; the payload is written only right after the `DATA` line and a
`Read(354)` that replied OK; and a third call (the first `RCPT TO`, if there is
a recipient) is made only after `MAIL FROM` and its `Read(250)` replied OK. -/
theorem SendBatch_is_strictly_sequential (A : SmtpAdapter σ) (b : BuilderImpl) (s : σ) :
    Alternates (b.SendBatch A s).calls ∧
    (∀ pre e post, (b.SendBatch A s).calls = pre ++ e :: post →
      ∀ x ∈ pre, x.reply = Status.ok) ∧
    (∀ pre r post, (b.SendBatch A s).calls = pre ++ Event.WriteLine b.data r :: post →
      ∃ pre', pre = pre' ++ [Event.WriteLine "DATA" Status.ok, Event.Read 354 Status.ok]) ∧
    (∀ e, (b.SendBatch A s).calls[2]? = some e →
      (b.SendBatch A s).calls.take 2 =
        [Event.WriteLine ("MAIL FROM: <" ++ b.sender_.address ++ ">") Status.ok,
         Event.Read 250 Status.ok]) := by
  have hf := SendBatch_follows A b s
  refine ⟨?_, ?_, ?_, ?_⟩
  · intro i e hi
    obtain ⟨_, e', he', h | h⟩ := hf.getElem? i e hi
    · subst h
      exact transaction_alternates b i e he'
    · have hk := transaction_alternates b i e' he'
      rw [h]
      exact ⟨fun h0 => (Event.withReply_kind e' _).1 (hk.1 h0),
        fun h1 => (Event.withReply_kind e' _).2 (hk.2 h1)⟩
  · intro pre e post hsplit x hx
    exact hf.dropLast_reply (transaction_reply b) x (mem_dropLast_of_split hsplit hx)
  · intro pre r post hsplit
    have hi : (b.SendBatch A s).calls[pre.length]? = some (Event.WriteLine b.data r) := by
      rw [hsplit, List.getElem?_append_right (Nat.le_refl _)]
      simp
    obtain ⟨htake, e', he', h⟩ := hf.getElem? _ _ hi
    have hpre : (b.SendBatch A s).calls.take pre.length = pre := by
      rw [hsplit, List.take_left']
      rfl
    have he'' : e' = Event.WriteLine b.data Status.ok := by
      have hmem := List.getElem?_mem he'
      have hr := transaction_reply b e' hmem
      rcases h with h | h
      · subst h
        simp only [Event.reply] at hr
        rw [hr]
      · obtain ⟨r', hr'⟩ := Event.withReply_writeLine h
        subst hr'
        simp only [Event.reply] at hr
        rw [hr]
    rw [he''] at he'
    obtain ⟨pre', hpre'⟩ := transaction_payload_position b _ he'
    exact ⟨pre', by rw [← hpre, htake, hpre']⟩
  · intro e hi
    obtain ⟨htake, _⟩ := hf.getElem? 2 e hi
    rw [htake]
    rfl

theorem rfc4648Value_alphabet : ∀ v, v < 64 → rfc4648Value (rfc4648Alphabet v) = some v := by
  decide

theorem rfc4648Alphabet_ne_pad (v : Nat) : rfc4648Alphabet v ≠ '=' := by
  rcases Nat.lt_or_ge v 64 with h | h
  · revert v
    decide
  · have h1 : ¬ v < 26 := by omega
    have h2 : ¬ v < 52 := by omega
    have h3 : ¬ v < 62 := by omega
    have h4 : ¬ v = 62 := by omega
    simp only [rfc4648Alphabet, h1, h2, h3, h4, if_false]
    decide

theorem rfc4648Encode_length : ∀ (n : Nat) (bs : List Nat), bs.length ≤ n →
    (rfc4648Encode bs).length = 4 * ((bs.length + 2) / 3) := by
  intro n
  induction n using Nat.strong_induction_on with
  | _ n ih =>
    intro bs hn
    match bs, hn with
    | [], _ => rfl
    | [a], _ => simp [rfc4648Encode]
    | [a, b], _ => simp [rfc4648Encode]
    | a :: b :: c :: rest, hn =>
      simp only [List.length_cons] at hn
      have := ih rest.length (by omega) rest (Nat.le_refl _)
      simp only [rfc4648Encode, List.length_cons, this]
      omega

theorem rfc4648Encode_padding : ∀ (n : Nat) (bs : List Nat), bs.length ≤ n →
    ∃ core, rfc4648Encode bs = core ++ List.replicate ((3 - bs.length % 3) % 3) '=' ∧
      '=' ∉ core := by
  intro n
  induction n using Nat.strong_induction_on with
  | _ n ih =>
    intro bs hn
    match bs, hn with
    | [], _ => exact ⟨[], rfl, List.not_mem_nil _⟩
    | [a], _ =>
      refine ⟨[rfc4648Alphabet (a / 4), rfc4648Alphabet (a % 4 * 16)], rfl, ?_⟩
      intro h
      simp only [List.mem_cons, List.mem_singleton, List.not_mem_nil, or_false] at h
      rcases h with h | h
      · exact rfc4648Alphabet_ne_pad _ h.symm
      · exact rfc4648Alphabet_ne_pad _ h.symm
    | [a, b], _ =>
      refine ⟨[rfc4648Alphabet (a / 4), rfc4648Alphabet (a % 4 * 16 + b / 16),
        rfc4648Alphabet (b % 16 * 4)], rfl, ?_⟩
      intro h
      simp only [List.mem_cons, List.mem_singleton, List.not_mem_nil, or_false] at h
      rcases h with h | h | h
      · exact rfc4648Alphabet_ne_pad _ h.symm
      · exact rfc4648Alphabet_ne_pad _ h.symm
      · exact rfc4648Alphabet_ne_pad _ h.symm
    | a :: b :: c :: rest, hn =>
      simp only [List.length_cons] at hn
      obtain ⟨core, hcore, hpad⟩ := ih rest.length (by omega) rest (Nat.le_refl _)
      refine ⟨rfc4648Alphabet (a / 4) :: rfc4648Alphabet (a % 4 * 16 + b / 16) ::
        rfc4648Alphabet (b % 16 * 4 + c / 64) :: rfc4648Alphabet (c % 64) :: core, ?_, ?_⟩
      · have hlen : (rest.length + 1 + 1 + 1) % 3 = rest.length % 3 := by omega
        simp only [rfc4648Encode, List.length_cons, hlen, List.cons_append, hcore]
      · intro h
        simp only [List.mem_cons] at h
        rcases h with h | h | h | h | h
        · exact rfc4648Alphabet_ne_pad _ h.symm
        · exact rfc4648Alphabet_ne_pad _ h.symm
        · exact rfc4648Alphabet_ne_pad _ h.symm
        · exact rfc4648Alphabet_ne_pad _ h.symm
        · exact hpad h

theorem rfc4648Decode_encode : ∀ (n : Nat) (bs : List Nat), bs.length ≤ n →
    (∀ x ∈ bs, x < 256) → rfc4648Decode (rfc4648Encode bs) = some bs := by
  intro n
  induction n using Nat.strong_induction_on with
  | _ n ih =>
    intro bs hn hb
    match bs, hn, hb with
    | [], _, _ => rfl
    | [a], _, hb =>
      have ha : a < 256 := hb a (List.mem_singleton.2 rfl)
      simp only [rfc4648Encode, rfc4648Decode,
        rfc4648Value_alphabet (a / 4) (by omega),
        rfc4648Value_alphabet (a % 4 * 16) (by omega), if_true]
      have : a / 4 * 4 + a % 4 * 16 / 16 = a := by omega
      rw [this]
    | [a, b], _, hb =>
      have ha : a < 256 := hb a (by simp)
      have hb' : b < 256 := hb b (by simp)
      simp only [rfc4648Encode, rfc4648Decode,
        rfc4648Value_alphabet (a / 4) (by omega),
        rfc4648Value_alphabet (a % 4 * 16 + b / 16) (by omega),
        rfc4648Value_alphabet (b % 16 * 4) (by omega), if_true,
        rfc4648Alphabet_ne_pad, if_false]
      have h0 : a / 4 * 4 + (a % 4 * 16 + b / 16) / 16 = a := by omega
      have h1 : (a % 4 * 16 + b / 16) % 16 * 16 + b % 16 * 4 / 4 = b := by omega
      rw [h0, h1]
    | a :: b :: c :: rest, hn, hb =>
      simp only [List.length_cons] at hn
      have ha : a < 256 := hb a (by simp)
      have hb' : b < 256 := hb b (by simp)
      have hc : c < 256 := hb c (by simp)
      have hrest := ih rest.length (by omega) rest (Nat.le_refl _)
        (fun x hx => hb x (by simp [hx]))
      simp only [rfc4648Encode, rfc4648Decode,
        rfc4648Value_alphabet (a / 4) (by omega),
        rfc4648Value_alphabet (a % 4 * 16 + b / 16) (by omega),
        rfc4648Value_alphabet (b % 16 * 4 + c / 64) (by omega),
        rfc4648Value_alphabet (c % 64) (by omega),
        rfc4648Alphabet_ne_pad, if_false, hrest]
      have h0 : a / 4 * 4 + (a % 4 * 16 + b / 16) / 16 = a := by omega
      have h1 : (a % 4 * 16 + b / 16) % 16 * 16 + (b % 16 * 4 + c / 64) / 4 = b := by omega
      have h2 : (b % 16 * 4 + c / 64) % 4 * 64 + c % 64 = c := by omega
      rw [h0, h1, h2]

theorem bytesOf_lt (data : String) : ∀ x ∈ bytesOf data, x < 256 := by
  intro x hx
  simp only [bytesOf, List.mem_map] at hx
  obtain ⟨c, _, rfl⟩ := hx
  exact Nat.mod_lt _ (by decide)

theorem bytesOf_length (data : String) : (bytesOf data).length = data.length := by
  simp only [bytesOf, List.length_map, String.length, String.toList]

theorem chars_of_bytesOf (data : String) (h : ∀ c ∈ data.data, c.toNat < 256) :
    String.mk ((bytesOf data).map Char.ofNat) = data := by
  apply String.ext
  simp only [bytesOf, List.map_map, String.toList]
  conv_rhs => rw [← List.map_id data.data]
  apply List.map_congr_left
  intro c hc
  simp only [Function.comp, byteOf, id, Nat.mod_eq_of_lt (h c hc), Char.ofNat_toNat]

/-- C25: for every string `d`, NUL bytes and every length included, the output
of `Base64Encode` has `4 * ceil(|d| / 3)` characters, it ends with exactly
`(3 - |d| mod 3) mod 3` characters `=` (the part before them has no `=`), and
the standard base64 decoding of the output gives the bytes of `d`, which is `d`
itself when every `char` of `d` is a byte. -/
theorem Base64Encode_length_padding_roundtrip (d : String) :
    (Base64Encode d).length = 4 * ((d.length + 2) / 3) ∧
    (∃ core, (Base64Encode d).data = core ++ List.replicate ((3 - d.length % 3) % 3) '=' ∧
      '=' ∉ core) ∧
    rfc4648Decode (Base64Encode d).data = some (bytesOf d) ∧
    ((∀ c ∈ d.data, c.toNat < 256) →
      (rfc4648Decode (Base64Encode d).data).map (fun bs => String.mk (bs.map Char.ofNat)) =
        some d) := by
  have hdec : rfc4648Decode (Base64Encode d).data = some (bytesOf d) := by
    rw [Base64Encode_eq_rfc4648]
    exact rfc4648Decode_encode _ _ (Nat.le_refl _) (bytesOf_lt d)
  refine ⟨?_, ?_, hdec, ?_⟩
  · rw [Base64Encode_eq_rfc4648, String.length, rfc4648Encode_length _ _ (Nat.le_refl _),
      bytesOf_length]
  · rw [Base64Encode_eq_rfc4648, ← bytesOf_length]
    exact rfc4648Encode_padding _ _ (Nat.le_refl _)
  · intro h
    rw [hdec, Option.map_some', chars_of_bytesOf d h]

theorem atoi_digits_lt : ∀ (l : List Char) (acc : Nat),
    atoi.digits l acc < (acc + 1) * 10 ^ l.length := by
  intro l
  induction l with
  | nil =>
    intro acc
    simp [atoi.digits]
  | cons c rest ih =>
    intro acc
    simp only [atoi.digits, List.length_cons, pow_succ]
    split
    · rename_i h
      have h1 := ih (acc * 10 + (c.toNat - 48))
      have h2 : acc * 10 + (c.toNat - 48) + 1 ≤ (acc + 1) * 10 := by omega
      calc atoi.digits rest (acc * 10 + (c.toNat - 48))
          < (acc * 10 + (c.toNat - 48) + 1) * 10 ^ rest.length := h1
        _ ≤ (acc + 1) * 10 * 10 ^ rest.length := Nat.mul_le_mul_right _ h2
        _ = (acc + 1) * (10 ^ rest.length * 10) := by ring
    · have hp : 0 < 10 ^ rest.length := by positivity
      nlinarith

theorem atoi_digits_three (a b c : Char) (h : 100 ≤ atoi.digits [a, b, c] 0) :
    (48 ≤ a.toNat ∧ a.toNat ≤ 57) ∧ (48 ≤ b.toNat ∧ b.toNat ≤ 57) ∧
    (48 ≤ c.toNat ∧ c.toNat ≤ 57) ∧
    atoi.digits [a, b, c] 0 = (a.toNat - 48) * 100 + (b.toNat - 48) * 10 + (c.toNat - 48) := by
  simp only [atoi.digits] at h ⊢
  split_ifs at h ⊢ <;> omega

theorem digitChar_of_digit (c : Char) (h0 : 48 ≤ c.toNat) (h1 : c.toNat ≤ 57) :
    Nat.digitChar (c.toNat - 48) = c := by
  have hc : c = Char.ofNat c.toNat := (Char.ofNat_toNat c).symm
  generalize c.toNat = n at hc h0 h1
  subst hc
  interval_cases n <;> decide

theorem digitChar_toNat : ∀ k, k < 10 → (Nat.digitChar k).toNat = 48 + k := by
  decide

/-- With at most three `char`s, `atoi` gives a value of 100 or more only for
three decimal digits. -/
theorem atoi_ge_100 (l : List Char) (hl : l.length ≤ 3) (h : 100 ≤ atoi l) :
    ∃ a b c, l = [a, b, c] ∧ (48 ≤ a.toNat ∧ a.toNat ≤ 57) ∧ (48 ≤ b.toNat ∧ b.toNat ≤ 57) ∧
      (48 ≤ c.toNat ∧ c.toNat ≤ 57) ∧
      atoi l = (((a.toNat - 48) * 100 + (b.toNat - 48) * 10 + (c.toNat - 48) : Nat) : Int) := by
  have ht : (l.takeWhile (fun c => decide (c.toNat ≠ 0))) <+: l := List.takeWhile_prefix _
  have hs : (l.takeWhile (fun c => decide (c.toNat ≠ 0))).dropWhile isspace <:+
      l.takeWhile (fun c => decide (c.toNat ≠ 0)) := List.dropWhile_suffix _
  have key : ∀ s : List Char, s.length ≤ 3 →
      (100 : Int) ≤ (match s with
        | [] => 0
        | c :: rest =>
          if c.toNat = 45 then -(atoi.digits rest 0 : Int)
          else if c.toNat = 43 then (atoi.digits rest 0 : Int)
          else (atoi.digits (c :: rest) 0 : Int)) →
      ∃ a b c, s = [a, b, c] ∧ (100 : Int) ≤ atoi.digits [a, b, c] 0 ∧
        (match s with
        | [] => 0
        | c :: rest =>
          if c.toNat = 45 then -(atoi.digits rest 0 : Int)
          else if c.toNat = 43 then (atoi.digits rest 0 : Int)
          else (atoi.digits (c :: rest) 0 : Int)) = (atoi.digits [a, b, c] 0 : Int) := by
    intro s hlen hv
    match s, hlen, hv with
    | [], _, hv => exact absurd hv (by decide)
    | c :: rest, hlen, hv =>
      simp only [List.length_cons] at hlen
      have hrest := atoi_digits_lt rest 0
      have hpow : 10 ^ rest.length ≤ 10 ^ 2 := Nat.pow_le_pow_right (by decide) (by omega)
      simp only at hv ⊢
      split_ifs at hv ⊢ with h45 h43
      · omega
      · omega
      · have hall := atoi_digits_lt (c :: rest) 0
        match rest, hlen, hall with
        | [], _, hall => simp at hall; omega
        | [b], _, hall => simp at hall; omega
        | [b, d], _, _ => exact ⟨c, b, d, rfl, hv, rfl⟩
        | _ :: _ :: _ :: _, hlen, _ => simp at hlen
  have hslen : ((l.takeWhile (fun c => decide (c.toNat ≠ 0))).dropWhile isspace).length ≤ 3 :=
    Nat.le_trans hs.length_le (Nat.le_trans ht.length_le hl)
  unfold atoi at h ⊢
  obtain ⟨a, b, c, hs3, h100, hval⟩ := key _ hslen h
  have hseq : (l.takeWhile (fun c => decide (c.toNat ≠ 0))).dropWhile isspace = l := by
    have h3 : ((l.takeWhile (fun c => decide (c.toNat ≠ 0))).dropWhile isspace).length = 3 := by
      rw [hs3]
      rfl
    have e1 := hs.eq_of_length (by have := hs.length_le; have := ht.length_le; omega)
    have e2 := ht.eq_of_length (by have := hs.length_le; have := ht.length_le; omega)
    rw [e1, e2]
  have hl3 : l = [a, b, c] := by rw [← hseq, hs3]
  obtain ⟨ha, hb, hc, hd⟩ := atoi_digits_three a b c (by exact_mod_cast h100)
  refine ⟨a, b, c, hl3, ha, hb, hc, ?_⟩
  rw [hval, hd]

theorem atoi_of_digits (a b c : Char) (ha : 48 ≤ a.toNat ∧ a.toNat ≤ 57)
    (hb : 48 ≤ b.toNat ∧ b.toNat ≤ 57) (hc : 48 ≤ c.toNat ∧ c.toNat ≤ 57) :
    atoi [a, b, c] =
      (((a.toNat - 48) * 100 + (b.toNat - 48) * 10 + (c.toNat - 48) : Nat) : Int) := by
  have ha0 : decide (a.toNat ≠ 0) = true := decide_eq_true (by omega)
  have hb0 : decide (b.toNat ≠ 0) = true := decide_eq_true (by omega)
  have hc0 : decide (c.toNat ≠ 0) = true := decide_eq_true (by omega)
  have hsp : isspace a = false := decide_eq_false (by omega)
  have h45 : ¬ a.toNat = 45 := by omega
  have h43 : ¬ a.toNat = 43 := by omega
  simp only [atoi, List.takeWhile, ha0, hb0, hc0, List.dropWhile, hsp, h45, h43, if_false,
    atoi.digits, ha, hb, hc, and_self, if_true]
  congr 1
  omega

theorem threeDigits_of_digits (a b c : Char) (ha : 48 ≤ a.toNat ∧ a.toNat ≤ 57)
    (hb : 48 ≤ b.toNat ∧ b.toNat ≤ 57) (hc : 48 ≤ c.toNat ∧ c.toNat ≤ 57) :
    threeDigits (((a.toNat - 48) * 100 + (b.toNat - 48) * 10 + (c.toNat - 48) : Nat) : Int) =
      [a, b, c] := by
  have h0 : ((a.toNat - 48) * 100 + (b.toNat - 48) * 10 + (c.toNat - 48)) / 100 =
      a.toNat - 48 := by omega
  have h1 : ((a.toNat - 48) * 100 + (b.toNat - 48) * 10 + (c.toNat - 48)) / 10 % 10 =
      b.toNat - 48 := by omega
  have h2 : ((a.toNat - 48) * 100 + (b.toNat - 48) * 10 + (c.toNat - 48)) % 10 =
      c.toNat - 48 := by omega
  simp only [threeDigits, Int.toNat_ofNat, h0, h1, h2, digitChar_of_digit a ha.1 ha.2,
    digitChar_of_digit b hb.1 hb.2, digitChar_of_digit c hc.1 hc.2]

theorem atoi_threeDigits (code : Int) (h1 : 100 ≤ code) (h2 : code ≤ 999) :
    atoi (threeDigits code) = code := by
  obtain ⟨n, rfl⟩ := Int.eq_ofNat_of_zero_le (by omega : (0 : Int) ≤ code)
  have hn1 : 100 ≤ n := by exact_mod_cast h1
  have hn2 : n ≤ 999 := by exact_mod_cast h2
  have d0 := digitChar_toNat (n / 100) (by omega)
  have d1 := digitChar_toNat (n / 10 % 10) (by omega)
  have d2 := digitChar_toNat (n % 10) (by omega)
  simp only [threeDigits, Int.toNat_ofNat]
  rw [atoi_of_digits _ _ _ (by omega) (by omega) (by omega), d0, d1, d2]
  congr 1
  omega

theorem closed_ne_mismatch (expected parsed : String) :
    "The server closed the connection" ≠
      "Expected status " ++ expected ++ ", received " ++ parsed := by
  intro h
  have := congrArg String.data h
  simp at this

theorem string_length_eq_zero (s : String) : s.length = 0 ↔ s = "" := by
  constructor
  · intro h
    apply String.ext
    exact List.length_eq_zero.1 h
  · rintro rfl
    rfl

/-- C23: for every expected code between 100 and 999 and all received bytes,
`SmtpAdapterImpl::Read` returns OK if and only if something was received and
its first three `char`s are the three decimal digits of the expected code;
with zero bytes it fails with "The server closed the connection", every other
failure is "Expected status <expected>, received <parsed>", and the two
messages are never the same. -/
theorem Read_ok_iff_three_digits (received : String) (expected_return : Int)
    (hlow : 100 ≤ expected_return) (hhigh : expected_return ≤ 999) :
    (SmtpAdapterImpl.Read received expected_return = Status.ok ↔
      received ≠ "" ∧ received.data.take 3 = threeDigits expected_return) ∧
    SmtpAdapterImpl.Read "" expected_return =
      Status.error 13 "The server closed the connection" ∧
    (received ≠ "" → SmtpAdapterImpl.Read received expected_return ≠ Status.ok →
      SmtpAdapterImpl.Read received expected_return =
        Status.error 13 ("Expected status " ++ toString expected_return ++ ", received " ++
          toString (atoi (received.data.take 3)))) ∧
    (∀ parsed : Int, "The server closed the connection" ≠
      "Expected status " ++ toString expected_return ++ ", received " ++ toString parsed) := by
  refine ⟨?_, rfl, ?_, fun parsed => closed_ne_mismatch _ _⟩
  · constructor
    · intro h
      unfold SmtpAdapterImpl.Read at h
      split at h
      · exact Status.noConfusion h
      · rename_i hlen
        simp only at h
        split at h
        · exact Status.noConfusion h
        · rename_i hval
          have hval' : atoi (received.data.take 3) = expected_return := not_not.1 hval
          refine ⟨fun he => hlen ((string_length_eq_zero _).2 he), ?_⟩
          obtain ⟨a, b, c, hl, ha, hb, hc, hv⟩ := atoi_ge_100 (received.data.take 3)
            (List.length_take_le _ _) (by rw [hval']; exact hlow)
          rw [← hval', hv, hl, threeDigits_of_digits a b c ha hb hc]
    · rintro ⟨hne, htake⟩
      have hlen : ¬ received.length = 0 := fun h => hne ((string_length_eq_zero _).1 h)
      simp only [SmtpAdapterImpl.Read, hlen, if_false, htake,
        atoi_threeDigits expected_return hlow hhigh, ne_eq, not_true_eq_false]
  · intro hne hnot
    have hlen : ¬ received.length = 0 := fun h => hne ((string_length_eq_zero _).1 h)
    unfold SmtpAdapterImpl.Read at hnot ⊢
    simp only [hlen, if_false] at hnot ⊢
    split at hnot
    · rename_i hval
      exact if_pos hval
    · exact absurd rfl hnot

theorem Read_ok_iff_three_digits_witness :
    (100 : Int) ≤ 250 ∧ (250 : Int) ≤ 999 ∧
    (SmtpAdapterImpl.Read "250 OK\r\n" 250 = Status.ok ↔
      ("250 OK\r\n" : String) ≠ "" ∧ ("250 OK\r\n" : String).data.take 3 = threeDigits 250) :=
  ⟨by decide, by decide, (Read_ok_iff_three_digits "250 OK\r\n" 250 (by decide) (by decide)).1⟩

theorem dotLine_append : ∀ (a b : List Char) (s : Bool),
    dotLine s (a ++ b) = (dotLine s a || dotLine (atLineStart s a) b)
  | [], b, s => by simp [dotLine, atLineStart]
  | c :: rest, b, s => by
    show dotLine s (c :: (rest ++ b)) = _
    simp only [dotLine, atLineStart, dotLine_append rest b, Bool.or_assoc]

theorem atLineStart_append : ∀ (a b : List Char) (s : Bool),
    atLineStart s (a ++ b) = atLineStart (atLineStart s a) b
  | [], b, s => by simp [atLineStart]
  | c :: rest, b, s => by
    show atLineStart s (c :: (rest ++ b)) = _
    simp only [atLineStart, atLineStart_append rest b]

theorem Clean.append {s t u : Bool} {a b : List Char} (ha : Clean s a t) (hb : Clean t b u) :
    Clean s (a ++ b) u := by
  constructor
  · rw [dotLine_append, ha.1, ha.2, hb.1]
    rfl
  · rw [atLineStart_append, ha.2, hb.2]

theorem Clean.of_empty (s : Bool) : Clean s [] s := ⟨rfl, rfl⟩

theorem Clean.of_noLineFeed : ∀ (l : List Char), l.all (fun c => c != '\n') = true →
    Clean false l false
  | [], _ => ⟨rfl, rfl⟩
  | c :: rest, h => by
    simp only [List.all_cons, Bool.and_eq_true, bne_iff_ne, ne_eq] at h
    have hc : (c == '\n') = false := beq_eq_false_iff_ne.2 h.1
    have ih := Clean.of_noLineFeed rest (by simpa using h.2)
    constructor
    · simp only [dotLine, Bool.false_and, Bool.false_or, hc]
      exact ih.1
    · simp only [atLineStart, hc]
      exact ih.2

theorem Clean.field {s : String} (h : noLineFeed s = true) : Clean false s.data false :=
  Clean.of_noLineFeed s.data h

theorem occurrences_endOfData : ∀ (l : List Char) (s : Bool), dotLine s l = false →
    occurrences endOfData (l ++ endOfData) = 1
  | [], _, _ => by decide
  | c :: rest, s, h => by
    simp only [dotLine, Bool.or_eq_false_iff] at h
    have ih := occurrences_endOfData rest _ h.2
    have hno : ¬ (c :: (rest ++ endOfData)).take endOfData.length = endOfData := by
      intro hp
      match rest, h.2, hp with
      | [], _, hp =>
        simp only [endOfData, List.nil_append, List.length_cons, List.length_nil, List.take,
          List.cons.injEq] at hp
        exact absurd hp.2.1 (by decide)
      | [x], _, hp =>
        simp only [endOfData, List.cons_append, List.nil_append, List.length_cons,
          List.length_nil, List.take, List.cons.injEq] at hp
        exact absurd hp.2.2.1 (by decide)
      | x :: y :: rest', hd, hp =>
        simp only [endOfData, List.cons_append, List.length_cons, List.length_nil, List.take,
          List.cons.injEq] at hp
        obtain ⟨hc, hx, hy, _⟩ := hp
        subst hc hx hy
        simp [dotLine] at hd
    show occurrences endOfData (c :: (rest ++ endOfData)) = 1
    simp only [occurrences, if_neg hno, ih]

theorem Clean.mailbox (it : Recipient) (ha : noLineFeed it.address = true)
    (hn : noLineFeed it.name = true) : Clean false (mailbox it).data false := by
  unfold EzSmtp.mailbox
  split
  · simp only [String.data_append]
    have h1 : Clean false (" <" : String).data false := ⟨by decide, by decide⟩
    have h2 : Clean false (">" : String).data false := ⟨by decide, by decide⟩
    exact (((Clean.field hn).append h1).append (Clean.field ha)).append h2
  · exact Clean.field ha

theorem WriteRecipients_loop_clean (field : String) (ty : RecipientType)
    (hfield : Clean true field.data false) :
    ∀ (recipients : List Recipient) (started : Bool),
      (∀ it ∈ recipients, noLineFeed it.address = true ∧ noLineFeed it.name = true) →
      Clean true (WriteRecipients.loop field ty.toInt recipients started "").data true
  | [], _, _ => by
    simp only [WriteRecipients.loop]
    exact Clean.of_empty true
  | it :: rest, started, h => by
    have ih := fun st => WriteRecipients_loop_clean field ty hfield rest st
      (fun x hx => h x (List.mem_cons_of_mem _ hx))
    by_cases hty : it.recipient_type = ty
    · rw [WriteRecipients_loop_cons_eq _ _ _ _ _ _ hty, WriteRecipients_loop_append]
      simp only [String.data_append]
      have hsep : Clean true (if started then ", " else field ++ ": ").data false := by
        have h1 : Clean false (": " : String).data false := ⟨by decide, by decide⟩
        have h2 : Clean true (", " : String).data false := ⟨by decide, by decide⟩
        cases started
        · simp only [Bool.false_eq_true, if_false, String.data_append]
          exact hfield.append h1
        · simp only [if_true]
          exact h2
      have hit := h it (List.mem_cons_self _ _)
      have hcrlf : Clean false ("\r\n" : String).data true := ⟨by decide, by decide⟩
      exact ((Clean.of_empty true).append (hsep.append ((Clean.mailbox it hit.1 hit.2).append
        hcrlf))).append (ih true)
    · rw [WriteRecipients_loop_cons_ne _ _ _ _ _ _ hty]
      exact ih started

theorem WriteRecipient_clean (field address name : String)
    (hfield : Clean true field.data false) (ha : noLineFeed address = true)
    (hn : noLineFeed name = true) :
    Clean true (WriteRecipient field address name "").data true := by
  rw [WriteRecipient_eq]
  simp only [String.data_append]
  have hname : Clean false (if name.length > 0 then " <" ++ (name ++ ">") else "").data
      false := by
    split
    · simp only [String.data_append]
      have h1 : Clean false (" <" : String).data false := ⟨by decide, by decide⟩
      have h2 : Clean false (">" : String).data false := ⟨by decide, by decide⟩
      exact h1.append ((Clean.field hn).append h2)
    · exact Clean.of_empty false
  have hcolon : Clean false (": " : String).data false := ⟨by decide, by decide⟩
  have hcrlf : Clean false ("\r\n" : String).data true := ⟨by decide, by decide⟩
  exact (Clean.of_empty true).append (hfield.append (hcolon.append ((Clean.field ha).append
    (hname.append hcrlf))))

/-- The part of the payload before the body has no line that begins with a
dot, and it ends at the beginning of a line, when no header field has a line
feed. -/
theorem data_head_clean (b : BuilderImpl) (hfields : b.headerFields.all noLineFeed = true) :
    ∃ head : String, b.data = head ++ (b.body_ ++ "\r\n.") ∧ Clean true head.data true := by
  have hall : ∀ s ∈ b.headerFields, noLineFeed s = true := List.all_eq_true.1 hfields
  have haddr : noLineFeed b.sender_.address = true :=
    hall _ (by simp [BuilderImpl.headerFields])
  have hname : noLineFeed b.sender_.name = true :=
    hall _ (by simp [BuilderImpl.headerFields])
  have hct : noLineFeed b.content_type_ = true :=
    hall _ (by simp [BuilderImpl.headerFields])
  have hsubj : noLineFeed b.subject_ = true :=
    hall _ (by simp [BuilderImpl.headerFields])
  have hrec : ∀ it ∈ b.recipients_, noLineFeed it.address = true ∧ noLineFeed it.name = true := by
    intro it hit
    constructor
    · exact hall _ (List.mem_append_right _ (List.mem_flatMap.2 ⟨it, hit, by simp⟩))
    · exact hall _ (List.mem_append_right _ (List.mem_flatMap.2 ⟨it, hit, by simp⟩))
  refine ⟨WriteRecipient "From" b.sender_.address b.sender_.name "" ++
      (WriteRecipients b.recipients_ "To" RecipientType.Primary.toInt "" ++
      (WriteRecipients b.recipients_ "Cc" RecipientType.CarbonCopy.toInt "" ++
      (WriteRecipients b.recipients_ "Bcc" RecipientType.Blind.toInt "" ++
      ((if b.content_type_ ≠ "" then
          "MIME-Version: 1.0\r\n" ++ ("Content-Type: " ++ (b.content_type_ ++ "\r\n"))
        else "") ++
      ("Subject: " ++ (b.subject_ ++ "\r\n\r\n")))))), ?_, ?_⟩
  · rw [data_eq]
    simp only [String.append_assoc]
  · simp only [String.data_append]
    have hfrom := WriteRecipient_clean "From" b.sender_.address b.sender_.name
      ⟨by decide, by decide⟩ haddr hname
    have hto := WriteRecipients_loop_clean "To" RecipientType.Primary
      ⟨by decide, by decide⟩ b.recipients_ false hrec
    have hcc := WriteRecipients_loop_clean "Cc" RecipientType.CarbonCopy
      ⟨by decide, by decide⟩ b.recipients_ false hrec
    have hbcc := WriteRecipients_loop_clean "Bcc" RecipientType.Blind
      ⟨by decide, by decide⟩ b.recipients_ false hrec
    have hmime : Clean true (if b.content_type_ ≠ "" then
          "MIME-Version: 1.0\r\n" ++ ("Content-Type: " ++ (b.content_type_ ++ "\r\n"))
        else "").data true := by
      have h1 : Clean true ("MIME-Version: 1.0\r\n" : String).data true :=
        ⟨by decide, by decide⟩
      have h2 : Clean true ("Content-Type: " : String).data false := ⟨by decide, by decide⟩
      have h3 : Clean false ("\r\n" : String).data true := ⟨by decide, by decide⟩
      split
      · simp only [String.data_append]
        exact h1.append (h2.append ((Clean.field hct).append h3))
      · exact Clean.of_empty true
    have h4 : Clean true ("Subject: " : String).data false := ⟨by decide, by decide⟩
    have h5 : Clean false ("\r\n\r\n" : String).data true := ⟨by decide, by decide⟩
    exact hfrom.append (hto.append (hcc.append (hbcc.append (hmime.append
      (h4.append ((Clean.field hsubj).append h5))))))

theorem data_ends_with_dot (b : BuilderImpl) : ∃ head : String, b.data = head ++ "\r\n." := by
  rw [data_eq]
  simp only [← String.append_assoc]
  exact ⟨_, rfl⟩

/-- C26, as the code has it: for every builder state the bytes put on the
socket for the message end with CRLF, a dot, CRLF; when no header field
(sender, recipients, content type, subject) has a line feed and no line of the
body begins with a dot, that sequence occurs exactly once in them. -/
theorem end_of_data_once_without_dot_lines (b : BuilderImpl) :
    (∃ pre, (SmtpAdapterImpl.WriteLine.line b.data).data = pre ++ endOfData) ∧
    (b.headerFields.all noLineFeed = true → dotLine true b.body_.data = false →
      occurrences endOfData (SmtpAdapterImpl.WriteLine.line b.data).data = 1) := by
  constructor
  · obtain ⟨head, hhead⟩ := data_ends_with_dot b
    refine ⟨head.data, ?_⟩
    rw [SmtpAdapterImpl.WriteLine.line, hhead]
    simp only [String.data_append, List.append_assoc]
    rfl
  · intro hfields hbody
    obtain ⟨head, hdata, hclean⟩ := data_head_clean b hfields
    have hbytes : (SmtpAdapterImpl.WriteLine.line b.data).data =
        (head.data ++ b.body_.data) ++ endOfData := by
      rw [SmtpAdapterImpl.WriteLine.line, hdata]
      simp only [String.data_append, List.append_assoc]
      rfl
    rw [hbytes]
    apply occurrences_endOfData _ true
    rw [dotLine_append, hclean.1, hclean.2, hbody]
    rfl

theorem end_of_data_once_without_dot_lines_witness :
    sampleBuilder.headerFields.all noLineFeed = true ∧
    dotLine true sampleBuilder.body_.data = false ∧
    (∃ pre, (SmtpAdapterImpl.WriteLine.line sampleBuilder.data).data = pre ++ endOfData) ∧
    occurrences endOfData (SmtpAdapterImpl.WriteLine.line sampleBuilder.data).data = 1 :=
  ⟨by decide, by decide, (end_of_data_once_without_dot_lines sampleBuilder).1,
    (end_of_data_once_without_dot_lines sampleBuilder).2 (by decide) (by decide)⟩

/-- C26 as worded fails: with the body `line one`, CRLF, `.`, CRLF, `line two`
the bytes put on the socket hold the end-of-data sequence twice, and the first
one stands before `line two`. -/
theorem end_of_data_inside_body_counterexample :
    occurrences endOfData (SmtpAdapterImpl.WriteLine.line
      ((Smtp.new "username" "password").NewEmail.SetBody
        "line one\r\n.\r\nline two").data).data = 2 ∧
    (SmtpAdapterImpl.WriteLine.line
      ((Smtp.new "username" "password").NewEmail.SetBody
        "line one\r\n.\r\nline two").data).data =
      ("From: \r\nSubject: \r\n\r\nline one" : String).data ++ endOfData ++
        ("line two\r\n.\r\n" : String).data := by
  decide

theorem credential_line_eq (u p : String) :
    Base64Encode (authBlob u p) =
      String.mk (rfc4648Encode (0 :: (bytesOf u ++ 0 :: bytesOf p))) := by
  rw [Base64Encode_eq_rfc4648, bytesOf_authBlob]

/-- C10: in the calls of `Smtp::Connect`, under every adapter behaviour, the
call that follows a `Read(334)` that replied OK writes one line, the standard
padded base64 encoding (RFC 4648) of the bytes NUL, username, NUL, password,
`|u| + |p| + 2` bytes in all, and no other line is written after it; whenever
`Connect` returns OK the `Read(334)` replied OK and that line was written right
after it. With a server that accepts every step and the credentials `username`
and `password`, call number 9 (from 0) is the `Read(334)` and call number 10
writes `AHVzZXJuYW1lAHBhc3N3b3Jk`. -/
theorem credential_line_is_standard_base64 (A : SmtpAdapter σ) (smtp : Smtp) (s : σ) :
    (∀ pre post, (smtp.Connect A s).calls = pre ++ Event.Read 334 Status.ok :: post →
      ∃ r post', post =
          Event.WriteLine (String.mk (rfc4648Encode
            (0 :: (bytesOf smtp.username_ ++ 0 :: bytesOf smtp.password_)))) r :: post' ∧
        ∀ m r', Event.WriteLine m r' ∉ post') ∧
    ((smtp.Connect A s).value = Status.ok →
      ∃ pre post, (smtp.Connect A s).calls = pre ++ Event.Read 334 Status.ok ::
        Event.WriteLine (String.mk (rfc4648Encode
          (0 :: (bytesOf smtp.username_ ++ 0 :: bytesOf smtp.password_)))) Status.ok :: post) ∧
    Base64Encode (authBlob smtp.username_ smtp.password_) =
      String.mk (rfc4648Encode (0 :: (bytesOf smtp.username_ ++ 0 :: bytesOf smtp.password_))) ∧
    (0 :: (bytesOf smtp.username_ ++ 0 :: bytesOf smtp.password_)).length =
      smtp.username_.length + smtp.password_.length + 2 ∧
    Base64Encode (authBlob "username" "password") = "AHVzZXJuYW1lAHBhc3N3b3Jk" ∧
    ((Smtp.new "username" "password").Connect (okAdapter "TestHost") ()).calls[9]? =
      some (Event.Read 334 Status.ok) ∧
    ((Smtp.new "username" "password").Connect (okAdapter "TestHost") ()).calls[10]? =
      some (Event.WriteLine "AHVzZXJuYW1lAHBhc3N3b3Jk" Status.ok) := by
  refine ⟨?_, ?_, credential_line_eq _ _, ?_, by decide, by decide, by decide⟩
  · intro pre post hsplit
    rw [← credential_line_eq]
    have hsp : Splits (fun _ e post => e = Event.Read 334 Status.ok →
        ∃ r post', post =
          Event.WriteLine (Base64Encode (authBlob smtp.username_ smtp.password_)) r :: post' ∧
        ∀ m r', Event.WriteLine m r' ∉ post') [] (smtp.Connect A s).calls := by
      unfold Smtp.Connect
      obtain ⟨host, v, ⟨hv, hc⟩ | ⟨k, hk, hv, hr, hc⟩ | hc⟩ :=
        Connect_calls_cases A smtp.username_ smtp.password_ s
      · rw [hc]
        simp [Splits]
      · rw [hc]
        interval_cases k <;> simp [handshake, Splits, Event.withReply, hv] <;>
          exact ⟨_, _, ⟨rfl, rfl⟩, by simp⟩
      · rw [hc]
        simp [handshake, Splits]
        exact ⟨_, _, ⟨rfl, rfl⟩, by simp⟩
    exact Splits.spec _ [] hsp pre _ post hsplit rfl
  · intro hv
    obtain ⟨_, host, hc⟩ := Connect_ok_calls A smtp.username_ smtp.password_ s hv
    refine ⟨[Event.Connect Status.ok, Event.Read 220 Status.ok,
      Event.WriteLine "STARTTLS" Status.ok, Event.Read 220 Status.ok,
      Event.EnableTls Status.ok, Event.Hostname host,
      Event.WriteLine ("HELO " ++ host) Status.ok, Event.Read 250 Status.ok,
      Event.WriteLine "AUTH PLAIN" Status.ok], [Event.Read 235 Status.ok], ?_⟩
    rw [← credential_line_eq]
    exact hc
  · have hlen : ∀ t : String, (bytesOf t).length = t.length := by
      intro t
      unfold bytesOf
      rw [List.length_map]
      rfl
    simp only [List.length_cons, List.length_append, hlen]
    omega

theorem credential_line_is_standard_base64_witness :
    ((Smtp.new "username" "password").Connect (okAdapter "TestHost") ()).value = Status.ok ∧
    ∃ pre post, ((Smtp.new "username" "password").Connect (okAdapter "TestHost") ()).calls =
      pre ++ Event.Read 334 Status.ok ::
        Event.WriteLine (String.mk (rfc4648Encode
          (0 :: (bytesOf (Smtp.new "username" "password").username_ ++
            0 :: bytesOf (Smtp.new "username" "password").password_)))) Status.ok :: post :=
  ⟨by decide,
    (credential_line_is_standard_base64 (okAdapter "TestHost")
      (Smtp.new "username" "password") ()).2.1 (by decide)⟩

theorem splitLines_line : ∀ (t rest : List Char), '\n' ∉ t →
    splitLines (t ++ '\n' :: rest) = (t ++ ['\n']) :: splitLines rest
  | [], rest, _ => by simp [splitLines]
  | c :: t, rest, h => by
    have hc : c ≠ '\n' := fun hc => h (hc ▸ List.mem_cons_self _ _)
    have ht : '\n' ∉ t := fun ht => h (List.mem_cons_of_mem _ ht)
    show splitLines (c :: (t ++ '\n' :: rest)) = _
    rw [splitLines, if_neg hc, splitLines_line t rest ht]
    rfl

theorem splitLines_lines : ∀ (ls : List (List Char)) (rest : List Char),
    (∀ l ∈ ls, IsLine l) → splitLines (ls.flatten ++ rest) = ls ++ splitLines rest
  | [], rest, _ => by simp
  | l :: ls, rest, h => by
    obtain ⟨t, hl, ht⟩ := h l (List.mem_cons_self _ _)
    have ih := splitLines_lines ls rest (fun x hx => h x (List.mem_cons_of_mem _ hx))
    subst hl
    simp only [List.flatten_cons, List.append_assoc, List.singleton_append, List.cons_append]
    rw [splitLines_line t _ ht, List.nil_append, ih]

theorem takeWhile_append_stop {α : Type} (p : α → Bool) : ∀ (a : List α) (x : α) (rest : List α),
    (∀ y ∈ a, p y = true) → p x = false → (a ++ x :: rest).takeWhile p = a
  | [], x, rest, _, hx => by simp [List.takeWhile, hx]
  | y :: a, x, rest, h, hx => by
    have hy := h y (List.mem_cons_self _ _)
    have ih := takeWhile_append_stop p a x rest (fun z hz => h z (List.mem_cons_of_mem _ hz)) hx
    show (y :: (a ++ x :: rest)).takeWhile p = _
    simp only [List.takeWhile, hy, ih]

theorem startsWith_append (p : String) (rest : List Char) :
    startsWith p (p.data ++ rest) = true := by
  simp only [startsWith, decide_eq_true_eq]
  exact List.take_left' rfl

theorem startsWith_string_append (p rest : String) :
    startsWith p (p ++ rest).data = true := by
  rw [String.data_append]
  exact startsWith_append p rest.data

theorem startsWith_tag {p : String} {l : List Char} (hp : 2 ≤ p.length)
    (h : startsWith p l = true) : l.take 2 = p.data.take 2 := by
  simp only [startsWith, decide_eq_true_eq] at h
  rw [← h, List.take_take, Nat.min_eq_left hp]

theorem noLineFeed_not_mem {s : String} (h : noLineFeed s = true) : '\n' ∉ s.data := by
  intro hmem
  have := List.all_eq_true.1 h _ hmem
  simp at this

theorem not_mem_append {a b : List Char} (ha : '\n' ∉ a) (hb : '\n' ∉ b) : '\n' ∉ a ++ b := by
  intro h
  rcases List.mem_append.1 h with h | h
  · exact ha h
  · exact hb h

/-- A string that ends with CRLF and has no other line feed is one line. -/
theorem isLine_crlf (s : String) (h : '\n' ∉ s.data) : IsLine (s ++ "\r\n").data := by
  refine ⟨s.data ++ ['\r'], ?_, not_mem_append h (by decide)⟩
  rw [String.data_append, List.append_assoc]
  rfl

theorem mailbox_noLineFeed (it : Recipient) (ha : noLineFeed it.address = true)
    (hn : noLineFeed it.name = true) : '\n' ∉ (mailbox it).data := by
  unfold EzSmtp.mailbox
  split
  · simp only [String.data_append]
    exact not_mem_append (not_mem_append (not_mem_append (noLineFeed_not_mem hn) (by decide))
      (noLineFeed_not_mem ha)) (by decide)
  · exact noLineFeed_not_mem ha

theorem recipientLines_isLine (field : String) (ty : RecipientType)
    (hfield : '\n' ∉ field.data) :
    ∀ (recipients : List Recipient) (started : Bool),
      (∀ it ∈ recipients, noLineFeed it.address = true ∧ noLineFeed it.name = true) →
      ∀ l ∈ recipientLines field ty recipients started, IsLine l.data
  | [], _, _ => by
    intro l hl
    simp [recipientLines] at hl
  | it :: rest, started, h => by
    have ih := fun st => recipientLines_isLine field ty hfield rest st
      (fun x hx => h x (List.mem_cons_of_mem _ hx))
    intro l hl
    rw [recipientLines] at hl
    split at hl
    · exact ih started l hl
    · rcases List.mem_cons.1 hl with hl | hl
      · have hit := h it (List.mem_cons_self _ _)
        subst hl
        rw [← String.append_assoc]
        apply isLine_crlf
        rw [String.data_append]
        refine not_mem_append ?_ (mailbox_noLineFeed it hit.1 hit.2)
        cases started
        · simp only [Bool.false_eq_true, if_false, String.data_append]
          exact not_mem_append hfield (by decide)
        · simp only [if_true]
          decide
      · exact ih true l hl

theorem recipientLines_cons_eq (field : String) (ty : RecipientType) (it : Recipient)
    (rest : List Recipient) (started : Bool) (h : it.recipient_type = ty) :
    recipientLines field ty (it :: rest) started =
      ((if started then ", " else field ++ ": ") ++ (mailbox it ++ "\r\n")) ::
        recipientLines field ty rest true := by
  rw [recipientLines]
  exact if_neg (not_not.2 h)

theorem recipientLines_cons_ne (field : String) (ty : RecipientType) (it : Recipient)
    (rest : List Recipient) (started : Bool) (h : it.recipient_type ≠ ty) :
    recipientLines field ty (it :: rest) started = recipientLines field ty rest started := by
  rw [recipientLines]
  exact if_pos h

theorem recipientLines_data (field : String) (ty : RecipientType) :
    ∀ (recipients : List Recipient) (started : Bool),
      (WriteRecipients.loop field ty.toInt recipients started "").data =
        ((recipientLines field ty recipients started).map String.data).flatten
  | [], _ => by simp [WriteRecipients.loop, recipientLines]
  | it :: rest, started => by
    by_cases hty : it.recipient_type = ty
    · rw [WriteRecipients_loop_cons_eq _ _ _ _ _ _ hty, WriteRecipients_loop_append,
        recipientLines_cons_eq _ _ _ _ _ hty]
      simp only [String.data_append, List.map_cons, List.flatten_cons,
        recipientLines_data field ty rest true]
      rfl
    · rw [WriteRecipients_loop_cons_ne _ _ _ _ _ _ hty, recipientLines_cons_ne _ _ _ _ _ hty]
      exact recipientLines_data field ty rest started

/-- Every line of a role begins with the field name, a colon and a space, or
with a comma and a space. -/
theorem recipientLines_startsWith (field : String) (ty : RecipientType) :
    ∀ (recipients : List Recipient) (started : Bool),
      ∀ l ∈ recipientLines field ty recipients started,
        startsWith (field ++ ": ") l.data = true ∨ startsWith ", " l.data = true
  | [], _ => by
    intro l hl
    simp [recipientLines] at hl
  | it :: rest, started => by
    intro l hl
    rw [recipientLines] at hl
    split at hl
    · exact recipientLines_startsWith field ty rest started l hl
    · rcases List.mem_cons.1 hl with hl | hl
      · subst hl
        cases started
        · left
          simp only [Bool.false_eq_true, if_false]
          exact startsWith_string_append _ _
        · right
          simp only [if_true]
          exact startsWith_string_append _ _
      · exact recipientLines_startsWith field ty rest true l hl

/-- When nothing was written yet, a later line begins with a comma: only the
first line of a role begins with the field name. -/
theorem recipientLines_started (field : String) (ty : RecipientType) :
    ∀ (recipients : List Recipient),
      ∀ l ∈ recipientLines field ty recipients true, startsWith ", " l.data = true
  | [] => by
    intro l hl
    simp [recipientLines] at hl
  | it :: rest => by
    intro l hl
    rw [recipientLines] at hl
    split at hl
    · exact recipientLines_started field ty rest l hl
    · rcases List.mem_cons.1 hl with hl | hl
      · subst hl
        simp only [if_true]
        exact startsWith_string_append _ _
      · exact recipientLines_started field ty rest l hl

theorem recipientLines_mem (field : String) (ty : RecipientType) :
    ∀ (recipients : List Recipient) (started : Bool),
      ∀ l ∈ recipientLines field ty recipients started,
        ∃ it ∈ recipients, it.recipient_type = ty
  | [], _ => by
    intro l hl
    simp [recipientLines] at hl
  | it :: rest, started => by
    intro l hl
    rw [recipientLines] at hl
    split at hl
    · obtain ⟨x, hx, hxt⟩ := recipientLines_mem field ty rest started l hl
      exact ⟨x, List.mem_cons_of_mem _ hx, hxt⟩
    · rename_i hty
      exact ⟨it, List.mem_cons_self _ _, not_not.1 hty⟩

theorem recipientLines_first (field : String) (ty : RecipientType) :
    ∀ (recipients : List Recipient), (∃ it ∈ recipients, it.recipient_type = ty) →
      ∃ l rest, recipientLines field ty recipients false = l :: rest ∧
        startsWith (field ++ ": ") l.data = true
  | [], h => by simp at h
  | it :: rest, h => by
    by_cases hty : it.recipient_type = ty
    · refine ⟨_, _, recipientLines_cons_eq _ _ _ _ _ hty, ?_⟩
      simp only [Bool.false_eq_true, if_false]
      exact startsWith_string_append _ _
    · have h' : ∃ x ∈ rest, x.recipient_type = ty := by
        obtain ⟨x, hx, hxt⟩ := h
        rcases List.mem_cons.1 hx with hx | hx
        · exact absurd (hx ▸ hxt) hty
        · exact ⟨x, hx, hxt⟩
      obtain ⟨l, tl, hl, hs⟩ := recipientLines_first field ty rest h'
      exact ⟨l, tl, by rw [recipientLines_cons_ne _ _ _ _ _ hty, hl], hs⟩

theorem headerFields_noLineFeed (b : BuilderImpl)
    (hfields : b.headerFields.all noLineFeed = true) :
    noLineFeed b.sender_.address = true ∧ noLineFeed b.sender_.name = true ∧
    noLineFeed b.content_type_ = true ∧ noLineFeed b.subject_ = true ∧
    ∀ it ∈ b.recipients_, noLineFeed it.address = true ∧ noLineFeed it.name = true := by
  have hall : ∀ s ∈ b.headerFields, noLineFeed s = true := List.all_eq_true.1 hfields
  refine ⟨hall _ (by simp [BuilderImpl.headerFields]), hall _ (by simp [BuilderImpl.headerFields]),
    hall _ (by simp [BuilderImpl.headerFields]), hall _ (by simp [BuilderImpl.headerFields]), ?_⟩
  intro it hit
  constructor
  · exact hall _ (List.mem_append_right _ (List.mem_flatMap.2 ⟨it, hit, by simp⟩))
  · exact hall _ (List.mem_append_right _ (List.mem_flatMap.2 ⟨it, hit, by simp⟩))

/-- The payload is the lines of the header section, the empty line, the body
and the closing CRLF and dot. -/
theorem data_lines (b : BuilderImpl) :
    b.data.data = (b.writtenHeaderLines.map String.data).flatten ++
      ('\r' :: '\n' :: (b.body_.data ++ ['\r', '\n', '.'])) := by
  rw [data_eq]
  unfold WriteRecipients BuilderImpl.writtenHeaderLines
  simp only [String.data_append, recipientLines_data, List.map_append, List.flatten_append,
    List.map_cons, List.map_nil, List.flatten_cons, List.flatten_nil, List.append_nil,
    List.append_assoc]
  by_cases hct : b.content_type_ = ""
  · simp only [hct, ne_eq, not_true_eq_false, if_false, List.map_nil, List.flatten_nil,
      List.append_assoc, String.data_append]
    rfl
  · simp only [hct, ne_eq, not_false_eq_true, if_true, List.map_cons, List.map_nil,
      List.flatten_cons, List.flatten_nil, List.append_nil, List.append_assoc,
      String.data_append]
    rfl

theorem from_line_startsWith (address name : String) :
    startsWith "From: " (WriteRecipient "From" address name "").data = true := by
  have h : WriteRecipient "From" address name "" = "From: " ++
      (address ++ ((if name.length > 0 then " <" ++ (name ++ ">") else "") ++ "\r\n")) := by
    rw [WriteRecipient_eq, String.empty_append, ← String.append_assoc "From"]
    rfl
  rw [h]
  exact startsWith_string_append _ _

theorem from_line_isLine (address name : String) (ha : noLineFeed address = true)
    (hn : noLineFeed name = true) : IsLine (WriteRecipient "From" address name "").data := by
  rw [WriteRecipient_eq]
  simp only [← String.append_assoc]
  apply isLine_crlf
  simp only [String.data_append]
  refine not_mem_append (not_mem_append (not_mem_append (not_mem_append (by decide) (by decide))
    (by decide)) (noLineFeed_not_mem ha)) ?_
  split
  · simp only [String.data_append]
    exact not_mem_append (not_mem_append (by decide) (noLineFeed_not_mem hn)) (by decide)
  · decide

/-- What each line of the header section begins with. -/
theorem writtenHeaderLines_cases (b : BuilderImpl) (l : String)
    (hl : l ∈ b.writtenHeaderLines) :
    startsWith "From: " l.data = true ∨ startsWith "To: " l.data = true ∨
    startsWith "Cc: " l.data = true ∨ startsWith "Bcc: " l.data = true ∨
    startsWith ", " l.data = true ∨
    (b.content_type_ ≠ "" ∧ (l = "MIME-Version: 1.0\r\n" ∨
      l = "Content-Type: " ++ (b.content_type_ ++ "\r\n"))) ∨
    l = "Subject: " ++ (b.subject_ ++ "\r\n") := by
  simp only [BuilderImpl.writtenHeaderLines, List.mem_append, List.mem_singleton] at hl
  rcases hl with ((((hl | hl) | hl) | hl) | hl) | hl
  · subst hl
    exact Or.inl (from_line_startsWith _ _)
  · rcases recipientLines_startsWith _ _ _ _ l hl with h | h
    · exact Or.inr (Or.inl h)
    · exact Or.inr (Or.inr (Or.inr (Or.inr (Or.inl h))))
  · rcases recipientLines_startsWith _ _ _ _ l hl with h | h
    · exact Or.inr (Or.inr (Or.inl h))
    · exact Or.inr (Or.inr (Or.inr (Or.inr (Or.inl h))))
  · rcases recipientLines_startsWith _ _ _ _ l hl with h | h
    · exact Or.inr (Or.inr (Or.inr (Or.inl h)))
    · exact Or.inr (Or.inr (Or.inr (Or.inr (Or.inl h))))
  · by_cases hct : b.content_type_ = ""
    · simp [hct] at hl
    · simp only [hct, ne_eq, not_false_eq_true, if_true, List.mem_cons, List.mem_singleton,
        List.not_mem_nil, or_false] at hl
      exact Or.inr (Or.inr (Or.inr (Or.inr (Or.inr (Or.inl ⟨hct, hl⟩)))))
  · exact Or.inr (Or.inr (Or.inr (Or.inr (Or.inr (Or.inr hl)))))

theorem mime_line_startsWith (b : BuilderImpl) (l : String)
    (h : l = "MIME-Version: 1.0\r\n" ∨ l = "Content-Type: " ++ (b.content_type_ ++ "\r\n")) :
    startsWith "MIME-Version:" l.data = true ∨ startsWith "Content-Type:" l.data = true := by
  rcases h with h | h
  · subst h
    exact Or.inl (by decide)
  · subst h
    have h2 : "Content-Type: " ++ (b.content_type_ ++ "\r\n") =
        "Content-Type:" ++ (" " ++ (b.content_type_ ++ "\r\n")) := by
      rw [← String.append_assoc "Content-Type:"]
      rfl
    rw [h2]
    exact Or.inr (startsWith_string_append _ _)

theorem subject_line_startsWith (subject : String) :
    startsWith "Subject: " ("Subject: " ++ (subject ++ "\r\n")).data = true :=
  startsWith_string_append _ _

/-- The first two characters of each line of the header section. -/
theorem writtenHeaderLines_tag (b : BuilderImpl) (l : String) (hl : l ∈ b.writtenHeaderLines) :
    l.data.take 2 = ['F', 'r'] ∨ l.data.take 2 = ['T', 'o'] ∨ l.data.take 2 = ['C', 'c'] ∨
    l.data.take 2 = ['B', 'c'] ∨ l.data.take 2 = [',', ' '] ∨ l.data.take 2 = ['M', 'I'] ∨
    l.data.take 2 = ['C', 'o'] ∨ l.data.take 2 = ['S', 'u'] := by
  rcases writtenHeaderLines_cases b l hl with h | h | h | h | h | ⟨_, h⟩ | h
  · exact Or.inl (startsWith_tag (by decide) h)
  · exact Or.inr (Or.inl (startsWith_tag (by decide) h))
  · exact Or.inr (Or.inr (Or.inl (startsWith_tag (by decide) h)))
  · exact Or.inr (Or.inr (Or.inr (Or.inl (startsWith_tag (by decide) h))))
  · exact Or.inr (Or.inr (Or.inr (Or.inr (Or.inl (startsWith_tag (by decide) h)))))
  · rcases mime_line_startsWith b l h with h | h
    · exact Or.inr (Or.inr (Or.inr (Or.inr (Or.inr (Or.inl (startsWith_tag (by decide) h))))))
    · exact Or.inr (Or.inr (Or.inr (Or.inr (Or.inr (Or.inr
        (Or.inl (startsWith_tag (by decide) h)))))))
  · subst h
    exact Or.inr (Or.inr (Or.inr (Or.inr (Or.inr (Or.inr (Or.inr
      (startsWith_tag (by decide) (subject_line_startsWith _))))))))

theorem line_ne_empty {l : List Char} {a c : Char} (h : l.take 2 = [a, c]) (hc : c ≠ '\n') :
    decide (l ≠ ['\r', '\n'] ∧ l ≠ ['\n']) = true := by
  apply decide_eq_true
  constructor
  · intro hl
    subst hl
    simp only [List.take, List.cons.injEq, and_true] at h
    exact hc h.2.symm
  · intro hl
    subst hl
    simp [List.take] at h

theorem writtenHeaderLines_isLine (b : BuilderImpl)
    (hfields : b.headerFields.all noLineFeed = true) :
    ∀ l ∈ b.writtenHeaderLines, IsLine l.data := by
  obtain ⟨haddr, hname, hct, hsubj, hrec⟩ := headerFields_noLineFeed b hfields
  intro l hl
  simp only [BuilderImpl.writtenHeaderLines, List.mem_append, List.mem_singleton] at hl
  rcases hl with ((((hl | hl) | hl) | hl) | hl) | hl
  · subst hl
    exact from_line_isLine _ _ haddr hname
  · exact recipientLines_isLine _ _ (by decide) _ _ hrec l hl
  · exact recipientLines_isLine _ _ (by decide) _ _ hrec l hl
  · exact recipientLines_isLine _ _ (by decide) _ _ hrec l hl
  · by_cases hc : b.content_type_ = ""
    · simp [hc] at hl
    · simp only [hc, ne_eq, not_false_eq_true, if_true, List.mem_cons, List.mem_singleton,
        List.not_mem_nil, or_false] at hl
      rcases hl with hl | hl
      · subst hl
        exact isLine_crlf "MIME-Version: 1.0" (by decide)
      · subst hl
        rw [← String.append_assoc]
        apply isLine_crlf
        rw [String.data_append]
        exact not_mem_append (by decide) (noLineFeed_not_mem hct)
  · subst hl
    rw [← String.append_assoc]
    apply isLine_crlf
    rw [String.data_append]
    exact not_mem_append (by decide) (noLineFeed_not_mem hsubj)

/-- When no header field has a line feed, the header section of the payload is
made of the lines `SendBatch` writes as headers, and of nothing else. -/
theorem headerLines_eq (b : BuilderImpl) (hfields : b.headerFields.all noLineFeed = true) :
    headerLines b.data = b.writtenHeaderLines.map String.data := by
  unfold headerLines
  rw [data_lines, splitLines_lines _ _ (by
    intro l hl
    obtain ⟨x, hx, rfl⟩ := List.mem_map.1 hl
    exact writtenHeaderLines_isLine b hfields x hx)]
  have hcr : splitLines ('\r' :: '\n' :: (b.body_.data ++ ['\r', '\n', '.'])) =
      ['\r', '\n'] :: splitLines (b.body_.data ++ ['\r', '\n', '.']) :=
    splitLines_line ['\r'] _ (by decide)
  rw [hcr]
  apply takeWhile_append_stop
  · intro l hl
    obtain ⟨x, hx, rfl⟩ := List.mem_map.1 hl
    rcases writtenHeaderLines_tag b x hx with h | h | h | h | h | h | h | h <;>
      exact line_ne_empty h (by decide)
  · decide

theorem TagsIn.union {a b : List String} {ta tb : List (List Char)} (ha : TagsIn a ta)
    (hb : TagsIn b tb) : TagsIn (a ++ b) (ta ++ tb) := by
  intro l hl
  rcases List.mem_append.1 hl with h | h
  · exact List.mem_append_left _ (ha l h)
  · exact List.mem_append_right _ (hb l h)

theorem TagsIn.not_startsWith {ls : List String} {tags : List (List Char)} (h : TagsIn ls tags)
    {p : String} (hp : 2 ≤ p.length) (hp' : p.data.take 2 ∉ tags) :
    ∀ l ∈ ls.map String.data, ¬ startsWith p l = true := by
  intro l hl hs
  obtain ⟨x, hx, rfl⟩ := List.mem_map.1 hl
  exact hp' (startsWith_tag hp hs ▸ h x hx)

theorem TagsIn.from_line (address name : String) :
    TagsIn [WriteRecipient "From" address name ""] [['F', 'r']] := by
  intro l hl
  rw [List.mem_singleton.1 hl]
  exact List.mem_singleton.2 (startsWith_tag (by decide) (from_line_startsWith address name))

theorem TagsIn.recipientLines (field : String) (ty : RecipientType) (recipients : List Recipient)
    (started : Bool) :
    TagsIn (recipientLines field ty recipients started)
      [(field ++ ": ").data.take 2, [',', ' ']] := by
  intro l hl
  have hlen : 2 ≤ (field ++ ": ").length := by
    rw [String.length_append]
    exact Nat.le_add_left _ _
  rcases recipientLines_startsWith field ty recipients started l hl with h | h
  · rw [startsWith_tag hlen h]
    exact List.mem_cons_self _ _
  · rw [startsWith_tag (by decide) h]
    exact List.mem_cons_of_mem _ (List.mem_singleton.2 rfl)

theorem TagsIn.mime_lines (content_type : String) :
    TagsIn (if content_type ≠ "" then
      ["MIME-Version: 1.0\r\n", "Content-Type: " ++ (content_type ++ "\r\n")] else [])
      [['M', 'I'], ['C', 'o']] := by
  intro l hl
  split at hl
  · simp only [List.mem_cons, List.mem_singleton, List.not_mem_nil, or_false] at hl
    rcases hl with hl | hl
    · subst hl
      decide
    · subst hl
      rw [startsWith_tag (by decide) (startsWith_string_append "Content-Type: " _)]
      decide
  · simp at hl

theorem TagsIn.subject_line (subject : String) :
    TagsIn ["Subject: " ++ (subject ++ "\r\n")] [['S', 'u']] := by
  intro l hl
  rw [List.mem_singleton.1 hl, startsWith_tag (by decide) (subject_line_startsWith subject)]
  decide

/-- In a list made of two parts, an item that can only be in the first part
stands before an item that can only be in the second. -/
theorem index_lt_of_parts {α : Type} {X Y : List α} {P Q : α → Prop}
    (hY : ∀ y ∈ Y, ¬ P y) (hX : ∀ x ∈ X, ¬ Q x) {i j : Nat} {l l' : α}
    (hi : (X ++ Y)[i]? = some l) (hj : (X ++ Y)[j]? = some l') (hP : P l) (hQ : Q l') :
    i < j := by
  have hiX : i < X.length := by
    by_contra hge
    rw [List.getElem?_append_right (Nat.le_of_not_lt hge)] at hi
    exact hY l (List.getElem?_mem hi) hP
  have hjX : X.length ≤ j := by
    by_contra hlt
    rw [List.getElem?_append_left (Nat.lt_of_not_le hlt)] at hj
    exact hX l' (List.getElem?_mem hj) hQ
  omega

theorem TagsIn.excl {ls : List String} {tags : List (List Char)} (h : TagsIn ls tags)
    {x : String} (hx : x ∈ ls) {p : String} (hp : 2 ≤ p.length) (hp' : p.data.take 2 ∉ tags)
    (hs : startsWith p x.data = true) : False :=
  hp' (startsWith_tag hp hs ▸ h x hx)

/-- A line of the header section that begins with the field name of a role is
a line of that role, so a recipient has the role. -/
theorem role_line_has_recipient (b : BuilderImpl) (x : String) (hx : x ∈ b.writtenHeaderLines) :
    (startsWith "To: " x.data = true →
      ∃ it ∈ b.recipients_, it.recipient_type = RecipientType.Primary) ∧
    (startsWith "Cc: " x.data = true →
      ∃ it ∈ b.recipients_, it.recipient_type = RecipientType.CarbonCopy) ∧
    (startsWith "Bcc: " x.data = true →
      ∃ it ∈ b.recipients_, it.recipient_type = RecipientType.Blind) := by
  have tF := TagsIn.from_line b.sender_.address b.sender_.name
  have tT := TagsIn.recipientLines "To" RecipientType.Primary b.recipients_ false
  have tC := TagsIn.recipientLines "Cc" RecipientType.CarbonCopy b.recipients_ false
  have tB := TagsIn.recipientLines "Bcc" RecipientType.Blind b.recipients_ false
  have tM := TagsIn.mime_lines b.content_type_
  have tS := TagsIn.subject_line b.subject_
  simp only [BuilderImpl.writtenHeaderLines, List.mem_append] at hx
  refine ⟨fun hs => ?_, fun hs => ?_, fun hs => ?_⟩
  · rcases hx with ((((hx | hx) | hx) | hx) | hx) | hx
    · exact (tF.excl hx (by decide) (by decide) hs).elim
    · exact recipientLines_mem _ _ _ _ x hx
    · exact (tC.excl hx (by decide) (by decide) hs).elim
    · exact (tB.excl hx (by decide) (by decide) hs).elim
    · exact (tM.excl hx (by decide) (by decide) hs).elim
    · exact (tS.excl hx (by decide) (by decide) hs).elim
  · rcases hx with ((((hx | hx) | hx) | hx) | hx) | hx
    · exact (tF.excl hx (by decide) (by decide) hs).elim
    · exact (tT.excl hx (by decide) (by decide) hs).elim
    · exact recipientLines_mem _ _ _ _ x hx
    · exact (tB.excl hx (by decide) (by decide) hs).elim
    · exact (tM.excl hx (by decide) (by decide) hs).elim
    · exact (tS.excl hx (by decide) (by decide) hs).elim
  · rcases hx with ((((hx | hx) | hx) | hx) | hx) | hx
    · exact (tF.excl hx (by decide) (by decide) hs).elim
    · exact (tT.excl hx (by decide) (by decide) hs).elim
    · exact (tC.excl hx (by decide) (by decide) hs).elim
    · exact recipientLines_mem _ _ _ _ x hx
    · exact (tM.excl hx (by decide) (by decide) hs).elim
    · exact (tS.excl hx (by decide) (by decide) hs).elim

/-- A role with a recipient has a line that begins with its field name. -/
theorem role_has_line (b : BuilderImpl) :
    ((∃ it ∈ b.recipients_, it.recipient_type = RecipientType.Primary) →
      ∃ x ∈ b.writtenHeaderLines, startsWith "To: " x.data = true) ∧
    ((∃ it ∈ b.recipients_, it.recipient_type = RecipientType.CarbonCopy) →
      ∃ x ∈ b.writtenHeaderLines, startsWith "Cc: " x.data = true) ∧
    ((∃ it ∈ b.recipients_, it.recipient_type = RecipientType.Blind) →
      ∃ x ∈ b.writtenHeaderLines, startsWith "Bcc: " x.data = true) := by
  refine ⟨fun h => ?_, fun h => ?_, fun h => ?_⟩
  · obtain ⟨l, rest, hl, hs⟩ := recipientLines_first "To" _ _ h
    refine ⟨l, ?_, hs⟩
    simp only [BuilderImpl.writtenHeaderLines, List.mem_append, hl, List.mem_cons, true_or,
      or_true]
  · obtain ⟨l, rest, hl, hs⟩ := recipientLines_first "Cc" _ _ h
    refine ⟨l, ?_, hs⟩
    simp only [BuilderImpl.writtenHeaderLines, List.mem_append, hl, List.mem_cons, true_or,
      or_true]
  · obtain ⟨l, rest, hl, hs⟩ := recipientLines_first "Bcc" _ _ h
    refine ⟨l, ?_, hs⟩
    simp only [BuilderImpl.writtenHeaderLines, List.mem_append, hl, List.mem_cons, true_or,
      or_true]

/-- The lines of the header section in two parts, in three ways: a line that
begins with `To: ` is in the first part of the first split, one that begins
with `Cc: ` is in the second part of the first split and in the first part of
the second, one that begins with `Bcc: ` is in the second part of the second. -/
theorem role_lines_order (b : BuilderImpl) :
    ∃ X Y X' Y' : List (List Char),
      b.writtenHeaderLines.map String.data = X ++ Y ∧
      b.writtenHeaderLines.map String.data = X' ++ Y' ∧
      (∀ y ∈ Y, ¬ startsWith "To: " y = true) ∧ (∀ x ∈ X, ¬ startsWith "Cc: " x = true) ∧
      (∀ y ∈ Y', ¬ startsWith "To: " y = true) ∧ (∀ y ∈ Y', ¬ startsWith "Cc: " y = true) ∧
      (∀ x ∈ X', ¬ startsWith "Bcc: " x = true) := by
  have tF := TagsIn.from_line b.sender_.address b.sender_.name
  have tT := TagsIn.recipientLines "To" RecipientType.Primary b.recipients_ false
  have tC := TagsIn.recipientLines "Cc" RecipientType.CarbonCopy b.recipients_ false
  have tB := TagsIn.recipientLines "Bcc" RecipientType.Blind b.recipients_ false
  have tM := TagsIn.mime_lines b.content_type_
  have tS := TagsIn.subject_line b.subject_
  refine ⟨_, _, _, _, ?_, ?_,
    (tC.union (tB.union (tM.union tS))).not_startsWith (by decide) (by decide),
    (tF.union tT).not_startsWith (by decide) (by decide),
    (tB.union (tM.union tS)).not_startsWith (by decide) (by decide),
    (tB.union (tM.union tS)).not_startsWith (by decide) (by decide),
    (tF.union (tT.union tC)).not_startsWith (by decide) (by decide)⟩
  · simp only [BuilderImpl.writtenHeaderLines, List.map_append, List.append_assoc]
  · simp only [BuilderImpl.writtenHeaderLines, List.map_append, List.append_assoc]

/-- C5, as the code has it: when no header field (sender, recipient names and
addresses, content type, subject) has a line feed, the header section of the
payload has a line that begins with `To: `, `Cc: ` or `Bcc: ` if and only if a
recipient has the role Primary, CarbonCopy or Blind, and a `To: ` line stands
before a `Cc: ` line, which stands before a `Bcc: ` line, whatever order the
recipients were added in: a Blind recipient added before a Primary one gives
the header section `From`, `To`, `Bcc`, `Subject`. -/
theorem recipient_headers_by_role (b : BuilderImpl)
    (hfields : b.headerFields.all noLineFeed = true) :
    ((∃ l ∈ headerLines b.data, startsWith "To: " l = true) ↔
      ∃ it ∈ b.recipients_, it.recipient_type = RecipientType.Primary) ∧
    ((∃ l ∈ headerLines b.data, startsWith "Cc: " l = true) ↔
      ∃ it ∈ b.recipients_, it.recipient_type = RecipientType.CarbonCopy) ∧
    ((∃ l ∈ headerLines b.data, startsWith "Bcc: " l = true) ↔
      ∃ it ∈ b.recipients_, it.recipient_type = RecipientType.Blind) ∧
    (∀ (i j : Nat) (l l' : List Char), (headerLines b.data)[i]? = some l →
      (headerLines b.data)[j]? = some l' →
      (startsWith "To: " l = true ∧ startsWith "Cc: " l' = true) ∨
      (startsWith "To: " l = true ∧ startsWith "Bcc: " l' = true) ∨
      (startsWith "Cc: " l = true ∧ startsWith "Bcc: " l' = true) → i < j) ∧
    headerLines (((Smtp.new "username" "password").NewEmail.AddRecipient "b" ""
      RecipientType.Blind).AddRecipient "a").data =
        [("From: \r\n" : String).data, ("To: a\r\n" : String).data,
         ("Bcc: b\r\n" : String).data, ("Subject: \r\n" : String).data] := by
  rw [headerLines_eq b hfields]
  have hmem : ∀ (p : String), (∃ l ∈ b.writtenHeaderLines.map String.data,
      startsWith p l = true) ↔ ∃ x ∈ b.writtenHeaderLines, startsWith p x.data = true := by
    intro p
    constructor
    · rintro ⟨l, hl, hs⟩
      obtain ⟨x, hx, rfl⟩ := List.mem_map.1 hl
      exact ⟨x, hx, hs⟩
    · rintro ⟨x, hx, hs⟩
      exact ⟨x.data, List.mem_map_of_mem _ hx, hs⟩
  refine ⟨?_, ?_, ?_, ?_, by decide⟩
  · rw [hmem]
    exact ⟨fun ⟨x, hx, hs⟩ => (role_line_has_recipient b x hx).1 hs, (role_has_line b).1⟩
  · rw [hmem]
    exact ⟨fun ⟨x, hx, hs⟩ => (role_line_has_recipient b x hx).2.1 hs, (role_has_line b).2.1⟩
  · rw [hmem]
    exact ⟨fun ⟨x, hx, hs⟩ => (role_line_has_recipient b x hx).2.2 hs, (role_has_line b).2.2⟩
  · obtain ⟨X, Y, X', Y', h1, h2, hYto, hXcc, hYto', hYcc', hXbcc'⟩ := role_lines_order b
    intro i j l l' hi hj h
    rcases h with ⟨hl, hl'⟩ | ⟨hl, hl'⟩ | ⟨hl, hl'⟩
    · rw [h1] at hi hj
      exact index_lt_of_parts (P := fun y => startsWith "To: " y = true)
        (Q := fun x => startsWith "Cc: " x = true) hYto hXcc hi hj hl hl'
    · rw [h2] at hi hj
      exact index_lt_of_parts (P := fun y => startsWith "To: " y = true)
        (Q := fun x => startsWith "Bcc: " x = true) hYto' hXbcc' hi hj hl hl'
    · rw [h2] at hi hj
      exact index_lt_of_parts (P := fun y => startsWith "Cc: " y = true)
        (Q := fun x => startsWith "Bcc: " x = true) hYcc' hXbcc' hi hj hl hl'

theorem recipient_headers_by_role_witness :
    sampleBuilder.headerFields.all noLineFeed = true ∧
    (∃ l ∈ headerLines sampleBuilder.data, startsWith "To: " l = true) ∧
    (∃ l ∈ headerLines sampleBuilder.data, startsWith "Cc: " l = true) ∧
    (∃ l ∈ headerLines sampleBuilder.data, startsWith "Bcc: " l = true) :=
  have h := recipient_headers_by_role sampleBuilder (by decide)
  ⟨by decide, h.1.2 (by decide), h.2.1.2 (by decide), h.2.2.1.2 (by decide)⟩

/-- C5 as worded fails: a Primary recipient whose name holds CRLF and the text
of a `Cc` header puts a `Cc` header line in the header section of the payload
though no recipient has the role CarbonCopy. -/
theorem cc_header_without_cc_recipient_counterexample :
    (∀ it ∈ ((Smtp.new "username" "password").NewEmail.AddRecipient "a@example.com"
      "n\r\nCc: c@example.com\r\nX: ").recipients_,
        it.recipient_type ≠ RecipientType.CarbonCopy) ∧
    ((Smtp.new "username" "password").NewEmail.AddRecipient "a@example.com"
      "n\r\nCc: c@example.com\r\nX: ").data =
        "From: \r\nTo: n\r\nCc: c@example.com\r\nX:  <a@example.com>\r\nSubject: \r\n\r\n\r\n." ∧
    ("Cc: c@example.com\r\n" : String).data ∈
      headerLines ((Smtp.new "username" "password").NewEmail.AddRecipient "a@example.com"
        "n\r\nCc: c@example.com\r\nX: ").data ∧
    startsWith "Cc: " ("Cc: c@example.com\r\n" : String).data = true := by
  decide

theorem front_line_startsWith (b : BuilderImpl) :
    ∀ l ∈ ([WriteRecipient "From" b.sender_.address b.sender_.name ""] ++
      recipientLines "To" RecipientType.Primary b.recipients_ false ++
      recipientLines "Cc" RecipientType.CarbonCopy b.recipients_ false ++
      recipientLines "Bcc" RecipientType.Blind b.recipients_ false).map String.data,
      startsWith "From: " l = true ∨ startsWith "To: " l = true ∨ startsWith "Cc: " l = true ∨
      startsWith "Bcc: " l = true ∨ startsWith ", " l = true := by
  intro l hl
  obtain ⟨x, hx, rfl⟩ := List.mem_map.1 hl
  simp only [List.mem_append, List.mem_singleton] at hx
  rcases hx with ((hx | hx) | hx) | hx
  · subst hx
    exact Or.inl (from_line_startsWith _ _)
  · rcases recipientLines_startsWith _ _ _ _ x hx with h | h
    · exact Or.inr (Or.inl h)
    · exact Or.inr (Or.inr (Or.inr (Or.inr h)))
  · rcases recipientLines_startsWith _ _ _ _ x hx with h | h
    · exact Or.inr (Or.inr (Or.inl h))
    · exact Or.inr (Or.inr (Or.inr (Or.inr h)))
  · rcases recipientLines_startsWith _ _ _ _ x hx with h | h
    · exact Or.inr (Or.inr (Or.inr (Or.inl h)))
    · exact Or.inr (Or.inr (Or.inr (Or.inr h)))

theorem no_mime_line_without_content_type (b : BuilderImpl) (hct : b.content_type_ = "") :
    ∀ l ∈ b.writtenHeaderLines.map String.data,
      ¬ startsWith "MIME-Version:" l = true ∧ ¬ startsWith "Content-Type:" l = true := by
  have tF := TagsIn.from_line b.sender_.address b.sender_.name
  have tT := TagsIn.recipientLines "To" RecipientType.Primary b.recipients_ false
  have tC := TagsIn.recipientLines "Cc" RecipientType.CarbonCopy b.recipients_ false
  have tB := TagsIn.recipientLines "Bcc" RecipientType.Blind b.recipients_ false
  have tS := TagsIn.subject_line b.subject_
  have hw : b.writtenHeaderLines =
      [WriteRecipient "From" b.sender_.address b.sender_.name ""] ++
      (recipientLines "To" RecipientType.Primary b.recipients_ false ++
      (recipientLines "Cc" RecipientType.CarbonCopy b.recipients_ false ++
      (recipientLines "Bcc" RecipientType.Blind b.recipients_ false ++
      ["Subject: " ++ (b.subject_ ++ "\r\n")]))) := by
    simp only [BuilderImpl.writtenHeaderLines, hct, ne_eq, not_true_eq_false, if_false,
      List.append_nil, List.append_assoc]
  rw [hw]
  intro l hl
  exact ⟨(tF.union (tT.union (tC.union (tB.union tS)))).not_startsWith (by decide)
      (by decide) l hl,
    (tF.union (tT.union (tC.union (tB.union tS)))).not_startsWith (by decide)
      (by decide) l hl⟩

/-- C21, as the code has it: when no header field (sender, recipient names and
addresses, content type, subject) has a line feed, the header section of the
payload has the two lines `MIME-Version: 1.0` CRLF and `Content-Type: ` content
type CRLF if and only if the content type is not empty; they then stand, in
this order, right before the `Subject` line that ends the header section, after
lines that all belong to the From, To, Cc and Bcc headers; with an empty
content type no line of the header section begins with `MIME-Version:` or
`Content-Type:`. -/
theorem mime_lines_iff_content_type (b : BuilderImpl)
    (hfields : b.headerFields.all noLineFeed = true) :
    ((("MIME-Version: 1.0" ++ "\r\n" : String).data ∈ headerLines b.data ∧
      ("Content-Type: " ++ b.content_type_ ++ "\r\n").data ∈ headerLines b.data) ↔
        b.content_type_ ≠ "") ∧
    (b.content_type_ ≠ "" → ∃ pre, headerLines b.data = pre ++
        [("MIME-Version: 1.0" ++ "\r\n" : String).data,
         ("Content-Type: " ++ b.content_type_ ++ "\r\n").data,
         ("Subject: " ++ b.subject_ ++ "\r\n").data] ∧
      ∀ l ∈ pre, startsWith "From: " l = true ∨ startsWith "To: " l = true ∨
        startsWith "Cc: " l = true ∨ startsWith "Bcc: " l = true ∨
        startsWith ", " l = true) ∧
    (b.content_type_ = "" → ∀ l ∈ headerLines b.data,
      ¬ startsWith "MIME-Version:" l = true ∧ ¬ startsWith "Content-Type:" l = true) := by
  rw [headerLines_eq b hfields]
  have hpresent : b.content_type_ ≠ "" → ∃ pre, b.writtenHeaderLines.map String.data = pre ++
        [("MIME-Version: 1.0" ++ "\r\n" : String).data,
         ("Content-Type: " ++ b.content_type_ ++ "\r\n").data,
         ("Subject: " ++ b.subject_ ++ "\r\n").data] ∧
      ∀ l ∈ pre, startsWith "From: " l = true ∨ startsWith "To: " l = true ∨
        startsWith "Cc: " l = true ∨ startsWith "Bcc: " l = true ∨
        startsWith ", " l = true := by
    intro hct
    refine ⟨_, ?_, front_line_startsWith b⟩
    simp only [BuilderImpl.writtenHeaderLines, hct, ne_eq, not_false_eq_true, if_true,
      List.map_append, List.map_cons, List.map_nil, List.append_assoc, List.cons_append,
      List.nil_append, String.append_assoc]
    rfl
  refine ⟨⟨?_, ?_⟩, hpresent, no_mime_line_without_content_type b⟩
  · rintro ⟨h1, _⟩ hct
    exact (no_mime_line_without_content_type b hct _ h1).1 (by decide)
  · intro hct
    obtain ⟨pre, hpre, _⟩ := hpresent hct
    rw [hpre]
    exact ⟨List.mem_append_right _ (List.mem_cons_self _ _),
      List.mem_append_right _ (List.mem_cons_of_mem _ (List.mem_cons_self _ _))⟩

theorem mime_lines_iff_content_type_witness :
    (sampleBuilder.SetContentType "text/html").headerFields.all noLineFeed = true ∧
    (sampleBuilder.SetContentType "text/html").content_type_ ≠ "" ∧
    (("MIME-Version: 1.0" ++ "\r\n" : String).data ∈
        headerLines (sampleBuilder.SetContentType "text/html").data ∧
      ("Content-Type: " ++ (sampleBuilder.SetContentType "text/html").content_type_ ++
        "\r\n").data ∈ headerLines (sampleBuilder.SetContentType "text/html").data) :=
  ⟨by decide, by decide,
    (mime_lines_iff_content_type (sampleBuilder.SetContentType "text/html") (by decide)).1.2
      (by decide)⟩

/-- C21 as worded fails: with an empty content type and a body made of the two
MIME lines, the payload has both lines; and with a subject that holds CRLF and
the two lines, they stand in the header section of the payload. -/
theorem mime_lines_without_content_type_counterexample :
    ((Smtp.new "username" "password").NewEmail.SetBody
      "MIME-Version: 1.0\r\nContent-Type: \r\n").content_type_ = "" ∧
    ((Smtp.new "username" "password").NewEmail.SetBody
      "MIME-Version: 1.0\r\nContent-Type: \r\n").data =
        "From: \r\nSubject: \r\n\r\nMIME-Version: 1.0\r\nContent-Type: \r\n\r\n." ∧
    ("MIME-Version: 1.0\r\n" : String).data ∈ splitLines
      ((Smtp.new "username" "password").NewEmail.SetBody
        "MIME-Version: 1.0\r\nContent-Type: \r\n").data.data ∧
    ("Content-Type: " ++ "" ++ "\r\n" : String).data ∈ splitLines
      ((Smtp.new "username" "password").NewEmail.SetBody
        "MIME-Version: 1.0\r\nContent-Type: \r\n").data.data ∧
    ((Smtp.new "username" "password").NewEmail.SetSubject
      "s\r\nMIME-Version: 1.0\r\nContent-Type: ").content_type_ = "" ∧
    ("MIME-Version: 1.0\r\n" : String).data ∈ headerLines
      ((Smtp.new "username" "password").NewEmail.SetSubject
        "s\r\nMIME-Version: 1.0\r\nContent-Type: ").data ∧
    ("Content-Type: " ++ "" ++ "\r\n" : String).data ∈ headerLines
      ((Smtp.new "username" "password").NewEmail.SetSubject
        "s\r\nMIME-Version: 1.0\r\nContent-Type: ").data := by
  decide

end EzSmtp
